import Mathlib

/-!
# POSIX backend of the IORE benchmark (`src/afio/iore_afio_posix.c`)

A shallow embedding of the eight functions of the POSIX backend and the
properties of its transfer loops.

Conventions of the embedding.

* The operating system is a parameter: a record `Sys σ` of transition functions
  over an arbitrary state `σ`, one per system call the file uses.  Every
  function of the backend returns, next to its C result, the final state and
  the list of the calls it issued, in order (`Event`), each with the value the
  system returned.
* `size_t`, `ssize_t` and `off_t` are 64 bits wide.  Values are `Nat`/`Int`;
  the unsigned subtractions and the casts `(ssize_t) x` of the source are
  written out with `% 2 ^ 64`.  What a system call returns is read into a
  signed 64-bit variable (`wrap_ssize`).  The signed addition
  `nbytes += xferd` wraps (two's complement); the results about runs without
  a transfer error assume a data volume below `2 ^ 63`, where no sum leaves
  the range.
* A pointer into the offset array is modelled by the entries from the pointer
  to the end of the array (`List Int`); `offs++` drops the head.  Reading
  `*offs` behind the last entry is undefined behaviour and gives the outcome
  `Outcome.fault`.
* A data buffer is an address (`Nat`); `buf + nbytes` is address arithmetic.
  The `assert`s of the source say that the pointer arguments are not null;
  here they are objects, never null.
-/

namespace Iore

/-! ## Machine integers -/

/-- Conversion of an integer to `size_t` (value modulo `2 ^ 64`). -/
def to_size (x : Int) : Nat := (x % 2 ^ 64).toNat

/-- The cast `(ssize_t) n` of a `size_t` value. -/
def to_ssize (n : Nat) : Int :=
  if n % 2 ^ 64 < 2 ^ 63 then ((n % 2 ^ 64 : Nat) : Int) else ((n % 2 ^ 64 : Nat) : Int) - 2 ^ 64

/-- Result of a signed 64-bit addition, wrapped into the range of `ssize_t`. -/
def wrap_ssize (x : Int) : Int := (x + 2 ^ 63) % 2 ^ 64 - 2 ^ 63

/-- Subtraction `a - b` in `size_t`. -/
def size_sub (a b : Nat) : Nat := (a % 2 ^ 64 + (2 ^ 64 - b % 2 ^ 64)) % 2 ^ 64

/-- Multiplication `a * b` in `size_t`. -/
def size_mul (a b : Nat) : Nat := (a * b) % 2 ^ 64

/-! ## Constants of `<fcntl.h>` and `<sys/stat.h>` (Linux values) -/

def O_RDONLY : Nat := 0
def O_WRONLY : Nat := 1
def O_CREAT : Nat := 64
def S_IRUSR : Nat := 256
def S_IWUSR : Nat := 128
def S_IRGRP : Nat := 32
def S_IROTH : Nat := 4

/-- Modelled from the spec: `IORE_SUCCESS` is declared in `iore_error.h`, which
is not part of the sources at hand; the spec gives zero as the status of a
successful `create`/`open`. -/
def IORE_SUCCESS : Int := 0

/-! ## System calls -/

/-- One call issued to the outside, with the value it returned. -/
inductive Event where
  | os_open (name : String) (oflag : Nat) (mode : Option Nat) (ret : Int)
  | pwrite (fd : Int) (buf : Nat) (count : Nat) (off : Int) (ret : Int)
  | pread (fd : Int) (buf : Nat) (count : Nat) (off : Int) (ret : Int)
  | lseek (fd : Int) (off : Int) (ret : Int)
  | write (fd : Int) (buf : Nat) (count : Nat) (ret : Int)
  | read (fd : Int) (buf : Nat) (count : Nat) (ret : Int)
  | fsync (fd : Int)
  | dset_to_off (ret : Option Nat)
  | free (ptr : Nat)
  | close (fd : Int) (ret : Int)
  | unlink (name : String) (ret : Int)
  deriving DecidableEq, Repr

/-- The operating system: one transition function per system call.  `lseek` is
always called with `SEEK_SET`; the status of `fsync` is never read. -/
structure Sys (σ : Type) where
  os_open : σ → String → Nat → Option Nat → Int × σ
  pwrite : σ → Int → Nat → Nat → Int → Int × σ
  pread : σ → Int → Nat → Nat → Int → Int × σ
  lseek : σ → Int → Int → Int × σ
  write : σ → Int → Nat → Nat → Int × σ
  read : σ → Int → Nat → Nat → Int × σ
  fsync : σ → Int → σ
  close : σ → Int → Int × σ
  unlink : σ → String → Int × σ

/-- Direction of a transfer loop: the write functions call `pwrite`/`write`,
the read functions `pread`/`read`. -/
inductive Dir where
  | wr
  | rd
  deriving DecidableEq, Repr

/-- The positioned call of a direction: `pwrite` or `pread`. -/
def Sys.pxfer {σ : Type} (S : Sys σ) : Dir → σ → Int → Nat → Nat → Int → Int × σ
  | .wr => S.pwrite
  | .rd => S.pread

/-- The cursor-relative call of a direction: `write` or `read`. -/
def Sys.xfer {σ : Type} (S : Sys σ) : Dir → σ → Int → Nat → Nat → Int × σ
  | .wr => S.write
  | .rd => S.read

/-- Event of a positioned call. -/
def Event.pxfer : Dir → Int → Nat → Nat → Int → Int → Event
  | .wr => Event.pwrite
  | .rd => Event.pread

/-- Event of a cursor-relative call. -/
def Event.xfer : Dir → Int → Nat → Nat → Int → Event
  | .wr => Event.write
  | .rd => Event.read

/-! ## Data model (`iore_afio.h`, `iore_workload.h`; fields the file reads) -/

/-- File handle: logical name and the descriptor `hdle.fint`. -/
structure iore_file_t where
  name : String
  hdle_fint : Int
  deriving DecidableEq, Repr

/-- Offset-set workload `wkld.u.oset`. -/
structure iore_oset_t where
  _file_size : Nat
  my_data_size : Nat
  my_req_size : Nat
  deriving DecidableEq, Repr

/-- Dataset kind tag `wkld.u.dset.type`. -/
inductive iore_wkld_dset_type where
  | IORE_WKLD_DSET_CARTESIAN
  | unsupported (tag : Nat)
  deriving DecidableEq, Repr

/-- Dataset workload `wkld.u.dset`.  `my_dim_sizes` is the memory behind the
pointer `u.cart.my_dim_sizes`, indexed as the source indexes it. -/
structure iore_dset_t where
  type : iore_wkld_dset_type
  _vars_size : Nat
  my_dim_sizes : Int → Nat
  num_dims : Int
  my_size : Nat

/-- The test descriptor.  `seek_rw_single_op` is the value of
`strtob (dict_get (&test->afio.params, AFIO_PARAM_SEEK_RW_SINGLE_OP))`. -/
structure iore_test_t where
  oset : iore_oset_t
  dset : iore_dset_t
  file_mode : Nat
  seek_rw_single_op : Bool
  write_flush_per_req : Bool
  write_flush : Bool

/-- An allocated offset sequence: its start pointer and its entries. -/
structure OffSeq where
  ptr : Nat
  entries : List Int
  deriving DecidableEq, Repr

/-- How a call ends: it returns a value, or it reads behind the end of the
offset array (undefined behaviour). -/
inductive Outcome where
  | ret (v : Int)
  | fault
  deriving DecidableEq, Repr

/-- Result of a call: outcome, final system state, the calls issued in order. -/
structure Res (σ : Type) where
  out : Outcome
  os : σ
  trace : List Event

/-- The same result with the events `es` issued before it. -/
def Res.after {σ : Type} (es : List Event) (r : Res σ) : Res σ :=
  ⟨r.out, r.os, es ++ r.trace⟩

/-! ## `posix_create`, `posix_open`, `posix_close`, `posix_remove` -/

/-- Result of `posix_create`/`posix_open`: status, the file record afterwards,
final system state, calls issued. -/
structure OpenRes (σ : Type) where
  rerr : Int
  file : iore_file_t
  os : σ
  trace : List Event

def posix_create {σ : Type} (S : Sys σ) (file : iore_file_t) (s : σ) : OpenRes σ :=
  let rerr := IORE_SUCCESS
  let oflag := O_CREAT ||| O_WRONLY
  let mode := S_IRUSR ||| S_IWUSR ||| S_IRGRP ||| S_IROTH
  let r := S.os_open s file.name oflag (some mode)
  let fd := r.1
  let ev := [Event.os_open file.name oflag (some mode) fd]
  if 0 ≤ fd then ⟨rerr, ⟨file.name, fd⟩, r.2, ev⟩
  else ⟨fd, file, r.2, ev⟩

def posix_open {σ : Type} (S : Sys σ) (file : iore_file_t) (s : σ) : OpenRes σ :=
  let rerr : Int := 0
  let oflag := O_RDONLY
  let r := S.os_open s file.name oflag none
  let fd := r.1
  let ev := [Event.os_open file.name oflag none fd]
  if 0 ≤ fd then ⟨rerr, ⟨file.name, fd⟩, r.2, ev⟩
  else ⟨fd, file, r.2, ev⟩

def posix_close {σ : Type} (S : Sys σ) (file : iore_file_t) (s : σ) : Res σ :=
  let r := S.close s file.hdle_fint
  ⟨.ret r.1, r.2, [Event.close file.hdle_fint r.1]⟩

def posix_remove {σ : Type} (S : Sys σ) (file : iore_file_t) (s : σ) : Res σ :=
  let r := S.unlink s file.name
  ⟨.ret r.1, r.2, [Event.unlink file.name r.1]⟩

/-! ## Offset-set loops -/

/-- The request size of one iteration:
`req_size = file_size - *offs; if (req_size > max_req_size) req_size = max_req_size;
if (req_size > remaining) req_size = remaining;` (the subtraction is in `size_t`). -/
def oset_req_size (file_size max_req_size remaining : Nat) (off : Int) : Nat :=
  let r0 := size_sub file_size (to_size off)
  let r1 := if r0 > max_req_size then max_req_size else r0
  if r1 > remaining then remaining else r1

/-- The loop `while (remaining && nbytes >= 0)` of the branch
`if (seek_rw_single_op)` of `posix_write_oset` (`d = wr`, with
`fsync_per_req = test->write_flush_per_req`) and of `posix_read_oset`
(`d = rd`, whose body has no `fsync`: `fsync_per_req = false`). -/
def oset_loop_single_op {σ : Type} (S : Sys σ) (d : Dir) (fsync_per_req : Bool) (fd : Int)
    (buf : Nat) (file_size max_req_size : Nat) : List Int → Nat → Int → σ → Res σ
  | [], remaining, nbytes, s =>
    if remaining ≠ 0 ∧ 0 ≤ nbytes then ⟨.fault, s, []⟩ else ⟨.ret nbytes, s, []⟩
  | o :: offs, remaining, nbytes, s =>
    if remaining ≠ 0 ∧ 0 ≤ nbytes then
      let req_size := oset_req_size file_size max_req_size remaining o
      let r := S.pxfer d s fd buf req_size o
      let xferd := wrap_ssize r.1
      let e := Event.pxfer d fd buf req_size o xferd
      if xferd < to_ssize req_size then
        (oset_loop_single_op S d fsync_per_req fd buf file_size max_req_size offs
          (size_sub remaining req_size) (-1) r.2).after [e]
      else if fsync_per_req then
        (oset_loop_single_op S d fsync_per_req fd buf file_size max_req_size offs
          (size_sub remaining req_size) (wrap_ssize (nbytes + xferd)) (S.fsync r.2 fd)).after
          [e, Event.fsync fd]
      else
        (oset_loop_single_op S d fsync_per_req fd buf file_size max_req_size offs
          (size_sub remaining req_size) (wrap_ssize (nbytes + xferd)) r.2).after [e]
    else ⟨.ret nbytes, s, []⟩

/-- The loop of the branch `else /* not seek_rw_single_op */` of
`posix_write_oset` and `posix_read_oset`.  The local `req_size` keeps its last
value when the seek fails, so it is part of the loop state. -/
def oset_loop_seek {σ : Type} (S : Sys σ) (d : Dir) (fsync_per_req : Bool) (fd : Int)
    (buf : Nat) (file_size max_req_size : Nat) : List Int → Nat → Nat → Int → σ → Res σ
  | [], remaining, _, nbytes, s =>
    if remaining ≠ 0 ∧ 0 ≤ nbytes then ⟨.fault, s, []⟩ else ⟨.ret nbytes, s, []⟩
  | o :: offs, remaining, req_size, nbytes, s =>
    if remaining ≠ 0 ∧ 0 ≤ nbytes then
      let p := S.lseek s fd o
      let pos := wrap_ssize p.1
      let e0 := Event.lseek fd o pos
      if pos < 0 then
        (oset_loop_seek S d fsync_per_req fd buf file_size max_req_size offs
          (size_sub remaining req_size) req_size (-1) p.2).after [e0]
      else
        let req_size := oset_req_size file_size max_req_size remaining o
        let r := S.xfer d p.2 fd buf req_size
        let xferd := wrap_ssize r.1
        let e := Event.xfer d fd buf req_size xferd
        if xferd < to_ssize req_size then
          (oset_loop_seek S d fsync_per_req fd buf file_size max_req_size offs
            (size_sub remaining req_size) req_size (-1) r.2).after [e0, e]
        else if fsync_per_req then
          (oset_loop_seek S d fsync_per_req fd buf file_size max_req_size offs
            (size_sub remaining req_size) req_size (wrap_ssize (nbytes + xferd))
            (S.fsync r.2 fd)).after [e0, e, Event.fsync fd]
        else
          (oset_loop_seek S d fsync_per_req fd buf file_size max_req_size offs
            (size_sub remaining req_size) req_size (wrap_ssize (nbytes + xferd)) r.2).after
            [e0, e]
    else ⟨.ret nbytes, s, []⟩

/-- The tail of `posix_write_oset` and `posix_write_dset`:
`if (nbytes > 0 && test->write_flush) fsync (fd);`. -/
def final_flush {σ : Type} (S : Sys σ) (write_flush : Bool) (fd : Int) (r : Res σ) : Res σ :=
  match r.out with
  | .ret nbytes =>
    if 0 < nbytes ∧ write_flush = true then ⟨.ret nbytes, S.fsync r.os fd, r.trace ++ [Event.fsync fd]⟩
    else r
  | .fault => r

/-- `posix_write_oset (file, buf, offs, test)`.  `req_size0` is the
indeterminate initial content of the local `req_size`. -/
def posix_write_oset {σ : Type} (S : Sys σ) (file : iore_file_t) (buf : Nat) (offs : List Int)
    (test : iore_test_t) (req_size0 : Nat) (s : σ) : Res σ :=
  let nbytes : Int := 0
  let fd := file.hdle_fint
  let file_size := test.oset._file_size
  let remaining := test.oset.my_data_size
  let max_req_size := test.oset.my_req_size
  final_flush S test.write_flush fd
    (if test.seek_rw_single_op then
      oset_loop_single_op S .wr test.write_flush_per_req fd buf file_size max_req_size offs
        remaining nbytes s
    else
      oset_loop_seek S .wr test.write_flush_per_req fd buf file_size max_req_size offs
        remaining req_size0 nbytes s)

/-- `posix_read_oset (file, buf, offs, test)`. -/
def posix_read_oset {σ : Type} (S : Sys σ) (file : iore_file_t) (buf : Nat) (offs : List Int)
    (test : iore_test_t) (req_size0 : Nat) (s : σ) : Res σ :=
  let nbytes : Int := 0
  let fd := file.hdle_fint
  let file_size := test.oset._file_size
  let remaining := test.oset.my_data_size
  let max_req_size := test.oset.my_req_size
  if test.seek_rw_single_op then
    oset_loop_single_op S .rd false fd buf file_size max_req_size offs remaining nbytes s
  else
    oset_loop_seek S .rd false fd buf file_size max_req_size offs remaining req_size0 nbytes s

/-! ## Dataset loops -/

/-- The loop `while (nbytes < (ssize_t) dset_size && nbytes >= 0)` of the branch
`if (seek_rw_single_op)` of `posix_write_dset` (`d = wr`,
`fsync_per_req = test->write_flush_per_req`) and of `posix_read_dset`
(`d = rd`, no `fsync` in the body: `fsync_per_req = false`). -/
def dset_loop_single_op {σ : Type} (S : Sys σ) (d : Dir) (fsync_per_req : Bool) (fd : Int)
    (buf : Nat) (dset_size req_size : Nat) : List Int → Int → σ → Res σ
  | [], nbytes, s =>
    if nbytes < to_ssize dset_size ∧ 0 ≤ nbytes then ⟨.fault, s, []⟩ else ⟨.ret nbytes, s, []⟩
  | o :: offs, nbytes, s =>
    if nbytes < to_ssize dset_size ∧ 0 ≤ nbytes then
      let r := S.pxfer d s fd (buf + nbytes.toNat) req_size o
      let xferd := wrap_ssize r.1
      let e := Event.pxfer d fd (buf + nbytes.toNat) req_size o xferd
      if xferd < to_ssize req_size then
        (dset_loop_single_op S d fsync_per_req fd buf dset_size req_size offs (-1) r.2).after [e]
      else if fsync_per_req then
        (dset_loop_single_op S d fsync_per_req fd buf dset_size req_size offs
          (wrap_ssize (nbytes + xferd)) (S.fsync r.2 fd)).after [e, Event.fsync fd]
      else
        (dset_loop_single_op S d fsync_per_req fd buf dset_size req_size offs
          (wrap_ssize (nbytes + xferd)) r.2).after [e]
    else ⟨.ret nbytes, s, []⟩

/-- The loop of the branch `else /* not seek_rw_single_op */` of
`posix_write_dset` and `posix_read_dset`. -/
def dset_loop_seek {σ : Type} (S : Sys σ) (d : Dir) (fsync_per_req : Bool) (fd : Int)
    (buf : Nat) (dset_size req_size : Nat) : List Int → Int → σ → Res σ
  | [], nbytes, s =>
    if nbytes < to_ssize dset_size ∧ 0 ≤ nbytes then ⟨.fault, s, []⟩ else ⟨.ret nbytes, s, []⟩
  | o :: offs, nbytes, s =>
    if nbytes < to_ssize dset_size ∧ 0 ≤ nbytes then
      let p := S.lseek s fd o
      let pos := wrap_ssize p.1
      let e0 := Event.lseek fd o pos
      if pos < 0 then
        (dset_loop_seek S d fsync_per_req fd buf dset_size req_size offs (-1) p.2).after [e0]
      else
        let r := S.xfer d p.2 fd (buf + nbytes.toNat) req_size
        let xferd := wrap_ssize r.1
        let e := Event.xfer d fd (buf + nbytes.toNat) req_size xferd
        if xferd < to_ssize req_size then
          (dset_loop_seek S d fsync_per_req fd buf dset_size req_size offs (-1) r.2).after [e0, e]
        else if fsync_per_req then
          (dset_loop_seek S d fsync_per_req fd buf dset_size req_size offs
            (wrap_ssize (nbytes + xferd)) (S.fsync r.2 fd)).after [e0, e, Event.fsync fd]
        else
          (dset_loop_seek S d fsync_per_req fd buf dset_size req_size offs
            (wrap_ssize (nbytes + xferd)) r.2).after [e0, e]
    else ⟨.ret nbytes, s, []⟩

/-- The request size of a Cartesian dataset:
`_vars_size * u.cart.my_dim_sizes[u.cart.num_dims - 1]`, in `size_t`. -/
def dset_req_size (dset : iore_dset_t) : Nat :=
  size_mul dset._vars_size (dset.my_dim_sizes (dset.num_dims - 1))

/-- The tail of the dataset functions: `free (first_off); return nbytes;`.
`first_off` is the pointer the generator returned. -/
def free_offs {σ : Type} (first_off : Nat) (r : Res σ) : Res σ :=
  match r.out with
  | .ret nbytes => ⟨.ret nbytes, r.os, r.trace ++ [Event.free first_off]⟩
  | .fault => r

/-- `posix_write_dset (file, buf, test)`.  The offset generator `dset_to_off`
(`iore_util`, not among the sources at hand) is a parameter: it returns `none`
for a null pointer. -/
def posix_write_dset {σ : Type} (S : Sys σ) (dset_to_off : iore_dset_t → Nat → Option OffSeq)
    (file : iore_file_t) (buf : Nat) (test : iore_test_t) (s : σ) : Res σ :=
  let nbytes : Int := 0
  let fd := file.hdle_fint
  let dset_size := test.dset.my_size
  if test.dset.type = .IORE_WKLD_DSET_CARTESIAN then
    let req_size := dset_req_size test.dset
    match dset_to_off test.dset test.file_mode with
    | none => ⟨.ret (-1), s, [Event.dset_to_off none]⟩
    | some first_off =>
      (free_offs first_off.ptr
        (final_flush S test.write_flush fd
          (if test.seek_rw_single_op then
            dset_loop_single_op S .wr test.write_flush_per_req fd buf dset_size req_size
              first_off.entries nbytes s
          else
            dset_loop_seek S .wr test.write_flush_per_req fd buf dset_size req_size
              first_off.entries nbytes s))).after [Event.dset_to_off (some first_off.ptr)]
  else ⟨.ret (-1), s, []⟩

/-- `posix_read_dset (file, buf, test)`. -/
def posix_read_dset {σ : Type} (S : Sys σ) (dset_to_off : iore_dset_t → Nat → Option OffSeq)
    (file : iore_file_t) (buf : Nat) (test : iore_test_t) (s : σ) : Res σ :=
  let nbytes : Int := 0
  let fd := file.hdle_fint
  let dset_size := test.dset.my_size
  if test.dset.type = .IORE_WKLD_DSET_CARTESIAN then
    let req_size := dset_req_size test.dset
    match dset_to_off test.dset test.file_mode with
    | none => ⟨.ret (-1), s, [Event.dset_to_off none]⟩
    | some first_off =>
      (free_offs first_off.ptr
        (if test.seek_rw_single_op then
          dset_loop_single_op S .rd false fd buf dset_size req_size first_off.entries nbytes s
        else
          dset_loop_seek S .rd false fd buf dset_size req_size first_off.entries nbytes s)).after
        [Event.dset_to_off (some first_off.ptr)]
  else ⟨.ret (-1), s, []⟩

/-! ## Reading a trace -/

/-- A seek, transfer or flush call. -/
def Event.is_io : Event → Bool
  | .pwrite .. | .pread .. | .lseek .. | .write .. | .read .. | .fsync .. => true
  | _ => false

/-- A transfer call: `pwrite`, `pread`, `write` or `read`. -/
def Event.is_xfer : Event → Bool
  | .pwrite .. | .pread .. | .write .. | .read .. => true
  | _ => false

/-- The call went wrong: a seek with a negative result, or a transfer that
moved fewer bytes than requested. -/
def Event.failed : Event → Bool
  | .pwrite _ _ count _ ret | .pread _ _ count _ ret
  | .write _ _ count ret | .read _ _ count ret => decide (ret < (count : Int))
  | .lseek _ _ ret => decide (ret < 0)
  | _ => false

/-- The call did what was asked: a seek with a non-negative result, a transfer
of exactly the number of bytes requested; calls that cannot fail count as full. -/
def Event.full : Event → Bool
  | .pwrite _ _ count _ ret | .pread _ _ count _ ret
  | .write _ _ count ret | .read _ _ count ret => decide (ret = (count : Int))
  | .lseek _ _ ret => decide (0 ≤ ret)
  | _ => true

/-- A system in which nothing ever fails: seeks return the offset, transfers the
count (state: nothing). -/
def ideal_sys : Sys Unit where
  os_open := fun _ _ _ _ => (3, ())
  pwrite := fun _ _ _ count _ => (count, ())
  pread := fun _ _ _ count _ => (count, ())
  lseek := fun _ _ off => (off, ())
  write := fun _ _ _ count => (count, ())
  read := fun _ _ _ count => (count, ())
  fsync := fun _ _ => ()
  close := fun _ _ => (0, ())
  unlink := fun _ _ => (0, ())

/-- The request size fits `ssize_t`: a transfer of at most `2 ^ 63 - 1` bytes
(calls without a size fit). -/
def Event.fits : Event → Bool
  | .pwrite _ _ count _ _ | .pread _ _ count _ _
  | .write _ _ count _ | .read _ _ count _ => decide (count < 2 ^ 63)
  | _ => true

/-- The file offset a call aims at: the offset of a positioned transfer or of
a seek. -/
def Event.target : Event → Option Int
  | .pwrite _ _ _ off _ | .pread _ _ _ off _ | .lseek _ off _ => some off
  | _ => none

/-- The number of bytes a transfer call asks for. -/
def Event.size : Event → Option Int
  | .pwrite _ _ count _ _ | .pread _ _ count _ _
  | .write _ _ count _ | .read _ _ count _ => some (count : Int)
  | _ => none

/-- The buffer address a transfer call is given. -/
def Event.buffer : Event → Option Nat
  | .pwrite _ buf _ _ _ | .pread _ buf _ _ _
  | .write _ buf _ _ | .read _ buf _ _ => some buf
  | _ => none

/-- The four transfer entries of the table `afio_posix`. -/
inductive Op where
  | write_oset
  | read_oset
  | write_dset
  | read_dset
  deriving DecidableEq, Repr

/-- A call through the table `afio_posix`: the offset array `offs` and the
initial content `req_size0` of the local `req_size` are used by the offset-set
entries only, the generator `dset_to_off` by the dataset entries only. -/
def transfer {σ : Type} (S : Sys σ) (dset_to_off : iore_dset_t → Nat → Option OffSeq)
    (op : Op) (file : iore_file_t) (buf : Nat) (offs : List Int) (test : iore_test_t)
    (req_size0 : Nat) (s : σ) : Res σ :=
  match op with
  | .write_oset => posix_write_oset S file buf offs test req_size0 s
  | .read_oset => posix_read_oset S file buf offs test req_size0 s
  | .write_dset => posix_write_dset S dset_to_off file buf test s
  | .read_dset => posix_read_dset S dset_to_off file buf test s

/-- The data volume of the participant for an entry: `my_data_size` for the
offset-set entries, `my_size` for the dataset entries. -/
def data_volume (op : Op) (test : iore_test_t) : Nat :=
  match op with
  | .write_oset | .read_oset => test.oset.my_data_size
  | .write_dset | .read_dset => test.dset.my_size

/-! ## The shape of a run -/

/-- The call is one the source treats as failed: a seek with a negative result,
or a transfer with `xferd < (ssize_t) req_size`. -/
def Event.rejected : Event → Bool
  | .pwrite _ _ count _ ret | .pread _ _ count _ ret
  | .write _ _ count ret | .read _ _ count ret => decide (ret < to_ssize count)
  | .lseek _ _ ret => decide (ret < 0)
  | _ => false

/-- A trace as the loops leave it: no call is rejected, or the one rejected
call is the last one. -/
def stops_at_rejection (tr : List Event) : Prop :=
  (∀ e ∈ tr, e.rejected = false) ∨
    ∃ pre e, tr = pre ++ [e] ∧ e.rejected = true ∧ ∀ x ∈ pre, x.rejected = false

/-- A flush call. -/
def Event.is_fsync : Event → Bool
  | .fsync _ => true
  | _ => false

/-- The trace `tr` with the event `x` put right after every event that
satisfies `p`. -/
def insert_after (p : Event → Bool) (x : Event) : List Event → List Event
  | [] => []
  | e :: tr => if p e then e :: x :: insert_after p x tr else e :: insert_after p x tr

/-- The flush policy inside a loop, applied to the seek and transfer calls
`tr` of a run: with the flag on, `fsync (fd)` follows every transfer call that
satisfies `ok`; with the flag off, nothing is added. -/
def per_req_flush (fl : Bool) (ok : Event → Bool) (fd : Int) (tr : List Event) : List Event :=
  if fl then insert_after (fun e => e.is_xfer && ok e) (Event.fsync fd) tr else tr

/-- The seek and transfer calls of a trace (its flush calls left out). -/
def seeks_and_xfers (tr : List Event) : List Event :=
  tr.filter (fun e => e.is_io && !e.is_fsync)

/-- What the loops guarantee about the calls they issue, whatever the system
does: the only rejected call is the last one, a rejected call makes the result
`-1`, only seek, transfer and flush calls are issued, and the flush calls are
those of the per-request flush policy. -/
structure LoopShape {σ : Type} (fl : Bool) (fd : Int) (r : Res σ) : Prop where
  stops : stops_at_rejection r.trace
  rejected_ret : (∃ e ∈ r.trace, e.rejected = true) → r.out = .ret (-1)
  only_io : ∀ e ∈ r.trace, e.is_io = true
  flushes : r.trace = per_req_flush fl (fun e => !e.rejected) fd (seeks_and_xfers r.trace)

/-! ## The frame of an entry: calls before and after the loop -/

/-- The write entries of the table. -/
def Op.is_write : Op → Bool
  | .write_oset | .write_dset => true
  | _ => false

/-- The dataset entries of the table. -/
def Op.is_dset : Op → Bool
  | .write_dset | .read_dset => true
  | _ => false

/-- The outcome is a return value greater than zero. -/
def Outcome.positive : Outcome → Bool
  | .ret n => decide (0 < n)
  | .fault => false

/-- A dataset entry that ends before its loop: the kind is not Cartesian, or
the generator returned a null pointer. -/
def fails_before_loop (gen : iore_dset_t → Nat → Option OffSeq) (op : Op) (test : iore_test_t) :
    Bool :=
  op.is_dset &&
    (decide (test.dset.type ≠ .IORE_WKLD_DSET_CARTESIAN) ||
      (gen test.dset test.file_mode).isNone)

/-- The calls of an entry before its loop: the call of the generator, for a
dataset entry of Cartesian kind. -/
def prologue (gen : iore_dset_t → Nat → Option OffSeq) (op : Op) (test : iore_test_t) :
    List Event :=
  if op.is_dset = true ∧ test.dset.type = .IORE_WKLD_DSET_CARTESIAN then
    [Event.dset_to_off ((gen test.dset test.file_mode).map OffSeq.ptr)]
  else []

/-- The calls of an entry after its loop and final flush: the release of the
sequence the generator returned. -/
def epilogue (gen : iore_dset_t → Nat → Option OffSeq) (op : Op) (test : iore_test_t) :
    List Event :=
  if op.is_dset = true ∧ test.dset.type = .IORE_WKLD_DSET_CARTESIAN then
    match gen test.dset test.file_mode with
    | some first_off => [Event.free first_off.ptr]
    | none => []
  else []

/-- The final flush of an entry whose loop ended with `out`. -/
def final_flush_calls (op : Op) (test : iore_test_t) (fd : Int) (out : Outcome) : List Event :=
  if out.positive = true ∧ op.is_write = true ∧ test.write_flush = true then [Event.fsync fd]
  else []

/-! ## Systems and workloads of the examples -/

/-- A system whose transfers always move 100 bytes, whatever is asked. -/
def short_sys : Sys Unit where
  os_open := fun _ _ _ _ => (3, ())
  pwrite := fun _ _ _ _ _ => (100, ())
  pread := fun _ _ _ _ _ => (100, ())
  lseek := fun _ _ off => (off, ())
  write := fun _ _ _ _ => (100, ())
  read := fun _ _ _ _ => (100, ())
  fsync := fun _ _ => ()
  close := fun _ _ => (0, ())
  unlink := fun _ _ => (0, ())

/-- A system in which `open` fails with `-1`. -/
def closed_sys : Sys Unit where
  os_open := fun _ _ _ _ => (-1, ())
  pwrite := fun _ _ _ _ _ => (-1, ())
  pread := fun _ _ _ _ _ => (-1, ())
  lseek := fun _ _ _ => (-1, ())
  write := fun _ _ _ _ => (-1, ())
  read := fun _ _ _ _ => (-1, ())
  fsync := fun _ _ => ()
  close := fun _ _ => (-1, ())
  unlink := fun _ _ => (-1, ())

/-- A system whose state is the value of `errno`: `open` fails for a missing
file, returns -1 and sets `errno` to `ENOENT` (2); the other calls fail with
`EBADF` (9). -/
def errno_sys : Sys Int where
  os_open := fun _ _ _ _ => (-1, 2)
  pwrite := fun _ _ _ _ _ => (-1, 9)
  pread := fun _ _ _ _ _ => (-1, 9)
  lseek := fun _ _ _ => (-1, 9)
  write := fun _ _ _ _ => (-1, 9)
  read := fun _ _ _ _ => (-1, 9)
  fsync := fun _ _ => 9
  close := fun _ _ => (-1, 9)
  unlink := fun _ _ => (-1, 2)

/-- A Cartesian dataset with dimensions `dims` and elements of `vars_size` bytes. -/
def cartesian (vars_size : Nat) (dims : List Nat) (my_size : Nat) : iore_dset_t :=
  ⟨.IORE_WKLD_DSET_CARTESIAN, vars_size, fun i => dims.getD i.toNat 0, dims.length, my_size⟩

/-- A test descriptor from its parts. -/
def mk_test (file_size my_data_size my_req_size : Nat) (dset : iore_dset_t)
    (single_op flush_per_req flush : Bool) : iore_test_t :=
  ⟨⟨file_size, my_data_size, my_req_size⟩, dset, 0, single_op, flush_per_req, flush⟩

/-- A generator that returns the sequence `entries` at address `ptr`. -/
def gen_const (ptr : Nat) (entries : List Int) : iore_dset_t → Nat → Option OffSeq :=
  fun _ _ => some ⟨ptr, entries⟩

/-- A generator that fails to allocate. -/
def gen_null : iore_dset_t → Nat → Option OffSeq :=
  fun _ _ => none

/-- The file handle used in the examples: descriptor 3. -/
def file3 : iore_file_t := ⟨"f", 3⟩

/-- A system that counts its transfers: the first two move all bytes, every
later one moves 100 bytes. -/
def flaky_sys : Sys Nat where
  os_open := fun s _ _ _ => (3, s)
  pwrite := fun s _ _ count _ => (if s < 2 then (count : Int) else 100, s + 1)
  pread := fun s _ _ count _ => (if s < 2 then (count : Int) else 100, s + 1)
  lseek := fun s _ off => (off, s)
  write := fun s _ _ count => (if s < 2 then (count : Int) else 100, s + 1)
  read := fun s _ _ count => (if s < 2 then (count : Int) else 100, s + 1)
  fsync := fun s _ => s
  close := fun s _ => (0, s)
  unlink := fun s _ => (0, s)

/-- The dataset of the scenario of the spec: dimensions 2 x 3 x 4, elements of
8 bytes, 192 bytes in all. -/
def dset_2_3_4 : iore_dset_t := cartesian 8 [2, 3, 4] 192

/-- The offset-set scenario of the spec: file of 1024 bytes, data volume 1024,
requests of at most 256 bytes. -/
def test_1024 (single_op flush_per_req flush : Bool) : iore_test_t :=
  mk_test 1024 1024 256 dset_2_3_4 single_op flush_per_req flush

/-! ## Requests of a run without a transfer error -/

/-- The requests the offset-set loops issue while every call goes through:
one per offset, in order, of the size the source computes, until `remaining`
is zero or the array ends. -/
def oset_plan (file_size max_req_size : Nat) : Nat → List Int → List (Int × Nat)
  | _, [] => []
  | remaining, o :: offs =>
    if remaining = 0 then []
    else (o, oset_req_size file_size max_req_size remaining o) ::
      oset_plan file_size max_req_size
        (remaining - oset_req_size file_size max_req_size remaining o) offs

/-- The number of bytes the requests at the offsets `offs` can carry at most:
for each offset the smaller of the maximum request size and the distance
`file_size - offset` as the source computes it. -/
def oset_capacity (file_size max_req_size : Nat) (offs : List Int) : Nat :=
  (offs.map (fun o => min max_req_size (size_sub file_size (to_size o)))).sum

/-- The size fields of a test fit `size_t`. -/
def iore_test_t.in_range (test : iore_test_t) : Prop :=
  test.oset._file_size < 2 ^ 64 ∧ test.oset.my_data_size < 2 ^ 64 ∧
    test.oset.my_req_size < 2 ^ 64 ∧ test.dset.my_size < 2 ^ 64

/-! ## The loop inside an entry -/

/-- The offset-set loop of a call: the branch the flag `seek_rw_single_op`
selects. -/
def oset_loop {σ : Type} (S : Sys σ) (d : Dir) (fsync_per_req single_op : Bool) (fd : Int)
    (buf file_size max_req_size : Nat) (offs : List Int) (remaining req_size : Nat)
    (nbytes : Int) (s : σ) : Res σ :=
  if single_op then
    oset_loop_single_op S d fsync_per_req fd buf file_size max_req_size offs remaining nbytes s
  else
    oset_loop_seek S d fsync_per_req fd buf file_size max_req_size offs remaining req_size
      nbytes s

/-- The dataset loop of a call: the branch the flag `seek_rw_single_op` selects. -/
def dset_loop {σ : Type} (S : Sys σ) (d : Dir) (fsync_per_req single_op : Bool) (fd : Int)
    (buf dset_size req_size : Nat) (offs : List Int) (nbytes : Int) (s : σ) : Res σ :=
  if single_op then dset_loop_single_op S d fsync_per_req fd buf dset_size req_size offs nbytes s
  else dset_loop_seek S d fsync_per_req fd buf dset_size req_size offs nbytes s

/-- The direction of an entry. -/
def Op.dir : Op → Dir
  | .write_oset | .write_dset => .wr
  | .read_oset | .read_dset => .rd

/-- What follows the loop of an entry before the offsets are released: the
final flush, in the write entries. -/
def entry_tail {σ : Type} (S : Sys σ) (op : Op) (test : iore_test_t) (fd : Int) (r : Res σ) :
    Res σ :=
  if op.is_write then final_flush S test.write_flush fd r else r

/-- The offsets at hand suffice for the data volume.  Offset-set entries: the
requests at the offsets of the array can carry `my_data_size` bytes.  Dataset
entries: the kind is Cartesian, `my_size` is `k` requests of the request size,
and the generator returns a sequence of at least `k` offsets. -/
def enough_offsets (gen : iore_dset_t → Nat → Option OffSeq) (op : Op) (offs : List Int)
    (test : iore_test_t) : Prop :=
  match op with
  | .write_oset | .read_oset =>
    test.oset.my_data_size ≤ oset_capacity test.oset._file_size test.oset.my_req_size offs
  | .write_dset | .read_dset =>
    test.dset.type = .IORE_WKLD_DSET_CARTESIAN ∧
      ∃ seq k, gen test.dset test.file_mode = some seq ∧ k ≤ seq.entries.length ∧
        test.dset.my_size = k * dset_req_size test.dset

/-- The generator `gen` with every sequence cut after its first `n` entries. -/
def gen_take (n : Nat) (gen : iore_dset_t → Nat → Option OffSeq) :
    iore_dset_t → Nat → Option OffSeq :=
  fun dset mode => (gen dset mode).map (fun q => ⟨q.ptr, q.entries.take n⟩)

/-- The number of iterations of the loop of a call: the number of its calls
that aim at an offset (positioned transfers and seeks). -/
def iterations (tr : List Event) : Nat := (tr.filterMap Event.target).length

/-- A system whose transfers move nothing and report 0 bytes. -/
def idle_sys : Sys Unit where
  os_open := fun _ _ _ _ => (3, ())
  pwrite := fun _ _ _ _ _ => (0, ())
  pread := fun _ _ _ _ _ => (0, ())
  lseek := fun _ _ off => (off, ())
  write := fun _ _ _ _ => (0, ())
  read := fun _ _ _ _ => (0, ())
  fsync := fun _ _ => ()
  close := fun _ _ => (0, ())
  unlink := fun _ _ => (0, ())

/-- The number of requests of `req_size` bytes that cover `size` bytes:
`size / req_size`, rounded up. -/
def ceil_div (size req_size : Nat) : Nat := (size + req_size - 1) / req_size

/-! ## A file as an array of bytes -/

/-- The `n` values of `f` from position `start` on. -/
def bytes_of (f : Nat → Nat) (start n : Nat) : List Nat :=
  (List.range n).map (fun j => f (start + j))

/-- The content `data` with the `n` bytes of memory at `buf` stored from
position `pos` on. -/
def store (mem : Nat → Nat) (buf : Nat) (data : Nat → Nat) (pos n : Nat) : Nat → Nat :=
  fun p => if pos ≤ p ∧ p < pos + n then mem (buf + (p - pos)) else data p

/-- The memory `mem` with the `n` bytes of the file from position `pos` on
loaded at `buf`. -/
def load (data : Nat → Nat) (mem : Nat → Nat) (buf pos n : Nat) : Nat → Nat :=
  fun a => if buf ≤ a ∧ a < buf + n then data (pos + (a - buf)) else mem a

/-- A file of bytes with its cursor, the memory of the process, and a record of
the bytes every write stored and every read returned, with their offsets. -/
structure ByteFile where
  data : Nat → Nat
  mem : Nat → Nat
  pos : Nat
  wlog : List (Int × List Nat)
  rlog : List (Int × List Nat)

/-- A write of `n` bytes from `buf` at position `pos`: all bytes are stored. -/
def ByteFile.put (s : ByteFile) (buf n pos : Nat) : ByteFile :=
  ⟨store s.mem buf s.data pos n, s.mem, s.pos, s.wlog ++ [((pos : Int), bytes_of s.mem buf n)],
    s.rlog⟩

/-- A read of `n` bytes into `buf` at position `pos`: the stored bytes are
returned in full. -/
def ByteFile.get (s : ByteFile) (buf n pos : Nat) : ByteFile :=
  ⟨s.data, load s.data s.mem buf pos n, s.pos, s.wlog,
    s.rlog ++ [((pos : Int), bytes_of s.data pos n)]⟩

/-- The cursor moved to `pos`. -/
def ByteFile.seek (s : ByteFile) (pos : Nat) : ByteFile :=
  ⟨s.data, s.mem, pos, s.wlog, s.rlog⟩

/-- The system of one file of bytes: positioned and cursor-relative writes
store all bytes asked for, reads return the stored bytes in full, a seek to a
non-negative offset goes through; a negative offset is an error. -/
def byte_sys : Sys ByteFile where
  os_open := fun s _ _ _ => (3, s)
  pwrite := fun s _ buf n off => if off < 0 then (-1, s) else ((n : Int), s.put buf n off.toNat)
  pread := fun s _ buf n off => if off < 0 then (-1, s) else ((n : Int), s.get buf n off.toNat)
  lseek := fun s _ off => if off < 0 then (-1, s) else (off, s.seek off.toNat)
  write := fun s _ buf n => ((n : Int), (s.put buf n s.pos).seek (s.pos + n))
  read := fun s _ buf n => ((n : Int), (s.get buf n s.pos).seek (s.pos + n))
  fsync := fun s _ => s
  close := fun s _ => (0, s)
  unlink := fun s _ => (0, s)

/-- The file content after the writes of a plan, each taking its bytes from
the memory at `buf`. -/
def apply_plan (mem : Nat → Nat) (buf : Nat) : List (Int × Nat) → (Nat → Nat) → (Nat → Nat)
  | [], data => data
  | (o, n) :: plan, data => apply_plan mem buf plan (store mem buf data o.toNat n)

/-- An empty file, the memory holding the byte `a % 256` at address `a`. -/
def blank_file : ByteFile := ⟨fun _ => 0, fun a => a % 256, 0, [], []⟩

/-! # Theorems -/

/-! ## Machine integers -/

theorem to_ssize_of_lt {n : Nat} (h : n < 2 ^ 63) : to_ssize n = (n : Int) := by
  unfold to_ssize
  have h1 : n % 2 ^ 64 = n := Nat.mod_eq_of_lt (by omega)
  rw [h1, if_pos h]

theorem wrap_ssize_of_range {x : Int} (h0 : -2 ^ 63 ≤ x) (h1 : x < 2 ^ 63) :
    wrap_ssize x = x := by
  unfold wrap_ssize
  rw [Int.emod_eq_of_lt (by omega) (by omega)]
  omega

theorem wrap_ssize_lt (x : Int) : wrap_ssize x < 2 ^ 63 := by
  unfold wrap_ssize
  have := Int.emod_lt_of_pos (x + 2 ^ 63) (show (0 : Int) < 2 ^ 64 by norm_num)
  omega

theorem wrap_ssize_ge (x : Int) : -2 ^ 63 ≤ wrap_ssize x := by
  unfold wrap_ssize
  have := Int.emod_nonneg (x + 2 ^ 63) (show (2 : Int) ^ 64 ≠ 0 by norm_num)
  omega

theorem size_sub_of_le {a b : Nat} (ha : a < 2 ^ 64) (hb : b ≤ a) : size_sub a b = a - b := by
  unfold size_sub
  rw [Nat.mod_eq_of_lt ha, Nat.mod_eq_of_lt (show b < 2 ^ 64 by omega)]
  omega

theorem oset_req_size_le_remaining (fs mx rem : Nat) (o : Int) :
    oset_req_size fs mx rem o ≤ rem := by
  unfold oset_req_size
  simp only
  split_ifs <;> omega

theorem oset_req_size_le_max (fs mx rem : Nat) (o : Int) :
    oset_req_size fs mx rem o ≤ mx := by
  unfold oset_req_size
  simp only
  split_ifs <;> omega

/-! ## Traces -/

section
variable {σ : Type}

@[simp] theorem Res.after_out (es : List Event) (r : Res σ) : (r.after es).out = r.out := rfl
@[simp] theorem Res.after_trace (es : List Event) (r : Res σ) :
    (r.after es).trace = es ++ r.trace := rfl
@[simp] theorem Res.after_os (es : List Event) (r : Res σ) : (r.after es).os = r.os := rfl

theorem stops_nil : stops_at_rejection [] := Or.inl (by simp)

theorem stops_single (e : Event) : stops_at_rejection [e] := by
  cases h : e.rejected
  · exact Or.inl (by simp [h])
  · exact Or.inr ⟨[], e, by simp, h, by simp⟩

theorem stops_cons {e : Event} {tr : List Event} (he : e.rejected = false)
    (h : stops_at_rejection tr) : stops_at_rejection (e :: tr) := by
  rcases h with h | ⟨pre, x, rfl, hx, hpre⟩
  · exact Or.inl (by simpa [he] using h)
  · exact Or.inr ⟨e :: pre, x, by simp, hx, by simpa [he] using hpre⟩

@[simp] theorem rejected_pxfer (d : Dir) (fd : Int) (buf n : Nat) (o r : Int) :
    (Event.pxfer d fd buf n o r).rejected = decide (r < to_ssize n) := by
  cases d <;> rfl

@[simp] theorem rejected_xfer (d : Dir) (fd : Int) (buf n : Nat) (r : Int) :
    (Event.xfer d fd buf n r).rejected = decide (r < to_ssize n) := by
  cases d <;> rfl

theorem oset_loop_single_op_neg (S : Sys σ) (d : Dir) (fl : Bool) (fd : Int) (buf fs mx : Nat)
    (offs : List Int) (rem : Nat) (nbytes : Int) (s : σ) (h : nbytes < 0) :
    oset_loop_single_op S d fl fd buf fs mx offs rem nbytes s = ⟨.ret nbytes, s, []⟩ := by
  cases offs <;> simp [oset_loop_single_op, Int.not_le.mpr h]

end

/-! ## What every loop guarantees -/

section
variable {σ : Type}

@[simp] theorem is_io_pxfer (d : Dir) (fd : Int) (buf n : Nat) (o r : Int) :
    (Event.pxfer d fd buf n o r).is_io = true := by cases d <;> rfl
@[simp] theorem is_io_xfer (d : Dir) (fd : Int) (buf n : Nat) (r : Int) :
    (Event.xfer d fd buf n r).is_io = true := by cases d <;> rfl
@[simp] theorem is_xfer_pxfer (d : Dir) (fd : Int) (buf n : Nat) (o r : Int) :
    (Event.pxfer d fd buf n o r).is_xfer = true := by cases d <;> rfl
@[simp] theorem is_xfer_xfer (d : Dir) (fd : Int) (buf n : Nat) (r : Int) :
    (Event.xfer d fd buf n r).is_xfer = true := by cases d <;> rfl
@[simp] theorem is_fsync_pxfer (d : Dir) (fd : Int) (buf n : Nat) (o r : Int) :
    (Event.pxfer d fd buf n o r).is_fsync = false := by cases d <;> rfl
@[simp] theorem is_fsync_xfer (d : Dir) (fd : Int) (buf n : Nat) (r : Int) :
    (Event.xfer d fd buf n r).is_fsync = false := by cases d <;> rfl

theorem Res.after_after (es fs : List Event) (r : Res σ) :
    (r.after fs).after es = r.after (es ++ fs) := by
  simp [Res.after]

theorem seeks_and_xfers_cons {e : Event} (tr : List Event) (hio : e.is_io = true)
    (hf : e.is_fsync = false) : seeks_and_xfers (e :: tr) = e :: seeks_and_xfers tr := by
  simp [seeks_and_xfers, List.filter_cons, hio, hf]

theorem seeks_and_xfers_fsync (fd : Int) (tr : List Event) :
    seeks_and_xfers (Event.fsync fd :: tr) = seeks_and_xfers tr := by
  simp [seeks_and_xfers, List.filter_cons, Event.is_fsync]

theorem shape_done (fl : Bool) (fd : Int) (o : Outcome) (s : σ) :
    LoopShape fl fd (⟨o, s, []⟩ : Res σ) :=
  ⟨stops_nil, by simp, by simp, by cases fl <;> simp [per_req_flush, seeks_and_xfers, insert_after]⟩

/-- A rejected call, after which the loop is left. -/
theorem shape_rejected (fl : Bool) (fd : Int) (e : Event) (s : σ)
    (he : e.rejected = true) (hio : e.is_io = true) (hf : e.is_fsync = false) :
    LoopShape fl fd ((⟨.ret (-1), s, []⟩ : Res σ).after [e]) := by
  refine ⟨stops_single e, fun _ => rfl, by simpa [Res.after] using hio, ?_⟩
  cases fl <;> simp [per_req_flush, seeks_and_xfers, insert_after, Res.after, hio, hf, he]

/-- A seek that went through, before the rest of the run. -/
theorem shape_seek (fl : Bool) (fd : Int) (e : Event) (r : Res σ)
    (he : e.rejected = false) (hio : e.is_io = true) (hx : e.is_xfer = false)
    (hf : e.is_fsync = false) (h : LoopShape fl fd r) : LoopShape fl fd (r.after [e]) := by
  refine ⟨stops_cons he h.stops, ?_, ?_, ?_⟩
  · rintro ⟨x, hx, hxr⟩
    simp at hx
    rcases hx with rfl | hx
    · simp [he] at hxr
    · simpa using h.rejected_ret ⟨x, hx, hxr⟩
  · intro x hx
    simp at hx
    rcases hx with rfl | hx
    · exact hio
    · exact h.only_io x hx
  · have h4 := h.flushes
    cases fl
    · simp only [per_req_flush, Bool.false_eq_true, if_false, Res.after_trace] at h4 ⊢
      rw [List.cons_append, List.nil_append, seeks_and_xfers_cons _ hio hf, ← h4]
    · simp only [per_req_flush, if_true, Res.after_trace] at h4 ⊢
      rw [List.cons_append, List.nil_append, seeks_and_xfers_cons _ hio hf]
      simp only [insert_after, hx, Bool.false_and, Bool.false_eq_true, if_false]
      rw [← h4]

/-- An accepted transfer without a flush, before the rest of the run. -/
theorem shape_xfer (fd : Int) (e : Event) (r : Res σ)
    (he : e.rejected = false) (hio : e.is_io = true)
    (hf : e.is_fsync = false) (h : LoopShape false fd r) : LoopShape false fd (r.after [e]) := by
  refine ⟨stops_cons he h.stops, ?_, ?_, ?_⟩
  · rintro ⟨x, hx, hxr⟩
    simp at hx
    rcases hx with rfl | hx
    · simp [he] at hxr
    · simpa using h.rejected_ret ⟨x, hx, hxr⟩
  · intro x hx
    simp at hx
    rcases hx with rfl | hx
    · exact hio
    · exact h.only_io x hx
  · have h4 := h.flushes
    simp only [per_req_flush, Bool.false_eq_true, if_false, Res.after_trace] at h4 ⊢
    rw [List.cons_append, List.nil_append, seeks_and_xfers_cons _ hio hf, ← h4]

/-- An accepted transfer and its flush, before the rest of the run. -/
theorem shape_xfer_fsync (fd : Int) (e : Event) (r : Res σ)
    (he : e.rejected = false) (hio : e.is_io = true) (hx : e.is_xfer = true)
    (hf : e.is_fsync = false) (h : LoopShape true fd r) :
    LoopShape true fd (r.after [e, Event.fsync fd]) := by
  refine ⟨stops_cons he (stops_cons rfl h.stops), ?_, ?_, ?_⟩
  · rintro ⟨x, hx, hxr⟩
    simp at hx
    rcases hx with rfl | rfl | hx
    · simp [he] at hxr
    · simp [Event.rejected] at hxr
    · simpa using h.rejected_ret ⟨x, hx, hxr⟩
  · intro x hx
    simp at hx
    rcases hx with rfl | rfl | hx
    · exact hio
    · rfl
    · exact h.only_io x hx
  · have h4 := h.flushes
    simp only [per_req_flush, if_true, Res.after_trace] at h4 ⊢
    rw [List.cons_append, List.cons_append, List.nil_append, seeks_and_xfers_cons _ hio hf,
      seeks_and_xfers_fsync]
    simp only [insert_after, hx, he, Bool.not_false, Bool.and_self, if_true]
    rw [← h4]

theorem oset_loop_single_op_shape (S : Sys σ) (d : Dir) (fl : Bool) (fd : Int) (buf fs mx : Nat)
    (offs : List Int) (rem : Nat) (nbytes : Int) (s : σ) :
    LoopShape fl fd (oset_loop_single_op S d fl fd buf fs mx offs rem nbytes s) := by
  induction offs generalizing rem nbytes s with
  | nil =>
    simp only [oset_loop_single_op]
    split_ifs <;> exact shape_done _ _ _ _
  | cons o offs ih =>
    simp only [oset_loop_single_op]
    split_ifs with hc hrej hfl
    · rw [oset_loop_single_op_neg _ _ _ _ _ _ _ _ _ _ _ (by norm_num)]
      exact shape_rejected _ _ _ _ (by simpa using hrej) (by simp) (by simp)
    · subst hfl
      exact shape_xfer_fsync _ _ _ (by simpa using hrej) (by simp) (by simp) (by simp) (ih _ _ _)
    · have hfl2 : fl = false := by simpa using hfl
      subst hfl2
      exact shape_xfer _ _ _ (by simpa using hrej) (by simp) (by simp) (ih _ _ _)
    · exact shape_done _ _ _ _


theorem Res.after_cons (e : Event) (es : List Event) (r : Res σ) :
    r.after (e :: es) = (r.after es).after [e] := by
  simp [Res.after]

@[simp] theorem rejected_lseek (fd : Int) (o r : Int) :
    (Event.lseek fd o r).rejected = decide (r < 0) := rfl

theorem oset_loop_seek_neg (S : Sys σ) (d : Dir) (fl : Bool) (fd : Int) (buf fs mx : Nat)
    (offs : List Int) (rem rq : Nat) (nbytes : Int) (s : σ) (h : nbytes < 0) :
    oset_loop_seek S d fl fd buf fs mx offs rem rq nbytes s = ⟨.ret nbytes, s, []⟩ := by
  cases offs <;> simp [oset_loop_seek, Int.not_le.mpr h]

theorem dset_loop_single_op_neg (S : Sys σ) (d : Dir) (fl : Bool) (fd : Int) (buf ds rq : Nat)
    (offs : List Int) (nbytes : Int) (s : σ) (h : nbytes < 0) :
    dset_loop_single_op S d fl fd buf ds rq offs nbytes s = ⟨.ret nbytes, s, []⟩ := by
  cases offs <;> simp [dset_loop_single_op, Int.not_le.mpr h]

theorem dset_loop_seek_neg (S : Sys σ) (d : Dir) (fl : Bool) (fd : Int) (buf ds rq : Nat)
    (offs : List Int) (nbytes : Int) (s : σ) (h : nbytes < 0) :
    dset_loop_seek S d fl fd buf ds rq offs nbytes s = ⟨.ret nbytes, s, []⟩ := by
  cases offs <;> simp [dset_loop_seek, Int.not_le.mpr h]

theorem oset_loop_seek_shape (S : Sys σ) (d : Dir) (fl : Bool) (fd : Int) (buf fs mx : Nat)
    (offs : List Int) (rem rq : Nat) (nbytes : Int) (s : σ) :
    LoopShape fl fd (oset_loop_seek S d fl fd buf fs mx offs rem rq nbytes s) := by
  induction offs generalizing rem rq nbytes s with
  | nil =>
    simp only [oset_loop_seek]
    split_ifs <;> exact shape_done _ _ _ _
  | cons o offs ih =>
    simp only [oset_loop_seek]
    split_ifs with hc hseek hrej hfl
    · rw [oset_loop_seek_neg _ _ _ _ _ _ _ _ _ _ _ _ (by norm_num)]
      exact shape_rejected _ _ _ _ (by simpa using hseek) rfl rfl
    · rw [oset_loop_seek_neg _ _ _ _ _ _ _ _ _ _ _ _ (by norm_num), Res.after_cons]
      exact shape_seek _ _ _ _ (by simpa using hseek) rfl rfl rfl
        (shape_rejected _ _ _ _ (by simpa using hrej) (by simp) (by simp))
    · subst hfl
      rw [Res.after_cons]
      exact shape_seek _ _ _ _ (by simpa using hseek) rfl rfl rfl
        (shape_xfer_fsync _ _ _ (by simpa using hrej) (by simp) (by simp) (by simp) (ih _ _ _ _))
    · have hfl2 : fl = false := by simpa using hfl
      subst hfl2
      rw [Res.after_cons]
      exact shape_seek _ _ _ _ (by simpa using hseek) rfl rfl rfl
        (shape_xfer _ _ _ (by simpa using hrej) (by simp) (by simp) (ih _ _ _ _))
    · exact shape_done _ _ _ _

theorem dset_loop_single_op_shape (S : Sys σ) (d : Dir) (fl : Bool) (fd : Int) (buf ds rq : Nat)
    (offs : List Int) (nbytes : Int) (s : σ) :
    LoopShape fl fd (dset_loop_single_op S d fl fd buf ds rq offs nbytes s) := by
  induction offs generalizing nbytes s with
  | nil =>
    simp only [dset_loop_single_op]
    split_ifs <;> exact shape_done _ _ _ _
  | cons o offs ih =>
    simp only [dset_loop_single_op]
    split_ifs with hc hrej hfl
    · rw [dset_loop_single_op_neg _ _ _ _ _ _ _ _ _ _ (by norm_num)]
      exact shape_rejected _ _ _ _ (by simpa using hrej) (by simp) (by simp)
    · subst hfl
      exact shape_xfer_fsync _ _ _ (by simpa using hrej) (by simp) (by simp) (by simp) (ih _ _)
    · have hfl2 : fl = false := by simpa using hfl
      subst hfl2
      exact shape_xfer _ _ _ (by simpa using hrej) (by simp) (by simp) (ih _ _)
    · exact shape_done _ _ _ _

theorem dset_loop_seek_shape (S : Sys σ) (d : Dir) (fl : Bool) (fd : Int) (buf ds rq : Nat)
    (offs : List Int) (nbytes : Int) (s : σ) :
    LoopShape fl fd (dset_loop_seek S d fl fd buf ds rq offs nbytes s) := by
  induction offs generalizing nbytes s with
  | nil =>
    simp only [dset_loop_seek]
    split_ifs <;> exact shape_done _ _ _ _
  | cons o offs ih =>
    simp only [dset_loop_seek]
    split_ifs with hc hseek hrej hfl
    · rw [dset_loop_seek_neg _ _ _ _ _ _ _ _ _ _ (by norm_num)]
      exact shape_rejected _ _ _ _ (by simpa using hseek) rfl rfl
    · rw [dset_loop_seek_neg _ _ _ _ _ _ _ _ _ _ (by norm_num), Res.after_cons]
      exact shape_seek _ _ _ _ (by simpa using hseek) rfl rfl rfl
        (shape_rejected _ _ _ _ (by simpa using hrej) (by simp) (by simp))
    · subst hfl
      rw [Res.after_cons]
      exact shape_seek _ _ _ _ (by simpa using hseek) rfl rfl rfl
        (shape_xfer_fsync _ _ _ (by simpa using hrej) (by simp) (by simp) (by simp) (ih _ _))
    · have hfl2 : fl = false := by simpa using hfl
      subst hfl2
      rw [Res.after_cons]
      exact shape_seek _ _ _ _ (by simpa using hseek) rfl rfl rfl
        (shape_xfer _ _ _ (by simpa using hrej) (by simp) (by simp) (ih _ _))
    · exact shape_done _ _ _ _

end

/-! ## The frame of an entry -/

section
variable {σ : Type}

theorem failed_eq_rejected {e : Event} (h : e.fits = true) : e.failed = e.rejected := by
  cases e <;> first
    | rfl
    | (simp only [Event.fits, decide_eq_true_eq] at h
       simp only [Event.failed, Event.rejected, to_ssize_of_lt h])

/-- Under a size bound, the loops stop at the first failed call with `-1`. -/
theorem shape_failed {fl : Bool} {fd : Int} {r : Res σ} (h : LoopShape fl fd r)
    (hfit : ∀ e ∈ r.trace, e.fits = true) (hfail : ∃ e ∈ r.trace, e.failed = true) :
    r.out = .ret (-1) ∧
      ∃ pre e, r.trace = pre ++ [e] ∧ e.failed = true ∧ ∀ x ∈ pre, x.failed = false := by
  obtain ⟨e, he, hef⟩ := hfail
  have her : e.rejected = true := by rw [← failed_eq_rejected (hfit e he)]; exact hef
  refine ⟨h.rejected_ret ⟨e, he, her⟩, ?_⟩
  rcases h.stops with hno | ⟨pre, x, htr, hx, hpre⟩
  · rw [hno e he] at her; cases her
  · refine ⟨pre, x, htr, ?_, ?_⟩
    · rw [failed_eq_rejected (hfit x (by simp [htr]))]; exact hx
    · intro y hy
      rw [failed_eq_rejected (hfit y (by simp [htr, hy]))]; exact hpre y hy

theorem final_flush_eq (S : Sys σ) (wf : Bool) (fd : Int) (r : Res σ) :
    (final_flush S wf fd r).out = r.out ∧
      (final_flush S wf fd r).trace =
        r.trace ++ (if r.out.positive = true ∧ wf = true then [Event.fsync fd] else []) := by
  unfold final_flush
  split
  · next n h =>
    by_cases hc : 0 < n ∧ wf = true
    · simp [hc, h, Outcome.positive]
    · rw [if_neg hc]
      simp only [h, Outcome.positive, decide_eq_true_eq, if_neg hc, List.append_nil, and_self]
  · next h => simp [h, Outcome.positive]

theorem free_offs_eq (p : Nat) (r : Res σ) :
    (free_offs p r).out = r.out ∧
      (free_offs p r).trace = r.trace ++ (if r.out = .fault then [] else [Event.free p]) := by
  unfold free_offs
  split
  · next n h => simp [h]
  · next h => simp [h]

/-- How the calls of an entry are laid out: the prologue, then the calls of
one of the four loops, then the final flush, then the epilogue. -/
theorem transfer_frame (S : Sys σ) (gen : iore_dset_t → Nat → Option OffSeq) (op : Op)
    (file : iore_file_t) (buf : Nat) (offs : List Int) (test : iore_test_t) (rq0 : Nat) (s : σ) :
    (fails_before_loop gen op test = true →
      transfer S gen op file buf offs test rq0 s = ⟨.ret (-1), s, prologue gen op test⟩) ∧
    (fails_before_loop gen op test = false →
      ∃ l : Res σ, LoopShape (op.is_write && test.write_flush_per_req) file.hdle_fint l ∧
        (transfer S gen op file buf offs test rq0 s).out = l.out ∧
        (transfer S gen op file buf offs test rq0 s).trace =
          prologue gen op test ++ (l.trace ++ (final_flush_calls op test file.hdle_fint l.out ++
            (if l.out = .fault then [] else epilogue gen op test)))) := by
  cases op
  · refine ⟨by simp [fails_before_loop, Op.is_dset], fun _ => ?_⟩
    simp only [transfer, posix_write_oset]
    split_ifs with h1
    · refine ⟨oset_loop_single_op S .wr test.write_flush_per_req file.hdle_fint buf
        test.oset._file_size test.oset.my_req_size offs test.oset.my_data_size 0 s, ?_, ?_, ?_⟩
      · simpa [Op.is_write] using oset_loop_single_op_shape S .wr test.write_flush_per_req
          file.hdle_fint buf test.oset._file_size test.oset.my_req_size offs
          test.oset.my_data_size 0 s
      · exact (final_flush_eq _ _ _ _).1
      · simp [final_flush_eq, prologue, epilogue, final_flush_calls, Op.is_dset, Op.is_write]
    · refine ⟨oset_loop_seek S .wr test.write_flush_per_req file.hdle_fint buf
        test.oset._file_size test.oset.my_req_size offs test.oset.my_data_size rq0 0 s, ?_, ?_, ?_⟩
      · simpa [Op.is_write] using oset_loop_seek_shape S .wr test.write_flush_per_req
          file.hdle_fint buf test.oset._file_size test.oset.my_req_size offs
          test.oset.my_data_size rq0 0 s
      · exact (final_flush_eq _ _ _ _).1
      · simp [final_flush_eq, prologue, epilogue, final_flush_calls, Op.is_dset, Op.is_write]
  · refine ⟨by simp [fails_before_loop, Op.is_dset], fun _ => ?_⟩
    simp only [transfer, posix_read_oset]
    split_ifs with h1
    · refine ⟨oset_loop_single_op S .rd false file.hdle_fint buf
        test.oset._file_size test.oset.my_req_size offs test.oset.my_data_size 0 s, ?_, ?_, ?_⟩
      · simpa [Op.is_write] using oset_loop_single_op_shape S .rd false
          file.hdle_fint buf test.oset._file_size test.oset.my_req_size offs
          test.oset.my_data_size 0 s
      · rfl
      · simp [prologue, epilogue, final_flush_calls, Op.is_dset, Op.is_write]
    · refine ⟨oset_loop_seek S .rd false file.hdle_fint buf
        test.oset._file_size test.oset.my_req_size offs test.oset.my_data_size rq0 0 s, ?_, ?_, ?_⟩
      · simpa [Op.is_write] using oset_loop_seek_shape S .rd false
          file.hdle_fint buf test.oset._file_size test.oset.my_req_size offs
          test.oset.my_data_size rq0 0 s
      · rfl
      · simp [prologue, epilogue, final_flush_calls, Op.is_dset, Op.is_write]
  · by_cases hk : test.dset.type = .IORE_WKLD_DSET_CARTESIAN
    · cases hg : gen test.dset test.file_mode with
      | none =>
        refine ⟨fun _ => ?_, by simp [fails_before_loop, Op.is_dset, hk, hg]⟩
        simp [transfer, posix_write_dset, hk, hg, prologue, Op.is_dset]
      | some seq =>
        refine ⟨by simp [fails_before_loop, Op.is_dset, hk, hg], fun _ => ?_⟩
        simp only [transfer, posix_write_dset, hk, hg, if_true]
        split_ifs with h1
        · refine ⟨dset_loop_single_op S .wr test.write_flush_per_req file.hdle_fint buf
            test.dset.my_size (dset_req_size test.dset) seq.entries 0 s, ?_, ?_, ?_⟩
          · simpa [Op.is_write] using dset_loop_single_op_shape S .wr test.write_flush_per_req
              file.hdle_fint buf test.dset.my_size (dset_req_size test.dset) seq.entries 0 s
          · simp [free_offs_eq, final_flush_eq]
          · simp [free_offs_eq, final_flush_eq, prologue, epilogue, final_flush_calls, Op.is_dset,
              Op.is_write, hk, hg]
        · refine ⟨dset_loop_seek S .wr test.write_flush_per_req file.hdle_fint buf
            test.dset.my_size (dset_req_size test.dset) seq.entries 0 s, ?_, ?_, ?_⟩
          · simpa [Op.is_write] using dset_loop_seek_shape S .wr test.write_flush_per_req
              file.hdle_fint buf test.dset.my_size (dset_req_size test.dset) seq.entries 0 s
          · simp [free_offs_eq, final_flush_eq]
          · simp [free_offs_eq, final_flush_eq, prologue, epilogue, final_flush_calls, Op.is_dset,
              Op.is_write, hk, hg]
    · refine ⟨fun _ => ?_, by simp [fails_before_loop, Op.is_dset, hk]⟩
      simp [transfer, posix_write_dset, hk, prologue, Op.is_dset]
  · by_cases hk : test.dset.type = .IORE_WKLD_DSET_CARTESIAN
    · cases hg : gen test.dset test.file_mode with
      | none =>
        refine ⟨fun _ => ?_, by simp [fails_before_loop, Op.is_dset, hk, hg]⟩
        simp [transfer, posix_read_dset, hk, hg, prologue, Op.is_dset]
      | some seq =>
        refine ⟨by simp [fails_before_loop, Op.is_dset, hk, hg], fun _ => ?_⟩
        simp only [transfer, posix_read_dset, hk, hg, if_true]
        split_ifs with h1
        · refine ⟨dset_loop_single_op S .rd false file.hdle_fint buf
            test.dset.my_size (dset_req_size test.dset) seq.entries 0 s, ?_, ?_, ?_⟩
          · simpa [Op.is_write] using dset_loop_single_op_shape S .rd false
              file.hdle_fint buf test.dset.my_size (dset_req_size test.dset) seq.entries 0 s
          · simp [free_offs_eq]
          · simp [free_offs_eq, prologue, epilogue, final_flush_calls, Op.is_dset,
              Op.is_write, hk, hg]
        · refine ⟨dset_loop_seek S .rd false file.hdle_fint buf
            test.dset.my_size (dset_req_size test.dset) seq.entries 0 s, ?_, ?_, ?_⟩
          · simpa [Op.is_write] using dset_loop_seek_shape S .rd false
              file.hdle_fint buf test.dset.my_size (dset_req_size test.dset) seq.entries 0 s
          · simp [free_offs_eq]
          · simp [free_offs_eq, prologue, epilogue, final_flush_calls, Op.is_dset,
              Op.is_write, hk, hg]
    · refine ⟨fun _ => ?_, by simp [fails_before_loop, Op.is_dset, hk]⟩
      simp [transfer, posix_read_dset, hk, prologue, Op.is_dset]

end

/-! ## Failed calls -/

section
variable {σ : Type}

theorem prologue_not_io (gen : iore_dset_t → Nat → Option OffSeq) (op : Op) (test : iore_test_t) :
    ∀ e ∈ prologue gen op test, e.is_io = false ∧ e.failed = false ∧ e.is_fsync = false ∧
      ∀ p, e ≠ Event.free p := by
  intro e he
  unfold prologue at he
  split_ifs at he
  · simp at he
    subst he
    simp [Event.is_io, Event.failed, Event.is_fsync]
  · simp at he

theorem epilogue_not_io (gen : iore_dset_t → Nat → Option OffSeq) (op : Op) (test : iore_test_t) :
    ∀ e ∈ epilogue gen op test, e.is_io = false ∧ e.failed = false ∧ e.is_fsync = false := by
  intro e he
  unfold epilogue at he
  split_ifs at he
  · split at he
    · simp at he
      subst he
      simp [Event.is_io, Event.failed, Event.is_fsync]
    · simp at he
  · simp at he

theorem final_flush_calls_io (op : Op) (test : iore_test_t) (fd : Int) (o : Outcome) :
    ∀ e ∈ final_flush_calls op test fd o, e.is_io = true ∧ e.failed = false ∧ e.is_fsync = true := by
  intro e he
  unfold final_flush_calls at he
  split_ifs at he
  · simp at he
    subst he
    simp [Event.is_io, Event.failed, Event.is_fsync]
  · simp at he

theorem filter_eq_nil_of {p : Event → Bool} {l : List Event} (h : ∀ e ∈ l, p e = false) :
    l.filter p = [] := by
  rw [List.filter_eq_nil_iff]
  intro e he
  simp [h e he]

theorem filter_eq_self_of {p : Event → Bool} {l : List Event} (h : ∀ e ∈ l, p e = true) :
    l.filter p = l := by
  rw [List.filter_eq_self]
  exact h

/-- The seek, transfer and flush calls of a framed trace. -/
theorem frame_io (pre l ff post : List Event) (hpre : ∀ e ∈ pre, e.is_io = false)
    (hl : ∀ e ∈ l, e.is_io = true) (hff : ∀ e ∈ ff, e.is_io = true)
    (hpost : ∀ e ∈ post, e.is_io = false) :
    (pre ++ (l ++ (ff ++ post))).filter Event.is_io = l ++ ff := by
  simp only [List.filter_append, filter_eq_nil_of hpre, filter_eq_nil_of hpost,
    filter_eq_self_of hl, filter_eq_self_of hff, List.nil_append, List.append_nil]

/-- The seek and transfer calls of a framed trace. -/
theorem frame_seeks_and_xfers (pre l ff post : List Event) (hpre : ∀ e ∈ pre, e.is_io = false)
    (hff : ∀ e ∈ ff, e.is_fsync = true)
    (hpost : ∀ e ∈ post, e.is_io = false) :
    seeks_and_xfers (pre ++ (l ++ (ff ++ post))) = seeks_and_xfers l := by
  unfold seeks_and_xfers
  simp only [List.filter_append]
  rw [filter_eq_nil_of (l := pre), filter_eq_nil_of (l := ff), filter_eq_nil_of (l := post)]
  · simp
  · intro e he; simp [hpost e he]
  · intro e he; simp [hff e he]
  · intro e he; simp [hpre e he]

end

/-- C2, as amended: in every transfer entry and either strategy, when every
request issued is smaller than `2 ^ 63` bytes and some seek fails or some
transfer moves fewer bytes than requested, the call returns `-1` and the failed
call is the last seek, transfer or flush call of the entry; no call before it
failed. -/
theorem failed_call_ends_transfer {σ : Type} (S : Sys σ)
    (gen : iore_dset_t → Nat → Option OffSeq) (op : Op) (file : iore_file_t) (buf : Nat)
    (offs : List Int) (test : iore_test_t) (rq0 : Nat) (s : σ)
    (hfit : ∀ e ∈ (transfer S gen op file buf offs test rq0 s).trace, e.fits = true)
    (hfail : ∃ e ∈ (transfer S gen op file buf offs test rq0 s).trace, e.failed = true) :
    (transfer S gen op file buf offs test rq0 s).out = .ret (-1) ∧
      ∃ pre e, (transfer S gen op file buf offs test rq0 s).trace.filter Event.is_io = pre ++ [e] ∧
        e.failed = true ∧ ∀ x ∈ pre, x.failed = false := by
  have hframe := transfer_frame S gen op file buf offs test rq0 s
  cases hearly : fails_before_loop gen op test
  · obtain ⟨l, hshape, hout, htr⟩ := hframe.2 hearly
    have hsub : ∀ e ∈ l.trace, e ∈ (transfer S gen op file buf offs test rq0 s).trace := by
      intro e he
      rw [htr]
      simp [he]
    have hfail2 : ∃ e ∈ l.trace, e.failed = true := by
      obtain ⟨e, he, hef⟩ := hfail
      rw [htr] at he
      simp only [List.mem_append] at he
      rcases he with he | he | he | he
      · rw [(prologue_not_io gen op test e he).2.1] at hef; cases hef
      · exact ⟨e, he, hef⟩
      · rw [(final_flush_calls_io op test _ _ e he).2.1] at hef; cases hef
      · split_ifs at he
        · simp at he
        · rw [(epilogue_not_io gen op test e he).2.1] at hef; cases hef
    obtain ⟨hl, pre, x, hpx, hx, hpre⟩ := shape_failed hshape (fun e he => hfit e (hsub e he)) hfail2
    refine ⟨by rw [hout, hl], pre, x, ?_, hx, hpre⟩
    rw [htr, frame_io _ _ _ _ (fun e he => (prologue_not_io gen op test e he).1) hshape.only_io
      (fun e he => (final_flush_calls_io op test _ _ e he).1)]
    · rw [hl]
      simp [final_flush_calls, Outcome.positive, hpx]
    · intro e he
      split_ifs at he
      · simp at he
      · exact (epilogue_not_io gen op test e he).1
  · exfalso
    obtain ⟨e, he, hef⟩ := hfail
    rw [hframe.1 hearly] at he
    rw [(prologue_not_io gen op test e he).2.1] at hef
    cases hef

theorem failed_call_ends_transfer_witness :
    (transfer flaky_sys gen_null .write_oset file3 0 [0, 256, 512, 768]
        (test_1024 true true true) 0 0).out = .ret (-1) ∧
      ∃ pre e, (transfer flaky_sys gen_null .write_oset file3 0 [0, 256, 512, 768]
          (test_1024 true true true) 0 0).trace.filter Event.is_io = pre ++ [e] ∧
        e.failed = true ∧ ∀ x ∈ pre, x.failed = false :=
  failed_call_ends_transfer flaky_sys gen_null .write_oset file3 0 [0, 256, 512, 768]
    (test_1024 true true true) 0 0 (by decide) (by decide)

/-- C2, as written, fails for a request of `2 ^ 63` bytes: `pwrite` moves 100 of
the `2 ^ 63` bytes requested, `(ssize_t) req_size` is negative, the transfer
counts as complete and the call returns the partial count 100. -/
theorem short_transfer_returned_as_count :
    (∃ e ∈ (transfer short_sys gen_null .write_oset file3 0 [0]
        (mk_test (2 ^ 63) (2 ^ 63) (2 ^ 63) dset_2_3_4 true false false) 0 ()).trace,
        e.failed = true) ∧
      (transfer short_sys gen_null .write_oset file3 0 [0]
        (mk_test (2 ^ 63) (2 ^ 63) (2 ^ 63) dset_2_3_4 true false false) 0 ()).out = .ret 100 := by
  decide

/-! ## Flush policy -/

theorem insert_after_congr {p q : Event → Bool} (x : Event) {l : List Event}
    (h : ∀ e ∈ l, p e = q e) : insert_after p x l = insert_after q x l := by
  induction l with
  | nil => rfl
  | cons e l ih =>
    simp only [insert_after, h e (by simp)]
    rw [ih (fun y hy => h y (by simp [hy]))]

theorem per_req_flush_congr (fl : Bool) {p q : Event → Bool} (fd : Int) {l : List Event}
    (h : ∀ e ∈ l, p e = q e) : per_req_flush fl p fd l = per_req_flush fl q fd l := by
  unfold per_req_flush
  split_ifs
  · exact insert_after_congr _ (fun e he => by rw [h e he])
  · rfl

theorem mem_seeks_and_xfers {e : Event} {l : List Event} (h : e ∈ seeks_and_xfers l) : e ∈ l := by
  unfold seeks_and_xfers at h
  exact (List.mem_filter.mp h).1

theorem per_req_flush_false (ok : Event → Bool) (fd : Int) (l : List Event) :
    per_req_flush false ok fd l = l := by
  simp [per_req_flush]

/-- C7, as amended: in every transfer entry and either strategy, when every
request issued is smaller than `2 ^ 63` bytes, the seek, transfer and flush
calls of the entry are its seek and transfer calls, with `fsync` right after
every transfer that moved all its bytes exactly when the entry is a write entry
and `write_flush_per_req` is set, followed by one more `fsync` exactly when the
entry is a write entry, `write_flush` is set and the loop ended with a count
greater than zero.  A read entry issues no `fsync`, whatever the flags and
sizes. -/
theorem flush_policy {σ : Type} (S : Sys σ)
    (gen : iore_dset_t → Nat → Option OffSeq) (op : Op) (file : iore_file_t) (buf : Nat)
    (offs : List Int) (test : iore_test_t) (rq0 : Nat) (s : σ) :
    ((∀ e ∈ (transfer S gen op file buf offs test rq0 s).trace, e.fits = true) →
      (transfer S gen op file buf offs test rq0 s).trace.filter Event.is_io =
        per_req_flush (op.is_write && test.write_flush_per_req) (fun e => !e.failed)
            file.hdle_fint (seeks_and_xfers (transfer S gen op file buf offs test rq0 s).trace) ++
          final_flush_calls op test file.hdle_fint
            (transfer S gen op file buf offs test rq0 s).out) ∧
    (op.is_write = false →
      ∀ e ∈ (transfer S gen op file buf offs test rq0 s).trace, e.is_fsync = false) := by
  have hframe := transfer_frame S gen op file buf offs test rq0 s
  cases hearly : fails_before_loop gen op test
  · obtain ⟨l, hshape, hout, htr⟩ := hframe.2 hearly
    have hpost : ∀ e ∈ (if l.out = Outcome.fault then [] else epilogue gen op test),
        e.is_io = false ∧ e.is_fsync = false := by
      intro e he
      split_ifs at he
      · simp at he
      · exact ⟨(epilogue_not_io gen op test e he).1, (epilogue_not_io gen op test e he).2.2⟩
    have hsx : seeks_and_xfers (transfer S gen op file buf offs test rq0 s).trace =
        seeks_and_xfers l.trace := by
      rw [htr]
      exact frame_seeks_and_xfers _ _ _ _ (fun e he => (prologue_not_io gen op test e he).1)
        (fun e he => (final_flush_calls_io op test _ _ e he).2.2) (fun e he => (hpost e he).1)
    refine ⟨fun hfit => ?_, fun hw => ?_⟩
    · rw [hsx, hout]
      have hl := hshape.flushes
      rw [per_req_flush_congr _ _ (q := fun e => !e.rejected)]
      · rw [← hl, htr]
        exact frame_io _ _ _ _ (fun e he => (prologue_not_io gen op test e he).1) hshape.only_io
          (fun e he => (final_flush_calls_io op test _ _ e he).1) (fun e he => (hpost e he).1)
      · intro e he
        have hmem : e ∈ (transfer S gen op file buf offs test rq0 s).trace := by
          rw [htr]
          simp [mem_seeks_and_xfers he]
        simp only [failed_eq_rejected (hfit e hmem)]
    · intro e he
      rw [htr] at he
      simp only [List.mem_append] at he
      have hl := hshape.flushes
      rw [hw, Bool.false_and, per_req_flush_false] at hl
      rcases he with he | he | he | he
      · exact (prologue_not_io gen op test e he).2.2.1
      · rw [hl] at he
        unfold seeks_and_xfers at he
        have := (List.mem_filter.mp he).2
        simp only [Bool.and_eq_true, Bool.not_eq_true'] at this
        exact this.2
      · simp [final_flush_calls, hw] at he
      · exact (hpost e he).2
  · rw [hframe.1 hearly]
    refine ⟨fun _ => ?_, fun _ e he => (prologue_not_io gen op test e he).2.2.1⟩
    have h1 : (prologue gen op test).filter Event.is_io = [] :=
      filter_eq_nil_of (fun e he => (prologue_not_io gen op test e he).1)
    have h2 : seeks_and_xfers (prologue gen op test) = [] := by
      unfold seeks_and_xfers
      exact filter_eq_nil_of (fun e he => by simp [(prologue_not_io gen op test e he).1])
    simp only [h1, h2]
    cases hb : (op.is_write && test.write_flush_per_req) <;>
      simp [per_req_flush, insert_after, final_flush_calls, Outcome.positive]

theorem flush_policy_witness :
    (transfer ideal_sys gen_null .write_oset file3 0 [0, 256, 512, 768]
        (test_1024 false true true) 0 ()).trace.filter Event.is_io =
      per_req_flush true (fun e => !e.failed) 3
          (seeks_and_xfers (transfer ideal_sys gen_null .write_oset file3 0 [0, 256, 512, 768]
            (test_1024 false true true) 0 ()).trace) ++ [Event.fsync 3] :=
  (flush_policy ideal_sys gen_null .write_oset file3 0 [0, 256, 512, 768]
    (test_1024 false true true) 0 ()).1 (by decide)

/-- C7, as written, fails in two places.  A workload of zero bytes: the loop of
`posix_write_oset` ends without an error, `write_flush` is set, and no `fsync`
is issued.  A request of `2 ^ 63` bytes: the transfer moves 100 bytes only and
`fsync` follows it all the same. -/
theorem flush_policy_as_written_fails :
    ((transfer ideal_sys gen_null .write_oset file3 0 []
        (mk_test 1024 0 256 dset_2_3_4 true true true) 0 ()).out = .ret 0 ∧
      (mk_test 1024 0 256 dset_2_3_4 true true true).write_flush = true ∧
      (transfer ideal_sys gen_null .write_oset file3 0 []
        (mk_test 1024 0 256 dset_2_3_4 true true true) 0 ()).trace = []) ∧
    (transfer short_sys gen_null .write_oset file3 0 [0]
        (mk_test (2 ^ 63) (2 ^ 63) (2 ^ 63) dset_2_3_4 true true false) 0 ()).trace =
      [Event.pwrite 3 0 (2 ^ 63) 0 100, Event.fsync 3] := by
  decide

/-! ## Dataset entries: early failure -/

/-- C5: a dataset entry whose kind is not Cartesian returns `-1` with no call at
all, whatever the generator is (it is not consulted), and leaves the system
untouched; with a Cartesian kind and a generator that returns a null pointer it
returns `-1`, the call of the generator is its only call (no seek, transfer or
flush call), and the system is untouched. -/
theorem dataset_fails_before_io {σ : Type} (S : Sys σ)
    (gen : iore_dset_t → Nat → Option OffSeq) (op : Op) (file : iore_file_t) (buf : Nat)
    (offs : List Int) (test : iore_test_t) (rq0 : Nat) (s : σ) (hop : op.is_dset = true) :
    (test.dset.type ≠ .IORE_WKLD_DSET_CARTESIAN →
      transfer S gen op file buf offs test rq0 s = ⟨.ret (-1), s, []⟩) ∧
    (test.dset.type = .IORE_WKLD_DSET_CARTESIAN → gen test.dset test.file_mode = none →
      transfer S gen op file buf offs test rq0 s = ⟨.ret (-1), s, [Event.dset_to_off none]⟩ ∧
      (transfer S gen op file buf offs test rq0 s).trace.filter Event.is_io = []) := by
  have hframe := (transfer_frame S gen op file buf offs test rq0 s).1
  refine ⟨fun hk => ?_, fun hk hg => ?_⟩
  · rw [hframe (by simp [fails_before_loop, hop, hk])]
    simp [prologue, hk]
  · rw [hframe (by simp [fails_before_loop, hop, hg])]
    simp [prologue, hk, hop, hg, Event.is_io]

theorem dataset_fails_before_io_witness :
    (transfer ideal_sys (gen_const 7 [0, 32]) .write_dset file3 0 []
        (mk_test 0 0 0 ⟨.unsupported 1, 8, fun _ => 4, 3, 192⟩ true true true) 0 () =
      ⟨.ret (-1), (), []⟩) ∧
    (transfer ideal_sys gen_null .read_dset file3 0 [] (test_1024 true true true) 0 () =
      ⟨.ret (-1), (), [Event.dset_to_off none]⟩) :=
  ⟨(dataset_fails_before_io ideal_sys (gen_const 7 [0, 32]) .write_dset file3 0 []
      (mk_test 0 0 0 ⟨.unsupported 1, 8, fun _ => 4, 3, 192⟩ true true true) 0 () rfl).1
      (by decide),
    ((dataset_fails_before_io ideal_sys gen_null .read_dset file3 0 [] (test_1024 true true true)
      0 () rfl).2 rfl rfl).1⟩

/-! ## `posix_create` and `posix_open` -/

/-- C6, as amended: `posix_create` calls `open` once with `O_CREAT | O_WRONLY`
and mode 0644 (= 420), `posix_open` once with `O_RDONLY` and no mode; when the
descriptor returned is not negative the status is 0 and the handle of the file
is that descriptor; when it is negative the status is the value `open`
returned, which is -1 for an `open` that returns -1 on every failure, and the
file record is unchanged.  The status is a function of the value `open`
returned alone: nothing else of the system (such as `errno`) enters it. -/
theorem create_open_contract {σ : Type} (S : Sys σ) (file : iore_file_t) (s : σ) :
    (posix_create S file s).trace =
        [Event.os_open file.name 65 (some 420) (S.os_open s file.name 65 (some 420)).1] ∧
      (0 ≤ (S.os_open s file.name 65 (some 420)).1 →
        (posix_create S file s).rerr = 0 ∧
        (posix_create S file s).file.hdle_fint = (S.os_open s file.name 65 (some 420)).1 ∧
        (posix_create S file s).file.name = file.name) ∧
      ((S.os_open s file.name 65 (some 420)).1 < 0 →
        (posix_create S file s).rerr = (S.os_open s file.name 65 (some 420)).1 ∧
        (posix_create S file s).rerr < 0 ∧ (posix_create S file s).file = file ∧
        (-1 ≤ (S.os_open s file.name 65 (some 420)).1 → (posix_create S file s).rerr = -1)) ∧
    (posix_open S file s).trace =
        [Event.os_open file.name 0 none (S.os_open s file.name 0 none).1] ∧
      (0 ≤ (S.os_open s file.name 0 none).1 →
        (posix_open S file s).rerr = 0 ∧
        (posix_open S file s).file.hdle_fint = (S.os_open s file.name 0 none).1 ∧
        (posix_open S file s).file.name = file.name) ∧
      ((S.os_open s file.name 0 none).1 < 0 →
        (posix_open S file s).rerr = (S.os_open s file.name 0 none).1 ∧
        (posix_open S file s).rerr < 0 ∧ (posix_open S file s).file = file ∧
        (-1 ≤ (S.os_open s file.name 0 none).1 → (posix_open S file s).rerr = -1)) := by
  have h1 : O_CREAT ||| O_WRONLY = 65 := by decide
  have h2 : S_IRUSR ||| S_IWUSR ||| S_IRGRP ||| S_IROTH = 420 := by decide
  have h3 : O_RDONLY = 0 := rfl
  refine ⟨?_, ?_, ?_, ?_, ?_, ?_⟩
  · simp only [posix_create, h1, h2]
    split_ifs <;> rfl
  · intro h
    simp only [posix_create, h1, h2, if_pos h, IORE_SUCCESS, and_self]
  · intro h
    have e : (posix_create S file s).rerr = (S.os_open s file.name 65 (some 420)).1 := by
      simp only [posix_create, h1, h2, if_neg (not_le.mpr h)]
    have f : (posix_create S file s).file = file := by
      simp only [posix_create, h1, h2, if_neg (not_le.mpr h)]
    exact ⟨e, by rw [e]; exact h, f, fun h' => by rw [e]; omega⟩
  · simp only [posix_open, h3]
    split_ifs <;> rfl
  · intro h
    simp only [posix_open, h3, if_pos h, and_self]
  · intro h
    have e : (posix_open S file s).rerr = (S.os_open s file.name 0 none).1 := by
      simp only [posix_open, h3, if_neg (not_le.mpr h)]
    have f : (posix_open S file s).file = file := by
      simp only [posix_open, h3, if_neg (not_le.mpr h)]
    exact ⟨e, by rw [e]; exact h, f, fun h' => by rw [e]; omega⟩

theorem create_open_contract_witness :
    ((posix_create ideal_sys ⟨"f", 0⟩ ()).rerr = 0 ∧
      (posix_create ideal_sys ⟨"f", 0⟩ ()).file.hdle_fint = 3 ∧
      (posix_create ideal_sys ⟨"f", 0⟩ ()).file.name = "f") ∧
    (posix_open errno_sys ⟨"f", 0⟩ 0).rerr = -1 ∧
    (posix_open errno_sys ⟨"f", 0⟩ 0).file = ⟨"f", 0⟩ :=
  ⟨(create_open_contract ideal_sys ⟨"f", 0⟩ ()).2.1 (by decide),
    ((create_open_contract errno_sys ⟨"f", 0⟩ 0).2.2.2.2.2 (by decide)).2.2.2 (by decide),
    ((create_open_contract errno_sys ⟨"f", 0⟩ 0).2.2.2.2.2 (by decide)).2.2.1⟩

/-- C6, as written, fails in its failure clause: `open` fails for a missing
file, returns -1 and sets `errno` to `ENOENT` (2); `posix_create` and
`posix_open` return -1, the value of `open`, not the negative error code -2.
The success clause and the unchanged file record hold. -/
theorem status_is_not_error_code :
    ((posix_open errno_sys ⟨"f", 0⟩ 0).trace = [Event.os_open "f" 0 none (-1)] ∧
      (posix_open errno_sys ⟨"f", 0⟩ 0).os = 2 ∧
      (posix_open errno_sys ⟨"f", 0⟩ 0).rerr = -1 ∧
      (posix_open errno_sys ⟨"f", 0⟩ 0).rerr ≠ -(posix_open errno_sys ⟨"f", 0⟩ 0).os) ∧
    ((posix_create errno_sys ⟨"f", 0⟩ 0).trace = [Event.os_open "f" 65 (some 420) (-1)] ∧
      (posix_create errno_sys ⟨"f", 0⟩ 0).os = 2 ∧
      (posix_create errno_sys ⟨"f", 0⟩ 0).rerr = -1 ∧
      (posix_create errno_sys ⟨"f", 0⟩ 0).rerr ≠ -(posix_create errno_sys ⟨"f", 0⟩ 0).os) := by
  decide

/-! ## Runs without a transfer error: offset-set loops -/

section
variable {σ : Type}

@[simp] theorem target_pxfer (d : Dir) (fd : Int) (buf n : Nat) (o r : Int) :
    (Event.pxfer d fd buf n o r).target = some o := by cases d <;> rfl
@[simp] theorem target_xfer (d : Dir) (fd : Int) (buf n : Nat) (r : Int) :
    (Event.xfer d fd buf n r).target = none := by cases d <;> rfl
@[simp] theorem size_pxfer (d : Dir) (fd : Int) (buf n : Nat) (o r : Int) :
    (Event.pxfer d fd buf n o r).size = some (n : Int) := by cases d <;> rfl
@[simp] theorem size_xfer (d : Dir) (fd : Int) (buf n : Nat) (r : Int) :
    (Event.xfer d fd buf n r).size = some (n : Int) := by cases d <;> rfl
@[simp] theorem buffer_pxfer (d : Dir) (fd : Int) (buf n : Nat) (o r : Int) :
    (Event.pxfer d fd buf n o r).buffer = some buf := by cases d <;> rfl
@[simp] theorem buffer_xfer (d : Dir) (fd : Int) (buf n : Nat) (r : Int) :
    (Event.xfer d fd buf n r).buffer = some buf := by cases d <;> rfl
@[simp] theorem full_pxfer (d : Dir) (fd : Int) (buf n : Nat) (o r : Int) :
    (Event.pxfer d fd buf n o r).full = decide (r = (n : Int)) := by cases d <;> rfl
@[simp] theorem full_xfer (d : Dir) (fd : Int) (buf n : Nat) (r : Int) :
    (Event.xfer d fd buf n r).full = decide (r = (n : Int)) := by cases d <;> rfl
@[simp] theorem target_lseek (fd : Int) (o r : Int) : (Event.lseek fd o r).target = some o := rfl
@[simp] theorem size_lseek (fd : Int) (o r : Int) : (Event.lseek fd o r).size = none := rfl
@[simp] theorem buffer_lseek (fd : Int) (o r : Int) : (Event.lseek fd o r).buffer = none := rfl
@[simp] theorem full_lseek (fd : Int) (o r : Int) :
    (Event.lseek fd o r).full = decide (0 ≤ r) := rfl
@[simp] theorem target_fsync (fd : Int) : (Event.fsync fd).target = none := rfl
@[simp] theorem size_fsync (fd : Int) : (Event.fsync fd).size = none := rfl
@[simp] theorem buffer_fsync (fd : Int) : (Event.fsync fd).buffer = none := rfl

theorem to_ssize_le (n : Nat) : to_ssize n ≤ (n : Int) := by
  unfold to_ssize
  have := Nat.mod_le n (2 ^ 64)
  split_ifs <;> omega

/-- One iteration of the single-call loop whose transfer is full. -/
theorem oset_loop_single_op_step (S : Sys σ) (d : Dir) (fl : Bool) (fd : Int) (buf fs mx : Nat)
    (o : Int) (offs : List Int) (rem : Nat) (nbytes : Int) (s : σ)
    (hrem : rem ≠ 0) (hn : 0 ≤ nbytes) (hlt : nbytes + rem < 2 ^ 63)
    (hfull : ∀ e ∈ (oset_loop_single_op S d fl fd buf fs mx (o :: offs) rem nbytes s).trace,
      e.full = true) :
    ∃ s1, oset_loop_single_op S d fl fd buf fs mx (o :: offs) rem nbytes s =
      (oset_loop_single_op S d fl fd buf fs mx offs (rem - oset_req_size fs mx rem o)
        (nbytes + (oset_req_size fs mx rem o : Nat)) s1).after
        (Event.pxfer d fd buf (oset_req_size fs mx rem o) o (oset_req_size fs mx rem o : Nat) ::
          if fl then [Event.fsync fd] else []) := by
  have hle := oset_req_size_le_remaining fs mx rem o
  have hx : wrap_ssize (S.pxfer d s fd buf (oset_req_size fs mx rem o) o).1 =
      ((oset_req_size fs mx rem o : Nat) : Int) := by
    have := hfull (Event.pxfer d fd buf (oset_req_size fs mx rem o) o
      (wrap_ssize (S.pxfer d s fd buf (oset_req_size fs mx rem o) o).1)) (by
        simp only [oset_loop_single_op]
        split_ifs <;> simp_all)
    simpa using this
  have hacc : ¬ ((oset_req_size fs mx rem o : Nat) : Int) < to_ssize (oset_req_size fs mx rem o) :=
    not_lt.mpr (to_ssize_le _)
  have hsub : size_sub rem (oset_req_size fs mx rem o) = rem - oset_req_size fs mx rem o :=
    size_sub_of_le (by omega) hle
  have hw : wrap_ssize (nbytes + ((oset_req_size fs mx rem o : Nat) : Int)) =
      nbytes + ((oset_req_size fs mx rem o : Nat) : Int) :=
    wrap_ssize_of_range (by omega) (by omega)
  simp only [oset_loop_single_op, hx, hacc, hsub, hw, if_false]
  rw [if_pos ⟨hrem, hn⟩]
  cases fl
  · exact ⟨_, rfl⟩
  · exact ⟨_, rfl⟩

end

section
variable {σ : Type}

theorem oset_capacity_step (fs mx rem : Nat) (o : Int) (offs : List Int)
    (h : rem ≤ oset_capacity fs mx (o :: offs)) :
    rem - oset_req_size fs mx rem o ≤ oset_capacity fs mx offs := by
  unfold oset_capacity at h ⊢
  simp only [List.map_cons, List.sum_cons] at h
  unfold oset_req_size
  simp only
  split_ifs <;> omega

theorem oset_loop_single_op_nil (S : Sys σ) (d : Dir) (fl : Bool) (fd : Int) (buf fs mx : Nat)
    (offs : List Int) (nbytes : Int) (s : σ) :
    oset_loop_single_op S d fl fd buf fs mx offs 0 nbytes s = ⟨.ret nbytes, s, []⟩ := by
  cases offs <;> simp [oset_loop_single_op]

/-- A run of the single-call offset-set loop in which every transfer is full:
its requests are those of `oset_plan`, and it returns the whole volume when the
offsets can carry it. -/
theorem oset_loop_single_op_full (S : Sys σ) (d : Dir) (fl : Bool) (fd : Int) (buf fs mx : Nat)
    (offs : List Int) (rem : Nat) (nbytes : Int) (s : σ)
    (hn : 0 ≤ nbytes) (hlt : nbytes + rem < 2 ^ 63)
    (hfull : ∀ e ∈ (oset_loop_single_op S d fl fd buf fs mx offs rem nbytes s).trace,
      e.full = true) :
    (oset_loop_single_op S d fl fd buf fs mx offs rem nbytes s).trace.filterMap Event.target =
        (oset_plan fs mx rem offs).map Prod.fst ∧
      (oset_loop_single_op S d fl fd buf fs mx offs rem nbytes s).trace.filterMap Event.size =
        (oset_plan fs mx rem offs).map (fun p => (p.2 : Int)) ∧
      (rem ≤ oset_capacity fs mx offs →
        (oset_loop_single_op S d fl fd buf fs mx offs rem nbytes s).out = .ret (nbytes + rem)) := by
  induction offs generalizing rem nbytes s with
  | nil =>
    simp only [oset_loop_single_op, oset_plan]
    refine ⟨by split_ifs <;> rfl, by split_ifs <;> rfl, fun h => ?_⟩
    have : rem = 0 := by simpa [oset_capacity] using h
    simp [this]
  | cons o offs ih =>
    by_cases hrem : rem = 0
    · subst hrem
      simp [oset_loop_single_op_nil, oset_plan]
    · obtain ⟨s1, heq⟩ := oset_loop_single_op_step S d fl fd buf fs mx o offs rem nbytes s hrem hn hlt
        hfull
      have hle := oset_req_size_le_remaining fs mx rem o
      rw [heq] at hfull ⊢
      have ih' := ih (rem - oset_req_size fs mx rem o) (nbytes + (oset_req_size fs mx rem o : Nat)) s1
        (by omega) (by omega) (fun e he => hfull e (by simp [he]))
      simp only [Res.after_trace, Res.after_out, oset_plan, if_neg hrem, List.map_cons]
      refine ⟨?_, ?_, fun hc => ?_⟩
      · cases fl <;> simp [ih'.1]
      · cases fl <;> simp [ih'.2.1]
      · rw [ih'.2.2 (oset_capacity_step fs mx rem o offs hc)]
        congr 1
        omega

end

section
variable {σ : Type}

/-- One iteration of the seek-then-transfer loop whose seek and transfer are full. -/
theorem oset_loop_seek_step (S : Sys σ) (d : Dir) (fl : Bool) (fd : Int) (buf fs mx : Nat)
    (o : Int) (offs : List Int) (rem rq : Nat) (nbytes : Int) (s : σ)
    (hrem : rem ≠ 0) (hn : 0 ≤ nbytes) (hlt : nbytes + rem < 2 ^ 63)
    (hfull : ∀ e ∈ (oset_loop_seek S d fl fd buf fs mx (o :: offs) rem rq nbytes s).trace,
      e.full = true) :
    ∃ s1 pos, oset_loop_seek S d fl fd buf fs mx (o :: offs) rem rq nbytes s =
      (oset_loop_seek S d fl fd buf fs mx offs (rem - oset_req_size fs mx rem o)
        (oset_req_size fs mx rem o) (nbytes + (oset_req_size fs mx rem o : Nat)) s1).after
        (Event.lseek fd o pos ::
          Event.xfer d fd buf (oset_req_size fs mx rem o) (oset_req_size fs mx rem o : Nat) ::
          if fl then [Event.fsync fd] else []) := by
  have hle := oset_req_size_le_remaining fs mx rem o
  have hp : ¬ wrap_ssize (S.lseek s fd o).1 < 0 := by
    have := hfull (Event.lseek fd o (wrap_ssize (S.lseek s fd o).1)) (by
        simp only [oset_loop_seek]
        split_ifs <;> simp_all)
    simpa using this
  have hx : wrap_ssize (S.xfer d (S.lseek s fd o).2 fd buf (oset_req_size fs mx rem o)).1 =
      ((oset_req_size fs mx rem o : Nat) : Int) := by
    have := hfull (Event.xfer d fd buf (oset_req_size fs mx rem o)
      (wrap_ssize (S.xfer d (S.lseek s fd o).2 fd buf (oset_req_size fs mx rem o)).1)) (by
        simp only [oset_loop_seek]
        split_ifs <;> simp_all)
    simpa using this
  have hacc : ¬ ((oset_req_size fs mx rem o : Nat) : Int) < to_ssize (oset_req_size fs mx rem o) :=
    not_lt.mpr (to_ssize_le _)
  have hsub : size_sub rem (oset_req_size fs mx rem o) = rem - oset_req_size fs mx rem o :=
    size_sub_of_le (by omega) hle
  have hw : wrap_ssize (nbytes + ((oset_req_size fs mx rem o : Nat) : Int)) =
      nbytes + ((oset_req_size fs mx rem o : Nat) : Int) :=
    wrap_ssize_of_range (by omega) (by omega)
  simp only [oset_loop_seek, hx, hacc, hsub, hw, hp, if_false]
  rw [if_pos ⟨hrem, hn⟩]
  cases fl
  · exact ⟨_, _, rfl⟩
  · exact ⟨_, _, rfl⟩

theorem oset_loop_seek_nil (S : Sys σ) (d : Dir) (fl : Bool) (fd : Int) (buf fs mx : Nat)
    (offs : List Int) (rq : Nat) (nbytes : Int) (s : σ) :
    oset_loop_seek S d fl fd buf fs mx offs 0 rq nbytes s = ⟨.ret nbytes, s, []⟩ := by
  cases offs <;> simp [oset_loop_seek]

/-- A run of the seek-then-transfer offset-set loop in which every call is
full: its requests are those of `oset_plan`, and it returns the whole volume
when the offsets can carry it. -/
theorem oset_loop_seek_full (S : Sys σ) (d : Dir) (fl : Bool) (fd : Int) (buf fs mx : Nat)
    (offs : List Int) (rem rq : Nat) (nbytes : Int) (s : σ)
    (hn : 0 ≤ nbytes) (hlt : nbytes + rem < 2 ^ 63)
    (hfull : ∀ e ∈ (oset_loop_seek S d fl fd buf fs mx offs rem rq nbytes s).trace,
      e.full = true) :
    (oset_loop_seek S d fl fd buf fs mx offs rem rq nbytes s).trace.filterMap Event.target =
        (oset_plan fs mx rem offs).map Prod.fst ∧
      (oset_loop_seek S d fl fd buf fs mx offs rem rq nbytes s).trace.filterMap Event.size =
        (oset_plan fs mx rem offs).map (fun p => (p.2 : Int)) ∧
      (rem ≤ oset_capacity fs mx offs →
        (oset_loop_seek S d fl fd buf fs mx offs rem rq nbytes s).out = .ret (nbytes + rem)) := by
  induction offs generalizing rem rq nbytes s with
  | nil =>
    simp only [oset_loop_seek, oset_plan]
    refine ⟨by split_ifs <;> rfl, by split_ifs <;> rfl, fun h => ?_⟩
    have : rem = 0 := by simpa [oset_capacity] using h
    simp [this]
  | cons o offs ih =>
    by_cases hrem : rem = 0
    · subst hrem
      simp [oset_loop_seek_nil, oset_plan]
    · obtain ⟨s1, pos, heq⟩ := oset_loop_seek_step S d fl fd buf fs mx o offs rem rq nbytes s hrem
        hn hlt hfull
      have hle := oset_req_size_le_remaining fs mx rem o
      rw [heq] at hfull ⊢
      have ih' := ih (rem - oset_req_size fs mx rem o) (oset_req_size fs mx rem o)
        (nbytes + (oset_req_size fs mx rem o : Nat)) s1
        (by omega) (by omega) (fun e he => hfull e (by simp [he]))
      simp only [Res.after_trace, Res.after_out, oset_plan, if_neg hrem, List.map_cons]
      refine ⟨?_, ?_, fun hc => ?_⟩
      · cases fl <;> simp [ih'.1]
      · cases fl <;> simp [ih'.2.1]
      · rw [ih'.2.2 (oset_capacity_step fs mx rem o offs hc)]
        congr 1
        omega

end

/-! ## Offset-set entries: order and size of the requests -/

section
variable {σ : Type}

theorem posix_write_oset_eq (S : Sys σ) (file : iore_file_t) (buf : Nat) (offs : List Int)
    (test : iore_test_t) (rq0 : Nat) (s : σ) :
    posix_write_oset S file buf offs test rq0 s =
      final_flush S test.write_flush file.hdle_fint
        (oset_loop S .wr test.write_flush_per_req test.seek_rw_single_op file.hdle_fint buf
          test.oset._file_size test.oset.my_req_size offs test.oset.my_data_size rq0 0 s) := rfl

theorem posix_read_oset_eq (S : Sys σ) (file : iore_file_t) (buf : Nat) (offs : List Int)
    (test : iore_test_t) (rq0 : Nat) (s : σ) :
    posix_read_oset S file buf offs test rq0 s =
      oset_loop S .rd false test.seek_rw_single_op file.hdle_fint buf
        test.oset._file_size test.oset.my_req_size offs test.oset.my_data_size rq0 0 s := rfl

theorem oset_loop_full (S : Sys σ) (d : Dir) (fl single : Bool) (fd : Int) (buf fs mx : Nat)
    (offs : List Int) (rem rq : Nat) (nbytes : Int) (s : σ)
    (hn : 0 ≤ nbytes) (hlt : nbytes + rem < 2 ^ 63)
    (hfull : ∀ e ∈ (oset_loop S d fl single fd buf fs mx offs rem rq nbytes s).trace,
      e.full = true) :
    (oset_loop S d fl single fd buf fs mx offs rem rq nbytes s).trace.filterMap Event.target =
        (oset_plan fs mx rem offs).map Prod.fst ∧
      (oset_loop S d fl single fd buf fs mx offs rem rq nbytes s).trace.filterMap Event.size =
        (oset_plan fs mx rem offs).map (fun p => (p.2 : Int)) ∧
      (rem ≤ oset_capacity fs mx offs →
        (oset_loop S d fl single fd buf fs mx offs rem rq nbytes s).out = .ret (nbytes + rem)) := by
  unfold oset_loop at hfull ⊢
  cases single
  · exact oset_loop_seek_full S d fl fd buf fs mx offs rem rq nbytes s hn hlt hfull
  · exact oset_loop_single_op_full S d fl fd buf fs mx offs rem nbytes s hn hlt hfull

theorem flush_tail_plain (c : Prop) [Decidable c] (fd : Int) :
    ∀ e ∈ (if c then [Event.fsync fd] else []), e.target = none ∧ e.size = none ∧ e.buffer = none := by
  intro e he
  by_cases hc : c
  · rw [if_pos hc] at he
    simp at he
    subst he
    simp
  · rw [if_neg hc] at he
    simp at he

end

section
variable {σ : Type}

theorem dset_loop_single_op_done (S : Sys σ) (d : Dir) (fl : Bool) (fd : Int) (buf ds rq : Nat)
    (offs : List Int) (nbytes : Int) (s : σ) (h : ¬ (nbytes < to_ssize ds ∧ 0 ≤ nbytes)) :
    dset_loop_single_op S d fl fd buf ds rq offs nbytes s = ⟨.ret nbytes, s, []⟩ := by
  cases offs <;> simp only [dset_loop_single_op, if_neg h]

theorem dset_loop_seek_done (S : Sys σ) (d : Dir) (fl : Bool) (fd : Int) (buf ds rq : Nat)
    (offs : List Int) (nbytes : Int) (s : σ) (h : ¬ (nbytes < to_ssize ds ∧ 0 ≤ nbytes)) :
    dset_loop_seek S d fl fd buf ds rq offs nbytes s = ⟨.ret nbytes, s, []⟩ := by
  cases offs <;> simp only [dset_loop_seek, if_neg h]

/-- One iteration of the single-call dataset loop whose transfer is full. -/
theorem dset_loop_single_op_step (S : Sys σ) (d : Dir) (fl : Bool) (fd : Int) (buf ds rq : Nat)
    (o : Int) (offs : List Int) (nbytes : Int) (s : σ)
    (hc : nbytes < to_ssize ds ∧ 0 ≤ nbytes) (hlt : nbytes + rq < 2 ^ 63)
    (hfull : ∀ e ∈ (dset_loop_single_op S d fl fd buf ds rq (o :: offs) nbytes s).trace,
      e.full = true) :
    ∃ s1, dset_loop_single_op S d fl fd buf ds rq (o :: offs) nbytes s =
      (dset_loop_single_op S d fl fd buf ds rq offs (nbytes + (rq : Nat)) s1).after
        (Event.pxfer d fd (buf + nbytes.toNat) rq o (rq : Nat) ::
          if fl then [Event.fsync fd] else []) := by
  have hx : wrap_ssize (S.pxfer d s fd (buf + nbytes.toNat) rq o).1 = ((rq : Nat) : Int) := by
    have := hfull (Event.pxfer d fd (buf + nbytes.toNat) rq o
      (wrap_ssize (S.pxfer d s fd (buf + nbytes.toNat) rq o).1)) (by
        simp only [dset_loop_single_op]
        split_ifs <;> simp_all)
    simpa using this
  have hacc : ¬ ((rq : Nat) : Int) < to_ssize rq := not_lt.mpr (to_ssize_le _)
  have hw : wrap_ssize (nbytes + ((rq : Nat) : Int)) = nbytes + ((rq : Nat) : Int) :=
    wrap_ssize_of_range (by omega) (by omega)
  simp only [dset_loop_single_op, hx, hacc, hw, if_false]
  rw [if_pos hc]
  cases fl
  · exact ⟨_, rfl⟩
  · exact ⟨_, rfl⟩

/-- One iteration of the seek-then-transfer dataset loop whose calls are full. -/
theorem dset_loop_seek_step (S : Sys σ) (d : Dir) (fl : Bool) (fd : Int) (buf ds rq : Nat)
    (o : Int) (offs : List Int) (nbytes : Int) (s : σ)
    (hc : nbytes < to_ssize ds ∧ 0 ≤ nbytes) (hlt : nbytes + rq < 2 ^ 63)
    (hfull : ∀ e ∈ (dset_loop_seek S d fl fd buf ds rq (o :: offs) nbytes s).trace,
      e.full = true) :
    ∃ s1 pos, dset_loop_seek S d fl fd buf ds rq (o :: offs) nbytes s =
      (dset_loop_seek S d fl fd buf ds rq offs (nbytes + (rq : Nat)) s1).after
        (Event.lseek fd o pos :: Event.xfer d fd (buf + nbytes.toNat) rq (rq : Nat) ::
          if fl then [Event.fsync fd] else []) := by
  have hp : ¬ wrap_ssize (S.lseek s fd o).1 < 0 := by
    have := hfull (Event.lseek fd o (wrap_ssize (S.lseek s fd o).1)) (by
        simp only [dset_loop_seek]
        split_ifs <;> simp_all)
    simpa using this
  have hx : wrap_ssize (S.xfer d (S.lseek s fd o).2 fd (buf + nbytes.toNat) rq).1 =
      ((rq : Nat) : Int) := by
    have := hfull (Event.xfer d fd (buf + nbytes.toNat) rq
      (wrap_ssize (S.xfer d (S.lseek s fd o).2 fd (buf + nbytes.toNat) rq).1)) (by
        simp only [dset_loop_seek]
        split_ifs <;> simp_all)
    simpa using this
  have hacc : ¬ ((rq : Nat) : Int) < to_ssize rq := not_lt.mpr (to_ssize_le _)
  have hw : wrap_ssize (nbytes + ((rq : Nat) : Int)) = nbytes + ((rq : Nat) : Int) :=
    wrap_ssize_of_range (by omega) (by omega)
  simp only [dset_loop_seek, hx, hacc, hw, hp, if_false]
  rw [if_pos hc]
  cases fl
  · exact ⟨_, _, rfl⟩
  · exact ⟨_, _, rfl⟩

/-- A run of the single-call dataset loop in which every call is full, from `j`
requests done with `m` to go. -/
theorem dset_loop_single_op_full (S : Sys σ) (d : Dir) (fl : Bool) (fd : Int) (buf ds rq : Nat)
    (offs : List Int) (m j : Nat) (nbytes : Int) (s : σ) (hnb : nbytes = ((j * rq : Nat) : Int))
    (hds : ds = (j + m) * rq) (hlt : ds < 2 ^ 63) (hrq : 1 ≤ rq) (hm : m ≤ offs.length)
    (hfull : ∀ e ∈ (dset_loop_single_op S d fl fd buf ds rq offs nbytes s).trace, e.full = true) :
    (dset_loop_single_op S d fl fd buf ds rq offs nbytes s).out = .ret (ds : Nat) ∧
      (dset_loop_single_op S d fl fd buf ds rq offs nbytes s).trace.filterMap Event.target = offs.take m ∧
      (dset_loop_single_op S d fl fd buf ds rq offs nbytes s).trace.filterMap Event.size =
        List.replicate m (rq : Int) ∧
      (dset_loop_single_op S d fl fd buf ds rq offs nbytes s).trace.filterMap Event.buffer =
        (List.range' j m).map (fun i => buf + i * rq) := by
  induction offs generalizing m j nbytes s with
  | nil =>
    have hm0 : m = 0 := by simpa using hm
    subst hm0
    have hnd : nbytes = (ds : Int) := by rw [hnb, hds]; simp
    rw [dset_loop_single_op_done]
    · simp [hnd]
    · rw [to_ssize_of_lt hlt, hnd]
      simp
  | cons o offs ih =>
    cases m with
    | zero =>
      have hnd : nbytes = (ds : Int) := by rw [hnb, hds]; simp
      rw [dset_loop_single_op_done]
      · simp [hnd]
      · rw [to_ssize_of_lt hlt, hnd]
        simp
    | succ m =>
      have hjm : j * rq + rq ≤ ds := by
        rw [hds]
        nlinarith
      have hc : nbytes < to_ssize ds ∧ (0 : Int) ≤ nbytes := by
        rw [to_ssize_of_lt hlt]
        constructor <;> omega
      have htn : nbytes.toNat = j * rq := by omega
      obtain ⟨s1, heq⟩ := dset_loop_single_op_step S d fl fd buf ds rq o offs nbytes s hc (by omega) hfull
      rw [heq] at hfull ⊢
      have hnb' : nbytes + ((rq : Nat) : Int) = (((j + 1) * rq : Nat) : Int) := by
        rw [hnb]
        push_cast
        ring
      have ih' := ih m (j + 1) (nbytes + ((rq : Nat) : Int)) s1 hnb' (by rw [hds]; ring)
        (by simpa using hm) (fun e he => hfull e (List.mem_append_right _ he))
      rw [Res.after_trace, Res.after_out, htn]
      refine ⟨ih'.1, ?_, ?_, ?_⟩
      · cases fl <;> simp [ih'.2.1]
      · cases fl <;> simp [ih'.2.2.1, List.replicate_succ]
      · cases fl <;> simp [ih'.2.2.2, List.range'_succ]

/-- A run of the seek-then-transfer dataset loop in which every call is full, from `j`
requests done with `m` to go. -/
theorem dset_loop_seek_full (S : Sys σ) (d : Dir) (fl : Bool) (fd : Int) (buf ds rq : Nat)
    (offs : List Int) (m j : Nat) (nbytes : Int) (s : σ) (hnb : nbytes = ((j * rq : Nat) : Int))
    (hds : ds = (j + m) * rq) (hlt : ds < 2 ^ 63) (hrq : 1 ≤ rq) (hm : m ≤ offs.length)
    (hfull : ∀ e ∈ (dset_loop_seek S d fl fd buf ds rq offs nbytes s).trace, e.full = true) :
    (dset_loop_seek S d fl fd buf ds rq offs nbytes s).out = .ret (ds : Nat) ∧
      (dset_loop_seek S d fl fd buf ds rq offs nbytes s).trace.filterMap Event.target = offs.take m ∧
      (dset_loop_seek S d fl fd buf ds rq offs nbytes s).trace.filterMap Event.size =
        List.replicate m (rq : Int) ∧
      (dset_loop_seek S d fl fd buf ds rq offs nbytes s).trace.filterMap Event.buffer =
        (List.range' j m).map (fun i => buf + i * rq) := by
  induction offs generalizing m j nbytes s with
  | nil =>
    have hm0 : m = 0 := by simpa using hm
    subst hm0
    have hnd : nbytes = (ds : Int) := by rw [hnb, hds]; simp
    rw [dset_loop_seek_done]
    · simp [hnd]
    · rw [to_ssize_of_lt hlt, hnd]
      simp
  | cons o offs ih =>
    cases m with
    | zero =>
      have hnd : nbytes = (ds : Int) := by rw [hnb, hds]; simp
      rw [dset_loop_seek_done]
      · simp [hnd]
      · rw [to_ssize_of_lt hlt, hnd]
        simp
    | succ m =>
      have hjm : j * rq + rq ≤ ds := by
        rw [hds]
        nlinarith
      have hc : nbytes < to_ssize ds ∧ (0 : Int) ≤ nbytes := by
        rw [to_ssize_of_lt hlt]
        constructor <;> omega
      have htn : nbytes.toNat = j * rq := by omega
      obtain ⟨s1, pos, heq⟩ := dset_loop_seek_step S d fl fd buf ds rq o offs nbytes s hc (by omega) hfull
      rw [heq] at hfull ⊢
      have hnb' : nbytes + ((rq : Nat) : Int) = (((j + 1) * rq : Nat) : Int) := by
        rw [hnb]
        push_cast
        ring
      have ih' := ih m (j + 1) (nbytes + ((rq : Nat) : Int)) s1 hnb' (by rw [hds]; ring)
        (by simpa using hm) (fun e he => hfull e (List.mem_append_right _ he))
      rw [Res.after_trace, Res.after_out, htn]
      refine ⟨ih'.1, ?_, ?_, ?_⟩
      · cases fl <;> simp [ih'.2.1]
      · cases fl <;> simp [ih'.2.2.1, List.replicate_succ]
      · cases fl <;> simp [ih'.2.2.2, List.range'_succ]

end

/-! ## How far a loop reads into the offset array -/

section
variable {σ : Type}

/-- The number of iterations of a loop: the number of its calls that aim at an
offset (positioned transfers and seeks). -/
theorem iterations_after (es : List Event) (r : Res σ) :
    ((r.after es).trace.filterMap Event.target).length =
      (es.filterMap Event.target).length + (r.trace.filterMap Event.target).length := by
  simp [Res.after]

theorem oset_loop_single_op_take (S : Sys σ) (d : Dir) (fl : Bool) (fd : Int) (buf fs mx : Nat)
    (offs : List Int) (rem : Nat) (nbytes : Int) (s : σ) (n : Nat)
    (h : ((oset_loop_single_op S d fl fd buf fs mx offs rem nbytes s).trace.filterMap
      Event.target).length ≤ n) :
    oset_loop_single_op S d fl fd buf fs mx (offs.take n) rem nbytes s =
      oset_loop_single_op S d fl fd buf fs mx offs rem nbytes s := by
  induction offs generalizing rem nbytes s n with
  | nil => simp
  | cons o offs ih =>
    cases n with
    | zero =>
      simp only [List.take_zero, oset_loop_single_op] at h ⊢
      split_ifs at h ⊢ <;> first | rfl | (simp [iterations_after] at h)
    | succ n =>
      simp only [List.take_succ_cons, oset_loop_single_op] at h ⊢
      split_ifs at h ⊢ <;> first
        | rfl
        | (rw [ih _ _ _ n (by simp only [iterations_after] at h; simp at h; omega)])

theorem oset_loop_seek_take (S : Sys σ) (d : Dir) (fl : Bool) (fd : Int) (buf fs mx : Nat)
    (offs : List Int) (rem rq : Nat) (nbytes : Int) (s : σ) (n : Nat)
    (h : ((oset_loop_seek S d fl fd buf fs mx offs rem rq nbytes s).trace.filterMap
      Event.target).length ≤ n) :
    oset_loop_seek S d fl fd buf fs mx (offs.take n) rem rq nbytes s =
      oset_loop_seek S d fl fd buf fs mx offs rem rq nbytes s := by
  induction offs generalizing rem rq nbytes s n with
  | nil => simp
  | cons o offs ih =>
    cases n with
    | zero =>
      simp only [List.take_zero, oset_loop_seek] at h ⊢
      split_ifs at h ⊢ <;> first | rfl | (simp [iterations_after] at h)
    | succ n =>
      simp only [List.take_succ_cons, oset_loop_seek] at h ⊢
      split_ifs at h ⊢ <;> first
        | rfl
        | (rw [ih _ _ _ _ n (by simp only [iterations_after] at h; simp at h; omega)])

theorem dset_loop_single_op_take (S : Sys σ) (d : Dir) (fl : Bool) (fd : Int) (buf ds rq : Nat)
    (offs : List Int)  (nbytes : Int) (s : σ) (n : Nat)
    (h : ((dset_loop_single_op S d fl fd buf ds rq offs  nbytes s).trace.filterMap
      Event.target).length ≤ n) :
    dset_loop_single_op S d fl fd buf ds rq (offs.take n)  nbytes s =
      dset_loop_single_op S d fl fd buf ds rq offs  nbytes s := by
  induction offs generalizing  nbytes s n with
  | nil => simp
  | cons o offs ih =>
    cases n with
    | zero =>
      simp only [List.take_zero, dset_loop_single_op] at h ⊢
      split_ifs at h ⊢ <;> first | rfl | (simp [iterations_after] at h)
    | succ n =>
      simp only [List.take_succ_cons, dset_loop_single_op] at h ⊢
      split_ifs at h ⊢ <;> first
        | rfl
        | (rw [ih _ _ n (by simp only [iterations_after] at h; simp at h; omega)])

theorem dset_loop_seek_take (S : Sys σ) (d : Dir) (fl : Bool) (fd : Int) (buf ds rq : Nat)
    (offs : List Int)  (nbytes : Int) (s : σ) (n : Nat)
    (h : ((dset_loop_seek S d fl fd buf ds rq offs  nbytes s).trace.filterMap
      Event.target).length ≤ n) :
    dset_loop_seek S d fl fd buf ds rq (offs.take n)  nbytes s =
      dset_loop_seek S d fl fd buf ds rq offs  nbytes s := by
  induction offs generalizing  nbytes s n with
  | nil => simp
  | cons o offs ih =>
    cases n with
    | zero =>
      simp only [List.take_zero, dset_loop_seek] at h ⊢
      split_ifs at h ⊢ <;> first | rfl | (simp [iterations_after] at h)
    | succ n =>
      simp only [List.take_succ_cons, dset_loop_seek] at h ⊢
      split_ifs at h ⊢ <;> first
        | rfl
        | (rw [ih _ _ n (by simp only [iterations_after] at h; simp at h; omega)])

/-! ## Termination -/

theorem oset_req_size_pos (fs mx rem : Nat) (o : Int) (hrem : rem ≠ 0) (hmx : 1 ≤ mx)
    (hfs : fs < 2 ^ 64) (ho : 0 ≤ o ∧ o < 2 ^ 63 ∧ o ≠ (fs : Int)) :
    1 ≤ oset_req_size fs mx rem o := by
  have h1 : to_size o = o.toNat := by
    unfold to_size
    rw [Int.emod_eq_of_lt ho.1 (by omega)]
  have h2 : size_sub fs o.toNat ≠ 0 := by
    unfold size_sub
    omega
  unfold oset_req_size
  simp only [h1]
  split_ifs <;> omega

theorem oset_req_size_eq_zero (fs mx rem : Nat) (o : Int) (hrem : rem ≠ 0)
    (hfs : fs < 2 ^ 64) (ho : 0 ≤ o ∧ o < 2 ^ 63) :
    oset_req_size fs mx rem o = 0 ↔ mx = 0 ∨ o = (fs : Int) := by
  have h1 : to_size o = o.toNat := by
    unfold to_size
    rw [Int.emod_eq_of_lt ho.1 (by omega)]
  have h2 : size_sub fs o.toNat = 0 ↔ o = (fs : Int) := by
    unfold size_sub
    omega
  unfold oset_req_size
  simp only [h1]
  split_ifs <;> omega

/-- The single-call offset-set loop makes at most `remaining` iterations and
stays inside an array of at least `remaining` entries, whatever the system
returns, when every request has at least one byte. -/
theorem oset_loop_single_op_bound (S : Sys σ) (d : Dir) (fl : Bool) (fd : Int) (buf fs mx : Nat)
    (offs : List Int) (rem : Nat) (nbytes : Int) (s : σ) (hmx : 1 ≤ mx) (hfs : fs < 2 ^ 64)
    (hrem : rem < 2 ^ 64) (hoffs : ∀ o ∈ offs, 0 ≤ o ∧ o < 2 ^ 63 ∧ o ≠ (fs : Int)) :
    ((oset_loop_single_op S d fl fd buf fs mx offs rem nbytes s).trace.filterMap
        Event.target).length ≤ rem ∧
      (rem ≤ offs.length →
        (oset_loop_single_op S d fl fd buf fs mx offs rem nbytes s).out ≠ .fault) := by
  induction offs generalizing rem nbytes s with
  | nil =>
    simp only [oset_loop_single_op]
    split_ifs with hc
    · refine ⟨by simp, fun h => ?_⟩
      simp at h
      exact absurd h hc.1
    · simp
  | cons o offs ih =>
    simp only [oset_loop_single_op]
    split_ifs with hc hrej hfl
    · rw [oset_loop_single_op_neg _ _ _ _ _ _ _ _ _ _ _ (by norm_num)]
      have := hc.1
      refine ⟨?_, by simp⟩
      simp [Res.after]
      omega
    · have hpos := oset_req_size_pos fs mx rem o hc.1 hmx hfs (hoffs o (by simp))
      have hle := oset_req_size_le_remaining fs mx rem o
      rw [size_sub_of_le hrem hle, iterations_after, Res.after_out]
      have ih' := ih (rem - oset_req_size fs mx rem o)
        (wrap_ssize (nbytes + wrap_ssize (S.pxfer d s fd buf (oset_req_size fs mx rem o) o).1))
        (S.fsync (S.pxfer d s fd buf (oset_req_size fs mx rem o) o).2 fd) (by omega)
        (fun x hx => hoffs x (by simp [hx]))
      refine ⟨?_, fun h => ih'.2 (by simp at h; omega)⟩
      have := ih'.1
      simp
      omega
    · have hpos := oset_req_size_pos fs mx rem o hc.1 hmx hfs (hoffs o (by simp))
      have hle := oset_req_size_le_remaining fs mx rem o
      rw [size_sub_of_le hrem hle, iterations_after, Res.after_out]
      have ih' := ih (rem - oset_req_size fs mx rem o)
        (wrap_ssize (nbytes + wrap_ssize (S.pxfer d s fd buf (oset_req_size fs mx rem o) o).1))
        (S.pxfer d s fd buf (oset_req_size fs mx rem o) o).2 (by omega)
        (fun x hx => hoffs x (by simp [hx]))
      refine ⟨?_, fun h => ih'.2 (by simp at h; omega)⟩
      have := ih'.1
      simp
      omega
    · simp


/-- The seek-then-transfer offset-set loop makes at most `remaining` iterations
and stays inside an array of at least `remaining` entries, whatever the system
returns, when every request has at least one byte. -/
theorem oset_loop_seek_bound (S : Sys σ) (d : Dir) (fl : Bool) (fd : Int) (buf fs mx : Nat)
    (offs : List Int) (rem rq : Nat) (nbytes : Int) (s : σ) (hmx : 1 ≤ mx) (hfs : fs < 2 ^ 64)
    (hrem : rem < 2 ^ 64) (hoffs : ∀ o ∈ offs, 0 ≤ o ∧ o < 2 ^ 63 ∧ o ≠ (fs : Int)) :
    ((oset_loop_seek S d fl fd buf fs mx offs rem rq nbytes s).trace.filterMap
        Event.target).length ≤ rem ∧
      (rem ≤ offs.length →
        (oset_loop_seek S d fl fd buf fs mx offs rem rq nbytes s).out ≠ .fault) := by
  induction offs generalizing rem rq nbytes s with
  | nil =>
    simp only [oset_loop_seek]
    split_ifs with hc
    · refine ⟨by simp, fun h => ?_⟩
      simp at h
      exact absurd h hc.1
    · simp
  | cons o offs ih =>
    simp only [oset_loop_seek]
    split_ifs with hc hseek hrej hfl
    · rw [oset_loop_seek_neg _ _ _ _ _ _ _ _ _ _ _ _ (by norm_num)]
      have := hc.1
      refine ⟨?_, by simp⟩
      simp [Res.after]
      omega
    · rw [oset_loop_seek_neg _ _ _ _ _ _ _ _ _ _ _ _ (by norm_num)]
      have := hc.1
      refine ⟨?_, by simp⟩
      simp [Res.after]
      omega
    · have hpos := oset_req_size_pos fs mx rem o hc.1 hmx hfs (hoffs o (by simp))
      have hle := oset_req_size_le_remaining fs mx rem o
      rw [size_sub_of_le hrem hle, iterations_after, Res.after_out]
      have ih' := ih (rem - oset_req_size fs mx rem o) (oset_req_size fs mx rem o)
        (wrap_ssize (nbytes +
          wrap_ssize (S.xfer d (S.lseek s fd o).2 fd buf (oset_req_size fs mx rem o)).1))
        (S.fsync (S.xfer d (S.lseek s fd o).2 fd buf (oset_req_size fs mx rem o)).2 fd) (by omega)
        (fun x hx => hoffs x (by simp [hx]))
      refine ⟨?_, fun h => ih'.2 (by simp at h; omega)⟩
      have := ih'.1
      simp
      omega
    · have hpos := oset_req_size_pos fs mx rem o hc.1 hmx hfs (hoffs o (by simp))
      have hle := oset_req_size_le_remaining fs mx rem o
      rw [size_sub_of_le hrem hle, iterations_after, Res.after_out]
      have ih' := ih (rem - oset_req_size fs mx rem o) (oset_req_size fs mx rem o)
        (wrap_ssize (nbytes +
          wrap_ssize (S.xfer d (S.lseek s fd o).2 fd buf (oset_req_size fs mx rem o)).1))
        (S.xfer d (S.lseek s fd o).2 fd buf (oset_req_size fs mx rem o)).2 (by omega)
        (fun x hx => hoffs x (by simp [hx]))
      refine ⟨?_, fun h => ih'.2 (by simp at h; omega)⟩
      have := ih'.1
      simp
      omega
    · simp

theorem to_ssize_lt (n : Nat) : to_ssize n < 2 ^ 63 := by
  unfold to_ssize
  have := Nat.mod_lt n (show 0 < 2 ^ 64 by norm_num)
  split_ifs <;> omega

theorem wrap_ssize_sum (a b : Int) (ha : 0 ≤ a) (ha' : a < 2 ^ 63) (hb : 0 ≤ b)
    (hb' : b < 2 ^ 63) : wrap_ssize (a + b) = a + b ∨ wrap_ssize (a + b) < 0 := by
  unfold wrap_ssize
  omega

/-- One more accepted transfer of the dataset loops: the byte count grows by at
least the request size, or the sum leaves the range and the loop is over. -/
theorem dset_progress (ds rq : Nat) (nbytes xferd : Int) (k : Nat) (hrq : rq < 2 ^ 63)
    (hc : nbytes < to_ssize ds ∧ 0 ≤ nbytes) (hacc : ¬ xferd < to_ssize rq)
    (hx : xferd < 2 ^ 63) (hm : to_ssize ds - nbytes ≤ (((k + 1) * rq : Nat) : Int)) :
    wrap_ssize (nbytes + xferd) < 0 ∨
      to_ssize ds - wrap_ssize (nbytes + xferd) ≤ ((k * rq : Nat) : Int) := by
  have h1 := to_ssize_lt ds
  rw [to_ssize_of_lt hrq] at hacc
  have h2 : (((k + 1) * rq : Nat) : Int) = ((k * rq : Nat) : Int) + (rq : Int) := by
    push_cast
    ring
  rcases wrap_ssize_sum nbytes xferd hc.2 (by omega) (by omega) hx with h | h
  · right
    rw [h]
    omega
  · left
    exact h

theorem dset_bound_pos (ds rq : Nat) (nbytes : Int) (m : Nat)
    (hc : nbytes < to_ssize ds ∧ 0 ≤ nbytes) (hm : to_ssize ds - nbytes ≤ ((m * rq : Nat) : Int)) :
    ∃ k, m = k + 1 := by
  cases m with
  | zero => simp at hm; omega
  | succ k => exact ⟨k, rfl⟩

/-- The single-call dataset loop makes at most `m` iterations and stays inside
an array of at least `m` entries, whatever the system returns, when `m`
requests cover what is left of the volume. -/
theorem dset_loop_single_op_bound (S : Sys σ) (d : Dir) (fl : Bool) (fd : Int) (buf ds rq : Nat)
    (offs : List Int) (nbytes : Int) (s : σ) (m : Nat) (hrq : rq < 2 ^ 63)
    (hm : to_ssize ds - nbytes ≤ ((m * rq : Nat) : Int)) :
    ((dset_loop_single_op S d fl fd buf ds rq offs nbytes s).trace.filterMap
        Event.target).length ≤ m ∧
      (m ≤ offs.length → (dset_loop_single_op S d fl fd buf ds rq offs nbytes s).out ≠ .fault) := by
  induction offs generalizing nbytes s m with
  | nil =>
    simp only [dset_loop_single_op]
    split_ifs with hc
    · obtain ⟨k, rfl⟩ := dset_bound_pos ds rq nbytes m hc hm
      simp
    · simp
  | cons o offs ih =>
    simp only [dset_loop_single_op]
    split_ifs with hc hrej hfl
    · obtain ⟨k, rfl⟩ := dset_bound_pos ds rq nbytes m hc hm
      rw [dset_loop_single_op_neg _ _ _ _ _ _ _ _ _ _ (by norm_num)]
      simp [Res.after]
    · obtain ⟨k, rfl⟩ := dset_bound_pos ds rq nbytes m hc hm
      rw [iterations_after, Res.after_out]
      rcases dset_progress ds rq nbytes _ k hrq hc hrej (wrap_ssize_lt _) hm with h | h
      · rw [dset_loop_single_op_neg _ _ _ _ _ _ _ _ _ _ h]
        simp
      · have ih' := ih _ (S.fsync (S.pxfer d s fd (buf + nbytes.toNat) rq o).2 fd) k h
        refine ⟨?_, fun hl => ih'.2 (by simp at hl; omega)⟩
        have := ih'.1
        simp
        omega
    · obtain ⟨k, rfl⟩ := dset_bound_pos ds rq nbytes m hc hm
      rw [iterations_after, Res.after_out]
      rcases dset_progress ds rq nbytes _ k hrq hc hrej (wrap_ssize_lt _) hm with h | h
      · rw [dset_loop_single_op_neg _ _ _ _ _ _ _ _ _ _ h]
        simp
      · have ih' := ih _ (S.pxfer d s fd (buf + nbytes.toNat) rq o).2 k h
        refine ⟨?_, fun hl => ih'.2 (by simp at hl; omega)⟩
        have := ih'.1
        simp
        omega
    · simp

/-- The seek-then-transfer dataset loop makes at most `m` iterations and stays
inside an array of at least `m` entries, whatever the system returns, when `m`
requests cover what is left of the volume. -/
theorem dset_loop_seek_bound (S : Sys σ) (d : Dir) (fl : Bool) (fd : Int) (buf ds rq : Nat)
    (offs : List Int) (nbytes : Int) (s : σ) (m : Nat) (hrq : rq < 2 ^ 63)
    (hm : to_ssize ds - nbytes ≤ ((m * rq : Nat) : Int)) :
    ((dset_loop_seek S d fl fd buf ds rq offs nbytes s).trace.filterMap
        Event.target).length ≤ m ∧
      (m ≤ offs.length → (dset_loop_seek S d fl fd buf ds rq offs nbytes s).out ≠ .fault) := by
  induction offs generalizing nbytes s m with
  | nil =>
    simp only [dset_loop_seek]
    split_ifs with hc
    · obtain ⟨k, rfl⟩ := dset_bound_pos ds rq nbytes m hc hm
      simp
    · simp
  | cons o offs ih =>
    simp only [dset_loop_seek]
    split_ifs with hc hseek hrej hfl
    · obtain ⟨k, rfl⟩ := dset_bound_pos ds rq nbytes m hc hm
      rw [dset_loop_seek_neg _ _ _ _ _ _ _ _ _ _ (by norm_num)]
      simp [Res.after]
    · obtain ⟨k, rfl⟩ := dset_bound_pos ds rq nbytes m hc hm
      rw [dset_loop_seek_neg _ _ _ _ _ _ _ _ _ _ (by norm_num)]
      simp [Res.after]
    · obtain ⟨k, rfl⟩ := dset_bound_pos ds rq nbytes m hc hm
      rw [iterations_after, Res.after_out]
      rcases dset_progress ds rq nbytes _ k hrq hc hrej (wrap_ssize_lt _) hm with h | h
      · rw [dset_loop_seek_neg _ _ _ _ _ _ _ _ _ _ h]
        simp
      · have ih' := ih _
          (S.fsync (S.xfer d (S.lseek s fd o).2 fd (buf + nbytes.toNat) rq).2 fd) k h
        refine ⟨?_, fun hl => ih'.2 (by simp at hl; omega)⟩
        have := ih'.1
        simp
        omega
    · obtain ⟨k, rfl⟩ := dset_bound_pos ds rq nbytes m hc hm
      rw [iterations_after, Res.after_out]
      rcases dset_progress ds rq nbytes _ k hrq hc hrej (wrap_ssize_lt _) hm with h | h
      · rw [dset_loop_seek_neg _ _ _ _ _ _ _ _ _ _ h]
        simp
      · have ih' := ih _ (S.xfer d (S.lseek s fd o).2 fd (buf + nbytes.toNat) rq).2 k h
        refine ⟨?_, fun hl => ih'.2 (by simp at hl; omega)⟩
        have := ih'.1
        simp
        omega
    · simp

end

/-! ## The loop inside each entry -/

section
variable {σ : Type}

theorem entry_tail_eq (S : Sys σ) (op : Op) (test : iore_test_t) (fd : Int) (r : Res σ) :
    (entry_tail S op test fd r).out = r.out ∧
      (entry_tail S op test fd r).trace = r.trace ++ final_flush_calls op test fd r.out := by
  unfold entry_tail final_flush_calls
  cases hw : op.is_write
  · simp
  · simp only [if_true, final_flush_eq, true_and, and_true]

theorem transfer_oset_eq (S : Sys σ) (gen : iore_dset_t → Nat → Option OffSeq) (op : Op)
    (file : iore_file_t) (buf : Nat) (offs : List Int) (test : iore_test_t) (rq0 : Nat) (s : σ)
    (hop : op.is_dset = false) :
    transfer S gen op file buf offs test rq0 s =
      entry_tail S op test file.hdle_fint
        (oset_loop S op.dir (op.is_write && test.write_flush_per_req) test.seek_rw_single_op
          file.hdle_fint buf test.oset._file_size test.oset.my_req_size offs
          test.oset.my_data_size rq0 0 s) := by
  cases op
  · rfl
  · rfl
  · cases hop
  · cases hop

theorem transfer_dset_eq (S : Sys σ) (gen : iore_dset_t → Nat → Option OffSeq) (op : Op)
    (file : iore_file_t) (buf : Nat) (offs : List Int) (test : iore_test_t) (rq0 : Nat) (s : σ)
    (seq : OffSeq) (hop : op.is_dset = true)
    (hk : test.dset.type = .IORE_WKLD_DSET_CARTESIAN)
    (hg : gen test.dset test.file_mode = some seq) :
    transfer S gen op file buf offs test rq0 s =
      (free_offs seq.ptr (entry_tail S op test file.hdle_fint
        (dset_loop S op.dir (op.is_write && test.write_flush_per_req) test.seek_rw_single_op
          file.hdle_fint buf test.dset.my_size (dset_req_size test.dset) seq.entries 0 s))).after
        [Event.dset_to_off (some seq.ptr)] := by
  cases op
  · cases hop
  · cases hop
  · simp only [transfer, posix_write_dset, hk, hg, if_true]
    rfl
  · simp only [transfer, posix_read_dset, hk, hg, if_true]
    rfl

/-- The outcome and the calls of a dataset entry that reaches its loop. -/
theorem transfer_dset_parts (S : Sys σ) (gen : iore_dset_t → Nat → Option OffSeq) (op : Op)
    (file : iore_file_t) (buf : Nat) (offs : List Int) (test : iore_test_t) (rq0 : Nat) (s : σ)
    (seq : OffSeq) (hop : op.is_dset = true)
    (hk : test.dset.type = .IORE_WKLD_DSET_CARTESIAN)
    (hg : gen test.dset test.file_mode = some seq) :
    ∃ tail : List Event, (∀ e ∈ tail, e.target = none ∧ e.size = none ∧ e.buffer = none) ∧
      (transfer S gen op file buf offs test rq0 s).out =
        (dset_loop S op.dir (op.is_write && test.write_flush_per_req) test.seek_rw_single_op
          file.hdle_fint buf test.dset.my_size (dset_req_size test.dset) seq.entries 0 s).out ∧
      (transfer S gen op file buf offs test rq0 s).trace =
        Event.dset_to_off (some seq.ptr) ::
          ((dset_loop S op.dir (op.is_write && test.write_flush_per_req) test.seek_rw_single_op
          file.hdle_fint buf test.dset.my_size (dset_req_size test.dset) seq.entries 0 s).trace ++
            tail) := by
  rw [transfer_dset_eq S gen op file buf offs test rq0 s seq hop hk hg]
  refine ⟨_, ?_, by simp [free_offs_eq, entry_tail_eq], by
    simp only [Res.after_trace, (free_offs_eq _ _).2, (entry_tail_eq _ _ _ _ _).2,
      (entry_tail_eq _ _ _ _ _).1, List.singleton_append, List.append_assoc]; rfl⟩
  intro e he
  rcases List.mem_append.mp he with he | he
  · unfold final_flush_calls at he
    exact flush_tail_plain _ _ e he
  · split_ifs at he
    · simp at he
    · simp at he
      subst he
      exact ⟨rfl, rfl, rfl⟩

/-- The outcome and the calls of an offset-set entry. -/
theorem transfer_oset_parts (S : Sys σ) (gen : iore_dset_t → Nat → Option OffSeq) (op : Op)
    (file : iore_file_t) (buf : Nat) (offs : List Int) (test : iore_test_t) (rq0 : Nat) (s : σ)
    (hop : op.is_dset = false) :
    ∃ tail : List Event, (∀ e ∈ tail, e.target = none ∧ e.size = none ∧ e.buffer = none) ∧
      (transfer S gen op file buf offs test rq0 s).out =
        (oset_loop S op.dir (op.is_write && test.write_flush_per_req) test.seek_rw_single_op
          file.hdle_fint buf test.oset._file_size test.oset.my_req_size offs
          test.oset.my_data_size rq0 0 s).out ∧
      (transfer S gen op file buf offs test rq0 s).trace =
        (oset_loop S op.dir (op.is_write && test.write_flush_per_req) test.seek_rw_single_op
          file.hdle_fint buf test.oset._file_size test.oset.my_req_size offs
          test.oset.my_data_size rq0 0 s).trace ++ tail := by
  rw [transfer_oset_eq S gen op file buf offs test rq0 s hop]
  refine ⟨_, ?_, (entry_tail_eq _ _ _ _ _).1, (entry_tail_eq _ _ _ _ _).2⟩
  intro e he
  unfold final_flush_calls at he
  exact flush_tail_plain _ _ e he

theorem dset_loop_full (S : Sys σ) (d : Dir) (fl single : Bool) (fd : Int) (buf ds rq : Nat)
    (offs : List Int) (m : Nat) (s : σ)
    (hds : ds = m * rq) (hlt : ds < 2 ^ 63) (hrq : 1 ≤ rq) (hm : m ≤ offs.length)
    (hfull : ∀ e ∈ (dset_loop S d fl single fd buf ds rq offs 0 s).trace, e.full = true) :
    (dset_loop S d fl single fd buf ds rq offs 0 s).out = .ret (ds : Nat) ∧
      (dset_loop S d fl single fd buf ds rq offs 0 s).trace.filterMap Event.target =
        offs.take m ∧
      (dset_loop S d fl single fd buf ds rq offs 0 s).trace.filterMap Event.size =
        List.replicate m (rq : Int) ∧
      (dset_loop S d fl single fd buf ds rq offs 0 s).trace.filterMap Event.buffer =
        (List.range m).map (fun i => buf + i * rq) := by
  unfold dset_loop at hfull ⊢
  rw [List.range_eq_range']
  cases single
  · exact dset_loop_seek_full S d fl fd buf ds rq offs m 0 0 s (by simp) (by simpa using hds) hlt
      hrq hm hfull
  · exact dset_loop_single_op_full S d fl fd buf ds rq offs m 0 0 s (by simp)
      (by simpa using hds) hlt hrq hm hfull

theorem dset_loop_zero (S : Sys σ) (d : Dir) (fl single : Bool) (fd : Int) (buf rq : Nat)
    (offs : List Int) (s : σ) :
    dset_loop S d fl single fd buf 0 rq offs 0 s = ⟨.ret 0, s, []⟩ := by
  unfold dset_loop
  cases single
  · exact dset_loop_seek_done S d fl fd buf 0 rq offs 0 s (by simp [to_ssize])
  · exact dset_loop_single_op_done S d fl fd buf 0 rq offs 0 s (by simp [to_ssize])

theorem oset_loop_bound (S : Sys σ) (d : Dir) (fl single : Bool) (fd : Int) (buf fs mx : Nat)
    (offs : List Int) (rem rq : Nat) (nbytes : Int) (s : σ) (hmx : 1 ≤ mx) (hfs : fs < 2 ^ 64)
    (hrem : rem < 2 ^ 64) (hoffs : ∀ o ∈ offs, 0 ≤ o ∧ o < 2 ^ 63 ∧ o ≠ (fs : Int)) :
    ((oset_loop S d fl single fd buf fs mx offs rem rq nbytes s).trace.filterMap
        Event.target).length ≤ rem ∧
      (rem ≤ offs.length →
        (oset_loop S d fl single fd buf fs mx offs rem rq nbytes s).out ≠ .fault) := by
  unfold oset_loop
  cases single
  · exact oset_loop_seek_bound S d fl fd buf fs mx offs rem rq nbytes s hmx hfs hrem hoffs
  · exact oset_loop_single_op_bound S d fl fd buf fs mx offs rem nbytes s hmx hfs hrem hoffs

theorem oset_loop_take (S : Sys σ) (d : Dir) (fl single : Bool) (fd : Int) (buf fs mx : Nat)
    (offs : List Int) (rem rq : Nat) (nbytes : Int) (s : σ) (n : Nat)
    (h : ((oset_loop S d fl single fd buf fs mx offs rem rq nbytes s).trace.filterMap
      Event.target).length ≤ n) :
    oset_loop S d fl single fd buf fs mx (offs.take n) rem rq nbytes s =
      oset_loop S d fl single fd buf fs mx offs rem rq nbytes s := by
  unfold oset_loop at h ⊢
  cases single
  · exact oset_loop_seek_take S d fl fd buf fs mx offs rem rq nbytes s n h
  · exact oset_loop_single_op_take S d fl fd buf fs mx offs rem nbytes s n h

theorem dset_loop_bound (S : Sys σ) (d : Dir) (fl single : Bool) (fd : Int) (buf ds rq : Nat)
    (offs : List Int) (nbytes : Int) (s : σ) (m : Nat) (hrq : rq < 2 ^ 63)
    (hm : to_ssize ds - nbytes ≤ ((m * rq : Nat) : Int)) :
    ((dset_loop S d fl single fd buf ds rq offs nbytes s).trace.filterMap
        Event.target).length ≤ m ∧
      (m ≤ offs.length → (dset_loop S d fl single fd buf ds rq offs nbytes s).out ≠ .fault) := by
  unfold dset_loop
  cases single
  · exact dset_loop_seek_bound S d fl fd buf ds rq offs nbytes s m hrq hm
  · exact dset_loop_single_op_bound S d fl fd buf ds rq offs nbytes s m hrq hm

theorem dset_loop_take (S : Sys σ) (d : Dir) (fl single : Bool) (fd : Int) (buf ds rq : Nat)
    (offs : List Int) (nbytes : Int) (s : σ) (n : Nat)
    (h : ((dset_loop S d fl single fd buf ds rq offs nbytes s).trace.filterMap
      Event.target).length ≤ n) :
    dset_loop S d fl single fd buf ds rq (offs.take n) nbytes s =
      dset_loop S d fl single fd buf ds rq offs nbytes s := by
  unfold dset_loop at h ⊢
  cases single
  · exact dset_loop_seek_take S d fl fd buf ds rq offs nbytes s n h
  · exact dset_loop_single_op_take S d fl fd buf ds rq offs nbytes s n h

end

/-! ## Byte count of a run without a transfer error -/

/-- C1, as amended: for every transfer entry, in either strategy, with a data
volume below `2 ^ 63` and offsets that suffice for it (`enough_offsets`): if
every seek and transfer of the call is full, the call returns the data volume
of the participant (`my_data_size` for the offset-set entries, `my_size` for
the dataset entries). -/
theorem full_transfer_returns_volume {σ : Type} (S : Sys σ)
    (gen : iore_dset_t → Nat → Option OffSeq) (op : Op) (file : iore_file_t) (buf : Nat)
    (offs : List Int) (test : iore_test_t) (rq0 : Nat) (s : σ)
    (hvol : data_volume op test < 2 ^ 63) (hsup : enough_offsets gen op offs test)
    (hfull : ∀ e ∈ (transfer S gen op file buf offs test rq0 s).trace, e.full = true) :
    (transfer S gen op file buf offs test rq0 s).out = .ret (data_volume op test) := by
  cases hop : op.is_dset
  · obtain ⟨tail, -, hout, htr⟩ := transfer_oset_parts S gen op file buf offs test rq0 s hop
    have hv : data_volume op test = test.oset.my_data_size := by cases op <;> first | rfl | cases hop
    have hs : test.oset.my_data_size ≤
        oset_capacity test.oset._file_size test.oset.my_req_size offs := by
      cases op <;> first | exact hsup | cases hop
    rw [hv] at hvol ⊢
    have hl := oset_loop_full S op.dir (op.is_write && test.write_flush_per_req)
      test.seek_rw_single_op file.hdle_fint buf test.oset._file_size test.oset.my_req_size offs
      test.oset.my_data_size rq0 0 s (le_refl 0) (by omega)
      (fun e he => hfull e (by rw [htr]; exact List.mem_append_left _ he))
    rw [hout, hl.2.2 hs]
    simp
  · have hv : data_volume op test = test.dset.my_size := by cases op <;> first | rfl | cases hop
    have hs : test.dset.type = .IORE_WKLD_DSET_CARTESIAN ∧
        ∃ seq k, gen test.dset test.file_mode = some seq ∧ k ≤ seq.entries.length ∧
          test.dset.my_size = k * dset_req_size test.dset := by
      cases op <;> first | exact hsup | cases hop
    obtain ⟨hk, seq, k, hg, hlen, hsize⟩ := hs
    obtain ⟨tail, -, hout, htr⟩ := transfer_dset_parts S gen op file buf offs test rq0 s seq hop hk hg
    rw [hv] at hvol ⊢
    rw [hout]
    rcases Nat.eq_zero_or_pos (dset_req_size test.dset) with h0 | hpos
    · have hz : test.dset.my_size = 0 := by rw [hsize, h0]; simp
      rw [hz, dset_loop_zero]
      simp
    · exact (dset_loop_full S op.dir (op.is_write && test.write_flush_per_req)
        test.seek_rw_single_op file.hdle_fint buf test.dset.my_size (dset_req_size test.dset)
        seq.entries k s hsize hvol hpos hlen
        (fun e he => hfull e (by rw [htr]; simp [he]))).1

theorem full_transfer_returns_volume_witness :
    (transfer ideal_sys (gen_const 7 [0, 32, 64, 96, 128, 160]) .read_dset file3 0 []
        (test_1024 false true true) 0 ()).out = .ret 192 ∧
    (transfer ideal_sys gen_null .write_oset file3 0 [0, 256, 512, 768]
        (test_1024 false true true) 0 ()).out = .ret 1024 :=
  ⟨full_transfer_returns_volume ideal_sys (gen_const 7 [0, 32, 64, 96, 128, 160]) .read_dset
      file3 0 [] (test_1024 false true true) 0 () (by decide)
      ⟨rfl, ⟨7, [0, 32, 64, 96, 128, 160]⟩, 6, rfl, by decide, by decide⟩ (by decide),
    full_transfer_returns_volume ideal_sys gen_null .write_oset file3 0 [0, 256, 512, 768]
      (test_1024 false true true) 0 () (by decide)
      (show 1024 ≤ oset_capacity 1024 256 [0, 256, 512, 768] by decide) (by decide)⟩

/-- C1, as written, fails in four places, each time with no seek or transfer
that goes wrong.  A Cartesian dataset whose volume is not a whole number of
requests: with elements of 4 bytes, the one dimension 1 and `my_size = 5` the
request size is 4, both transfers are full, and the call returns 8, not 5.  A
dataset of an unsupported kind: the call returns -1.  An offset-set workload
with `my_req_size = 0`: every request has 0 bytes and the loop runs behind the
end of the offset array.  A dataset of `2 ^ 63` bytes: the loop is never
entered and the call returns 0. -/
theorem full_transfer_as_written_fails :
    ((∀ e ∈ (transfer ideal_sys (gen_const 7 [0, 4]) .write_dset file3 0 []
          (mk_test 0 0 0 (cartesian 4 [1] 5) true false false) 0 ()).trace, e.full = true) ∧
      (transfer ideal_sys (gen_const 7 [0, 4]) .write_dset file3 0 []
          (mk_test 0 0 0 (cartesian 4 [1] 5) true false false) 0 ()).trace =
        [Event.dset_to_off (some 7), Event.pwrite 3 0 4 0 4, Event.pwrite 3 4 4 4 4,
          Event.free 7] ∧
      (transfer ideal_sys (gen_const 7 [0, 4]) .write_dset file3 0 []
          (mk_test 0 0 0 (cartesian 4 [1] 5) true false false) 0 ()).out = .ret 8) ∧
    ((∀ e ∈ (transfer ideal_sys (gen_const 7 [0, 4]) .read_dset file3 0 []
          (mk_test 0 0 0 ⟨.unsupported 1, 4, fun _ => 1, 1, 4⟩ true false false) 0 ()).trace,
          e.full = true) ∧
      (transfer ideal_sys (gen_const 7 [0, 4]) .read_dset file3 0 []
          (mk_test 0 0 0 ⟨.unsupported 1, 4, fun _ => 1, 1, 4⟩ true false false) 0 ()).out =
        .ret (-1)) ∧
    ((∀ e ∈ (transfer ideal_sys gen_null .write_oset file3 0 [0, 0]
          (mk_test 1024 4 0 dset_2_3_4 true false false) 0 ()).trace, e.full = true) ∧
      (transfer ideal_sys gen_null .write_oset file3 0 [0, 0]
          (mk_test 1024 4 0 dset_2_3_4 true false false) 0 ()).out = .fault) ∧
    ((∀ e ∈ (transfer ideal_sys (gen_const 7 [0]) .write_dset file3 0 []
          (mk_test 0 0 0 (cartesian (2 ^ 62) [2] (2 ^ 63)) true false false) 0 ()).trace,
          e.full = true) ∧
      (transfer ideal_sys (gen_const 7 [0]) .write_dset file3 0 []
          (mk_test 0 0 0 (cartesian (2 ^ 62) [2] (2 ^ 63)) true false false) 0 ()).out =
        .ret 0) := by
  decide

/-! ## Requests of the dataset entries -/

/-- C10, as amended.  In the offset-set loops, for a non-negative offset, an
iteration decreases `remaining` exactly when its request size is not zero, that
is, when `max_req_size ≥ 1` and the offset differs from `file_size`.  So an
offset-set entry with `my_req_size ≥ 1` and every offset of the array
non-negative and different from `file_size` makes at most `my_data_size`
iterations, returns when the array has at least `my_data_size` entries, and
reads at most the first `my_data_size` entries.  A dataset entry with a request
size from 1 to `2 ^ 63 - 1` makes at most `ceil (my_size / req_size)`
iterations, returns when the sequence has at least that many entries, and reads
at most that many.  All this whatever the system calls return. -/
theorem loops_terminate {σ : Type} (S : Sys σ)
    (gen : iore_dset_t → Nat → Option OffSeq) (op : Op) (file : iore_file_t) (buf : Nat)
    (offs : List Int) (test : iore_test_t) (rq0 : Nat) (s : σ)
    (hrange : test.in_range) :
    (∀ (remaining : Nat) (o : Int), remaining ≠ 0 → remaining < 2 ^ 64 → 0 ≤ o → o < 2 ^ 63 →
      (size_sub remaining
          (oset_req_size test.oset._file_size test.oset.my_req_size remaining o) < remaining ↔
        oset_req_size test.oset._file_size test.oset.my_req_size remaining o ≠ 0) ∧
      (oset_req_size test.oset._file_size test.oset.my_req_size remaining o ≠ 0 ↔
        1 ≤ test.oset.my_req_size ∧ o ≠ (test.oset._file_size : Int))) ∧
    (op.is_dset = false → 1 ≤ test.oset.my_req_size →
      (∀ o ∈ offs, 0 ≤ o ∧ o < 2 ^ 63 ∧ o ≠ (test.oset._file_size : Int)) →
      iterations (transfer S gen op file buf offs test rq0 s).trace ≤ test.oset.my_data_size ∧
      (test.oset.my_data_size ≤ offs.length →
        (transfer S gen op file buf offs test rq0 s).out ≠ .fault) ∧
      transfer S gen op file buf (offs.take test.oset.my_data_size) test rq0 s =
        transfer S gen op file buf offs test rq0 s) ∧
    (op.is_dset = true → ∀ seq, test.dset.type = .IORE_WKLD_DSET_CARTESIAN →
      gen test.dset test.file_mode = some seq →
      1 ≤ dset_req_size test.dset → dset_req_size test.dset < 2 ^ 63 →
      iterations (transfer S gen op file buf offs test rq0 s).trace ≤
        ceil_div test.dset.my_size (dset_req_size test.dset) ∧
      (ceil_div test.dset.my_size (dset_req_size test.dset) ≤ seq.entries.length →
        (transfer S gen op file buf offs test rq0 s).out ≠ .fault) ∧
      transfer S (gen_take (ceil_div test.dset.my_size (dset_req_size test.dset)) gen) op file
          buf offs test rq0 s =
        transfer S gen op file buf offs test rq0 s) := by
  obtain ⟨hfs, hvol, -, -⟩ := hrange
  refine ⟨fun rem o hrem hrem' ho ho' => ?_, fun hop hmx hoffs => ?_,
    fun hop seq hk hg hrq1 hrq => ?_⟩
  · have hle := oset_req_size_le_remaining test.oset._file_size test.oset.my_req_size rem o
    have hz := oset_req_size_eq_zero test.oset._file_size test.oset.my_req_size rem o hrem hfs
      ⟨ho, ho'⟩
    rw [size_sub_of_le hrem' hle]
    constructor
    · omega
    · rw [Ne, hz]
      omega
  · obtain ⟨tail, htail, hout, htr⟩ := transfer_oset_parts S gen op file buf offs test rq0 s hop
    have hb := oset_loop_bound S op.dir (op.is_write && test.write_flush_per_req)
      test.seek_rw_single_op file.hdle_fint buf test.oset._file_size test.oset.my_req_size offs
      test.oset.my_data_size rq0 0 s hmx hfs hvol hoffs
    have h1 : tail.filterMap Event.target = [] :=
      List.filterMap_eq_nil_iff.mpr (fun e he => (htail e he).1)
    refine ⟨?_, ?_, ?_⟩
    · unfold iterations
      rw [htr, List.filterMap_append, h1, List.append_nil]
      exact hb.1
    · rw [hout]
      exact hb.2
    · rw [transfer_oset_eq S gen op file buf offs test rq0 s hop,
        transfer_oset_eq S gen op file buf _ test rq0 s hop,
        oset_loop_take _ _ _ _ _ _ _ _ _ _ _ _ _ _ hb.1]
  · obtain ⟨tail, htail, hout, htr⟩ := transfer_dset_parts S gen op file buf offs test rq0 s seq
      hop hk hg
    have hceil : test.dset.my_size ≤
        ceil_div test.dset.my_size (dset_req_size test.dset) * dset_req_size test.dset := by
      unfold ceil_div
      have h := Nat.div_add_mod (test.dset.my_size + dset_req_size test.dset - 1)
        (dset_req_size test.dset)
      have h' := Nat.mod_lt (test.dset.my_size + dset_req_size test.dset - 1) hrq1
      rw [Nat.mul_comm] at h
      omega
    have hb := dset_loop_bound S op.dir (op.is_write && test.write_flush_per_req)
      test.seek_rw_single_op file.hdle_fint buf test.dset.my_size (dset_req_size test.dset)
      seq.entries 0 s (ceil_div test.dset.my_size (dset_req_size test.dset)) hrq (by
        have := to_ssize_le test.dset.my_size
        omega)
    have h1 : tail.filterMap Event.target = [] :=
      List.filterMap_eq_nil_iff.mpr (fun e he => (htail e he).1)
    have hg' : gen_take (ceil_div test.dset.my_size (dset_req_size test.dset)) gen test.dset
        test.file_mode = some ⟨seq.ptr, seq.entries.take
          (ceil_div test.dset.my_size (dset_req_size test.dset))⟩ := by
      simp [gen_take, hg]
    refine ⟨?_, ?_, ?_⟩
    · unfold iterations
      rw [htr]
      simp only [List.filterMap_cons, Event.target, List.filterMap_append, h1, List.append_nil]
      exact hb.1
    · rw [hout]
      exact hb.2
    · rw [transfer_dset_eq S gen op file buf offs test rq0 s seq hop hk hg,
        transfer_dset_eq S _ op file buf offs test rq0 s _ hop hk hg']
      simp only [dset_loop_take _ _ _ _ _ _ _ _ _ _ _ _ hb.1]

theorem loops_terminate_witness :
    (iterations (transfer flaky_sys gen_null .write_oset file3 0 [0, 256, 512, 768]
        (test_1024 false true true) 0 0).trace ≤ 1024 ∧
      (1024 ≤ [(0 : Int), 256, 512, 768].length →
        (transfer flaky_sys gen_null .write_oset file3 0 [0, 256, 512, 768]
          (test_1024 false true true) 0 0).out ≠ .fault) ∧
      transfer flaky_sys gen_null .write_oset file3 0 ([(0 : Int), 256, 512, 768].take 1024)
          (test_1024 false true true) 0 0 =
        transfer flaky_sys gen_null .write_oset file3 0 [0, 256, 512, 768]
          (test_1024 false true true) 0 0) ∧
    (iterations (transfer flaky_sys (gen_const 7 [0, 32, 64, 96, 128, 160, 192]) .read_dset
        file3 0 [] (test_1024 false true true) 0 0).trace ≤ ceil_div 192 32 ∧
      (ceil_div 192 32 ≤ [(0 : Int), 32, 64, 96, 128, 160, 192].length →
        (transfer flaky_sys (gen_const 7 [0, 32, 64, 96, 128, 160, 192]) .read_dset
          file3 0 [] (test_1024 false true true) 0 0).out ≠ .fault) ∧
      transfer flaky_sys (gen_take (ceil_div 192 32) (gen_const 7 [0, 32, 64, 96, 128, 160, 192]))
          .read_dset file3 0 [] (test_1024 false true true) 0 0 =
        transfer flaky_sys (gen_const 7 [0, 32, 64, 96, 128, 160, 192]) .read_dset
          file3 0 [] (test_1024 false true true) 0 0) :=
  ⟨(loops_terminate flaky_sys gen_null .write_oset file3 0 [0, 256, 512, 768]
      (test_1024 false true true) 0 0
      ⟨by decide, by decide, by decide, by decide⟩).2.1 rfl (by decide) (by decide),
    (loops_terminate flaky_sys (gen_const 7 [0, 32, 64, 96, 128, 160, 192]) .read_dset file3 0 []
      (test_1024 false true true) 0 0
      ⟨by decide, by decide, by decide, by decide⟩).2.2 rfl ⟨7, [0, 32, 64, 96, 128, 160, 192]⟩
      rfl rfl (by decide) (by decide)⟩

/-- C10, as written, fails in two places.  A file of `2 ^ 64 - 1` bytes and the
offset -1: the offset differs from the file size and `my_req_size = 1`, yet
`file_size - *offs` is 0 in `size_t`, every request has 0 bytes, and with
`my_data_size = 1` the loop runs through both entries of the array and reads
behind it.  A dataset with requests of `2 ^ 63` bytes and `my_size = 1`:
`(ssize_t) req_size` is negative, transfers of 0 bytes count as complete, and
the loop runs through both entries of the sequence where
`ceil (my_size / req_size) = 1`. -/
theorem loops_terminate_as_written_fail :
    (oset_req_size (2 ^ 64 - 1) 1 1 (-1) = 0 ∧
      iterations (transfer ideal_sys gen_null .write_oset file3 0 [-1, -1]
        (mk_test (2 ^ 64 - 1) 1 1 dset_2_3_4 true false false) 0 ()).trace = 2 ∧
      (transfer ideal_sys gen_null .write_oset file3 0 [-1, -1]
        (mk_test (2 ^ 64 - 1) 1 1 dset_2_3_4 true false false) 0 ()).out = .fault) ∧
    (dset_req_size (cartesian (2 ^ 62) [2] 1) = 2 ^ 63 ∧
      ceil_div 1 (2 ^ 63) = 1 ∧
      iterations (transfer idle_sys (gen_const 7 [0, 0]) .write_dset file3 0 []
        (mk_test 0 0 0 (cartesian (2 ^ 62) [2] 1) true false false) 0 ()).trace = 2 ∧
      (transfer idle_sys (gen_const 7 [0, 0]) .write_dset file3 0 []
        (mk_test 0 0 0 (cartesian (2 ^ 62) [2] 1) true false false) 0 ()).out = .fault) := by
  decide

/-! ## Round trip over a file of bytes -/

theorem byte_pwrite (s : ByteFile) (fd : Int) (buf n : Nat) (o : Int) (ho : 0 ≤ o) :
    byte_sys.pxfer .wr s fd buf n o = ((n : Int), s.put buf n o.toNat) := by
  simp [Sys.pxfer, byte_sys, not_lt.mpr ho]

theorem byte_pread (s : ByteFile) (fd : Int) (buf n : Nat) (o : Int) (ho : 0 ≤ o) :
    byte_sys.pxfer .rd s fd buf n o = ((n : Int), s.get buf n o.toNat) := by
  simp [Sys.pxfer, byte_sys, not_lt.mpr ho]

theorem byte_lseek (s : ByteFile) (fd : Int) (o : Int) (ho : 0 ≤ o) :
    byte_sys.lseek s fd o = (o, s.seek o.toNat) := by
  simp [byte_sys, not_lt.mpr ho]

theorem byte_write (s : ByteFile) (fd : Int) (buf n : Nat) :
    byte_sys.xfer .wr s fd buf n = ((n : Int), (s.put buf n s.pos).seek (s.pos + n)) := rfl

theorem byte_read (s : ByteFile) (fd : Int) (buf n : Nat) :
    byte_sys.xfer .rd s fd buf n = ((n : Int), (s.get buf n s.pos).seek (s.pos + n)) := rfl

theorem byte_fsync (s : ByteFile) (fd : Int) : byte_sys.fsync s fd = s := rfl

/-- A write loop (single call) over the file of bytes stores the bytes of its plan, each request from the memory at `buf`. -/
theorem byte_write_single (fl : Bool) (fd : Int) (buf fs mx : Nat)
    (offs : List Int) (rem : Nat) (nbytes : Int) (s : ByteFile)
    (hn : 0 ≤ nbytes) (hlt : nbytes + rem < 2 ^ 63) (hoffs : ∀ o ∈ offs, 0 ≤ o ∧ o < 2 ^ 63)
    (hcap : rem ≤ oset_capacity fs mx offs) :
    (oset_loop_single_op byte_sys .wr fl fd buf fs mx offs rem nbytes s).out =
        .ret (nbytes + rem) ∧
      (oset_loop_single_op byte_sys .wr fl fd buf fs mx offs rem nbytes s).os.mem = s.mem ∧
      (oset_loop_single_op byte_sys .wr fl fd buf fs mx offs rem nbytes s).os.rlog = s.rlog ∧
      (oset_loop_single_op byte_sys .wr fl fd buf fs mx offs rem nbytes s).os.wlog =
        s.wlog ++ (oset_plan fs mx rem offs).map (fun p => (p.1, bytes_of s.mem buf p.2)) ∧
      (oset_loop_single_op byte_sys .wr fl fd buf fs mx offs rem nbytes s).os.data =
        apply_plan s.mem buf (oset_plan fs mx rem offs) s.data := by
  induction offs generalizing rem nbytes s with
  | nil =>
    have : rem = 0 := by simpa [oset_capacity] using hcap
    subst this
    simp [oset_loop_single_op, oset_plan, apply_plan]
  | cons o offs ih =>
    by_cases hrem : rem = 0
    · subst hrem
      simp [oset_loop_single_op_nil, oset_plan, apply_plan]
    · have ho' := hoffs o (by simp)
      have ho := ho'.1
      have hle := oset_req_size_le_remaining fs mx rem o
      have hx : wrap_ssize ((oset_req_size fs mx rem o : Nat) : Int) =
          ((oset_req_size fs mx rem o : Nat) : Int) := wrap_ssize_of_range (by omega) (by omega)
      have hacc : ¬ ((oset_req_size fs mx rem o : Nat) : Int) <
          to_ssize (oset_req_size fs mx rem o) := not_lt.mpr (to_ssize_le _)
      have hw : wrap_ssize (nbytes + ((oset_req_size fs mx rem o : Nat) : Int)) =
          nbytes + ((oset_req_size fs mx rem o : Nat) : Int) :=
        wrap_ssize_of_range (by omega) (by omega)
      have ih' := ih (rem - oset_req_size fs mx rem o)
        (nbytes + ((oset_req_size fs mx rem o : Nat) : Int))
        (s.put buf (oset_req_size fs mx rem o) o.toNat) (by omega) (by omega)
        (fun x hx => hoffs x (by simp [hx])) (oset_capacity_step fs mx rem o offs hcap)
      have hon : ((o.toNat : Nat) : Int) = o := Int.toNat_of_nonneg ho
      simp only [oset_loop_single_op, if_pos (And.intro hrem hn), byte_pwrite _ _ _ _ _ ho, byte_fsync, hx, hacc, hw, if_false,
        size_sub_of_le (show rem < 2 ^ 64 by omega) hle, oset_plan, if_neg hrem, apply_plan,
        List.map_cons]
      cases fl
      · simp only [Bool.false_eq_true, if_false, Res.after_out, Res.after_os]
        refine ⟨?_, ih'.2.1, ih'.2.2.1, ?_, ih'.2.2.2.2⟩
        · rw [ih'.1]; exact congrArg Outcome.ret (by clear ih ih' hx hacc hw hoffs hcap; omega)
        · rw [ih'.2.2.2.1]; simp [ByteFile.put, ByteFile.seek, hon]
      · simp only [if_true, Res.after_out, Res.after_os]
        refine ⟨?_, ih'.2.1, ih'.2.2.1, ?_, ih'.2.2.2.2⟩
        · rw [ih'.1]; exact congrArg Outcome.ret (by clear ih ih' hx hacc hw hoffs hcap; omega)
        · rw [ih'.2.2.2.1]; simp [ByteFile.put, ByteFile.seek, hon]

/-- A write loop (seek, then transfer) over the file of bytes stores the bytes of its plan, each request from the memory at `buf`. -/
theorem byte_write_seek (fl : Bool) (fd : Int) (buf fs mx : Nat)
    (offs : List Int) (rem rq : Nat) (nbytes : Int) (s : ByteFile)
    (hn : 0 ≤ nbytes) (hlt : nbytes + rem < 2 ^ 63) (hoffs : ∀ o ∈ offs, 0 ≤ o ∧ o < 2 ^ 63)
    (hcap : rem ≤ oset_capacity fs mx offs) :
    (oset_loop_seek byte_sys .wr fl fd buf fs mx offs rem rq nbytes s).out =
        .ret (nbytes + rem) ∧
      (oset_loop_seek byte_sys .wr fl fd buf fs mx offs rem rq nbytes s).os.mem = s.mem ∧
      (oset_loop_seek byte_sys .wr fl fd buf fs mx offs rem rq nbytes s).os.rlog = s.rlog ∧
      (oset_loop_seek byte_sys .wr fl fd buf fs mx offs rem rq nbytes s).os.wlog =
        s.wlog ++ (oset_plan fs mx rem offs).map (fun p => (p.1, bytes_of s.mem buf p.2)) ∧
      (oset_loop_seek byte_sys .wr fl fd buf fs mx offs rem rq nbytes s).os.data =
        apply_plan s.mem buf (oset_plan fs mx rem offs) s.data := by
  induction offs generalizing rem rq nbytes s with
  | nil =>
    have : rem = 0 := by simpa [oset_capacity] using hcap
    subst this
    simp [oset_loop_seek, oset_plan, apply_plan]
  | cons o offs ih =>
    by_cases hrem : rem = 0
    · subst hrem
      simp [oset_loop_seek_nil, oset_plan, apply_plan]
    · have ho' := hoffs o (by simp)
      have ho := ho'.1
      have hle := oset_req_size_le_remaining fs mx rem o
      have hx : wrap_ssize ((oset_req_size fs mx rem o : Nat) : Int) =
          ((oset_req_size fs mx rem o : Nat) : Int) := wrap_ssize_of_range (by omega) (by omega)
      have hacc : ¬ ((oset_req_size fs mx rem o : Nat) : Int) <
          to_ssize (oset_req_size fs mx rem o) := not_lt.mpr (to_ssize_le _)
      have hw : wrap_ssize (nbytes + ((oset_req_size fs mx rem o : Nat) : Int)) =
          nbytes + ((oset_req_size fs mx rem o : Nat) : Int) :=
        wrap_ssize_of_range (by omega) (by omega)
      have hpos : ¬ wrap_ssize o < 0 := by
        rw [wrap_ssize_of_range (by omega) ho'.2]
        omega
      have ih' := ih (rem - oset_req_size fs mx rem o) (oset_req_size fs mx rem o)
        (nbytes + ((oset_req_size fs mx rem o : Nat) : Int))
        (((s.seek o.toNat).put buf (oset_req_size fs mx rem o) (s.seek o.toNat).pos).seek
          ((s.seek o.toNat).pos + oset_req_size fs mx rem o)) (by omega) (by omega)
        (fun x hx => hoffs x (by simp [hx])) (oset_capacity_step fs mx rem o offs hcap)
      have hon : ((o.toNat : Nat) : Int) = o := Int.toNat_of_nonneg ho
      simp only [oset_loop_seek, if_pos (And.intro hrem hn), byte_lseek _ _ _ ho, byte_write, byte_fsync, hx, hacc,
        hw, hpos, if_false, size_sub_of_le (show rem < 2 ^ 64 by omega) hle, oset_plan,
        if_neg hrem, apply_plan, List.map_cons]
      cases fl
      · simp only [Bool.false_eq_true, if_false, Res.after_out, Res.after_os]
        refine ⟨?_, ih'.2.1, ih'.2.2.1, ?_, ih'.2.2.2.2⟩
        · rw [ih'.1]; exact congrArg Outcome.ret (by clear ih ih' hx hacc hw hoffs hcap; omega)
        · rw [ih'.2.2.2.1]; simp [ByteFile.put, ByteFile.seek, hon]
      · simp only [if_true, Res.after_out, Res.after_os]
        refine ⟨?_, ih'.2.1, ih'.2.2.1, ?_, ih'.2.2.2.2⟩
        · rw [ih'.1]; exact congrArg Outcome.ret (by clear ih ih' hx hacc hw hoffs hcap; omega)
        · rw [ih'.2.2.2.1]; simp [ByteFile.put, ByteFile.seek, hon]

/-- A read loop (single call) over the file of bytes returns the stored bytes of its plan and leaves the file as it is. -/
theorem byte_read_single (fl : Bool) (fd : Int) (buf fs mx : Nat)
    (offs : List Int) (rem : Nat) (nbytes : Int) (s : ByteFile)
    (hn : 0 ≤ nbytes) (hlt : nbytes + rem < 2 ^ 63) (hoffs : ∀ o ∈ offs, 0 ≤ o ∧ o < 2 ^ 63)
    (hcap : rem ≤ oset_capacity fs mx offs) :
    (oset_loop_single_op byte_sys .rd fl fd buf fs mx offs rem nbytes s).out =
        .ret (nbytes + rem) ∧
      (oset_loop_single_op byte_sys .rd fl fd buf fs mx offs rem nbytes s).os.data = s.data ∧
      (oset_loop_single_op byte_sys .rd fl fd buf fs mx offs rem nbytes s).os.wlog = s.wlog ∧
      (oset_loop_single_op byte_sys .rd fl fd buf fs mx offs rem nbytes s).os.rlog =
        s.rlog ++ (oset_plan fs mx rem offs).map (fun p => (p.1, bytes_of s.data p.1.toNat p.2)) := by
  induction offs generalizing rem nbytes s with
  | nil =>
    have : rem = 0 := by simpa [oset_capacity] using hcap
    subst this
    simp [oset_loop_single_op, oset_plan, apply_plan]
  | cons o offs ih =>
    by_cases hrem : rem = 0
    · subst hrem
      simp [oset_loop_single_op_nil, oset_plan, apply_plan]
    · have ho' := hoffs o (by simp)
      have ho := ho'.1
      have hle := oset_req_size_le_remaining fs mx rem o
      have hx : wrap_ssize ((oset_req_size fs mx rem o : Nat) : Int) =
          ((oset_req_size fs mx rem o : Nat) : Int) := wrap_ssize_of_range (by omega) (by omega)
      have hacc : ¬ ((oset_req_size fs mx rem o : Nat) : Int) <
          to_ssize (oset_req_size fs mx rem o) := not_lt.mpr (to_ssize_le _)
      have hw : wrap_ssize (nbytes + ((oset_req_size fs mx rem o : Nat) : Int)) =
          nbytes + ((oset_req_size fs mx rem o : Nat) : Int) :=
        wrap_ssize_of_range (by omega) (by omega)
      have ih' := ih (rem - oset_req_size fs mx rem o)
        (nbytes + ((oset_req_size fs mx rem o : Nat) : Int))
        (s.get buf (oset_req_size fs mx rem o) o.toNat) (by omega) (by omega)
        (fun x hx => hoffs x (by simp [hx])) (oset_capacity_step fs mx rem o offs hcap)
      have hon : ((o.toNat : Nat) : Int) = o := Int.toNat_of_nonneg ho
      simp only [oset_loop_single_op, if_pos (And.intro hrem hn), byte_pread _ _ _ _ _ ho, byte_fsync, hx, hacc, hw, if_false,
        size_sub_of_le (show rem < 2 ^ 64 by omega) hle, oset_plan, if_neg hrem, apply_plan,
        List.map_cons]
      cases fl
      · simp only [Bool.false_eq_true, if_false, Res.after_out, Res.after_os]
        refine ⟨?_, ih'.2.1, ih'.2.2.1, ?_⟩
        · rw [ih'.1]; exact congrArg Outcome.ret (by clear ih ih' hx hacc hw hoffs hcap; omega)
        · rw [ih'.2.2.2]; simp [ByteFile.get, ByteFile.seek, hon]
      · simp only [if_true, Res.after_out, Res.after_os]
        refine ⟨?_, ih'.2.1, ih'.2.2.1, ?_⟩
        · rw [ih'.1]; exact congrArg Outcome.ret (by clear ih ih' hx hacc hw hoffs hcap; omega)
        · rw [ih'.2.2.2]; simp [ByteFile.get, ByteFile.seek, hon]

/-- A read loop (seek, then transfer) over the file of bytes returns the stored bytes of its plan and leaves the file as it is. -/
theorem byte_read_seek (fl : Bool) (fd : Int) (buf fs mx : Nat)
    (offs : List Int) (rem rq : Nat) (nbytes : Int) (s : ByteFile)
    (hn : 0 ≤ nbytes) (hlt : nbytes + rem < 2 ^ 63) (hoffs : ∀ o ∈ offs, 0 ≤ o ∧ o < 2 ^ 63)
    (hcap : rem ≤ oset_capacity fs mx offs) :
    (oset_loop_seek byte_sys .rd fl fd buf fs mx offs rem rq nbytes s).out =
        .ret (nbytes + rem) ∧
      (oset_loop_seek byte_sys .rd fl fd buf fs mx offs rem rq nbytes s).os.data = s.data ∧
      (oset_loop_seek byte_sys .rd fl fd buf fs mx offs rem rq nbytes s).os.wlog = s.wlog ∧
      (oset_loop_seek byte_sys .rd fl fd buf fs mx offs rem rq nbytes s).os.rlog =
        s.rlog ++ (oset_plan fs mx rem offs).map (fun p => (p.1, bytes_of s.data p.1.toNat p.2)) := by
  induction offs generalizing rem rq nbytes s with
  | nil =>
    have : rem = 0 := by simpa [oset_capacity] using hcap
    subst this
    simp [oset_loop_seek, oset_plan, apply_plan]
  | cons o offs ih =>
    by_cases hrem : rem = 0
    · subst hrem
      simp [oset_loop_seek_nil, oset_plan, apply_plan]
    · have ho' := hoffs o (by simp)
      have ho := ho'.1
      have hle := oset_req_size_le_remaining fs mx rem o
      have hx : wrap_ssize ((oset_req_size fs mx rem o : Nat) : Int) =
          ((oset_req_size fs mx rem o : Nat) : Int) := wrap_ssize_of_range (by omega) (by omega)
      have hacc : ¬ ((oset_req_size fs mx rem o : Nat) : Int) <
          to_ssize (oset_req_size fs mx rem o) := not_lt.mpr (to_ssize_le _)
      have hw : wrap_ssize (nbytes + ((oset_req_size fs mx rem o : Nat) : Int)) =
          nbytes + ((oset_req_size fs mx rem o : Nat) : Int) :=
        wrap_ssize_of_range (by omega) (by omega)
      have hpos : ¬ wrap_ssize o < 0 := by
        rw [wrap_ssize_of_range (by omega) ho'.2]
        omega
      have ih' := ih (rem - oset_req_size fs mx rem o) (oset_req_size fs mx rem o)
        (nbytes + ((oset_req_size fs mx rem o : Nat) : Int))
        (((s.seek o.toNat).get buf (oset_req_size fs mx rem o) (s.seek o.toNat).pos).seek
          ((s.seek o.toNat).pos + oset_req_size fs mx rem o)) (by omega) (by omega)
        (fun x hx => hoffs x (by simp [hx])) (oset_capacity_step fs mx rem o offs hcap)
      have hon : ((o.toNat : Nat) : Int) = o := Int.toNat_of_nonneg ho
      simp only [oset_loop_seek, if_pos (And.intro hrem hn), byte_lseek _ _ _ ho, byte_read, byte_fsync, hx, hacc,
        hw, hpos, if_false, size_sub_of_le (show rem < 2 ^ 64 by omega) hle, oset_plan,
        if_neg hrem, apply_plan, List.map_cons]
      cases fl
      · simp only [Bool.false_eq_true, if_false, Res.after_out, Res.after_os]
        refine ⟨?_, ih'.2.1, ih'.2.2.1, ?_⟩
        · rw [ih'.1]; exact congrArg Outcome.ret (by clear ih ih' hx hacc hw hoffs hcap; omega)
        · rw [ih'.2.2.2]; simp [ByteFile.get, ByteFile.seek, hon]
      · simp only [if_true, Res.after_out, Res.after_os]
        refine ⟨?_, ih'.2.1, ih'.2.2.1, ?_⟩
        · rw [ih'.1]; exact congrArg Outcome.ret (by clear ih ih' hx hacc hw hoffs hcap; omega)
        · rw [ih'.2.2.2]; simp [ByteFile.get, ByteFile.seek, hon]

theorem apply_plan_frame (mem : Nat → Nat) (buf : Nat) (plan : List (Int × Nat))
    (data : Nat → Nat) (p : Nat)
    (h : ∀ q ∈ plan, p < q.1.toNat ∨ q.1.toNat + q.2 ≤ p) :
    apply_plan mem buf plan data p = data p := by
  induction plan generalizing data with
  | nil => rfl
  | cons q plan ih =>
    obtain ⟨o, n⟩ := q
    simp only [apply_plan]
    rw [ih _ (fun x hx => h x (by simp [hx]))]
    have := h (o, n) (by simp)
    simp only [store]
    rw [if_neg (by omega)]

/-- After the writes of a plan whose requests do not overlap, the file holds,
at every offset of the plan, the bytes of the request written there. -/
theorem apply_plan_bytes (mem : Nat → Nat) (buf : Nat) (plan : List (Int × Nat))
    (data : Nat → Nat)
    (hsep : plan.Pairwise (fun a b => a.1.toNat + a.2 ≤ b.1.toNat ∨ b.1.toNat + b.2 ≤ a.1.toNat))
    (q : Int × Nat) (hq : q ∈ plan) (j : Nat) (hj : j < q.2) :
    apply_plan mem buf plan data (q.1.toNat + j) = mem (buf + j) := by
  induction plan generalizing data with
  | nil => simp at hq
  | cons x plan ih =>
    obtain ⟨o, n⟩ := x
    rw [List.pairwise_cons] at hsep
    simp only [apply_plan]
    rcases List.mem_cons.mp hq with rfl | hq'
    · rw [apply_plan_frame]
      · simp only [store]
        rw [if_pos (by simp only at hj; omega)]
        simp
      · intro b hb
        have := hsep.1 b hb
        simp only at this hj ⊢
        omega
    · exact ih _ hsep.2 hq'

theorem oset_plan_mem (fs mx : Nat) (offs : List Int) (rem : Nat) (q : Int × Nat)
    (hq : q ∈ oset_plan fs mx rem offs) : q.1 ∈ offs ∧ q.2 ≤ mx := by
  induction offs generalizing rem with
  | nil => simp [oset_plan] at hq
  | cons o offs ih =>
    simp only [oset_plan] at hq
    split_ifs at hq with hrem
    · simp at hq
    · rcases List.mem_cons.mp hq with rfl | hq'
      · exact ⟨by simp, oset_req_size_le_max fs mx rem o⟩
      · have := ih _ hq'
        exact ⟨by simp [this.1], this.2⟩

theorem oset_plan_pairwise (fs mx : Nat) (offs : List Int) (rem : Nat)
    (hoffs : ∀ o ∈ offs, 0 ≤ o ∧ o < 2 ^ 63)
    (hsep : offs.Pairwise (fun a b => a + (mx : Int) ≤ b ∨ b + (mx : Int) ≤ a)) :
    (oset_plan fs mx rem offs).Pairwise
      (fun a b => a.1.toNat + a.2 ≤ b.1.toNat ∨ b.1.toNat + b.2 ≤ a.1.toNat) := by
  induction offs generalizing rem with
  | nil => simp [oset_plan]
  | cons o offs ih =>
    rw [List.pairwise_cons] at hsep
    simp only [oset_plan]
    split_ifs with hrem
    · simp
    · rw [List.pairwise_cons]
      refine ⟨fun b hb => ?_, ih _ (fun x hx => hoffs x (by simp [hx])) hsep.2⟩
      have hb' := oset_plan_mem fs mx offs _ b hb
      have h1 := hsep.1 b.1 hb'.1
      have h2 := oset_req_size_le_max fs mx rem o
      have h3 := (hoffs o (by simp)).1
      have h4 := (hoffs b.1 (by simp [hb'.1])).1
      simp only
      omega

theorem bytes_of_congr (f g : Nat → Nat) (a b n : Nat) (h : ∀ j < n, f (a + j) = g (b + j)) :
    bytes_of f a n = bytes_of g b n := by
  unfold bytes_of
  apply List.map_congr_left
  intro j hj
  exact h j (List.mem_range.mp hj)

theorem final_flush_byte_os (wf : Bool) (fd : Int) (r : Res ByteFile) :
    (final_flush byte_sys wf fd r).os = r.os := by
  unfold final_flush
  split
  · split_ifs <;> rfl
  · rfl

/-- The loops of the two offset-set entries over the file of bytes, in either
strategy. -/
theorem byte_write_loop (fl single : Bool) (fd : Int) (buf fs mx : Nat)
    (offs : List Int) (rem rq : Nat) (s : ByteFile)
    (hlt : rem < 2 ^ 63) (hoffs : ∀ o ∈ offs, 0 ≤ o ∧ o < 2 ^ 63)
    (hcap : rem ≤ oset_capacity fs mx offs) :
    (oset_loop byte_sys .wr fl single fd buf fs mx offs rem rq 0 s).out = .ret rem ∧
      (oset_loop byte_sys .wr fl single fd buf fs mx offs rem rq 0 s).os.mem = s.mem ∧
      (oset_loop byte_sys .wr fl single fd buf fs mx offs rem rq 0 s).os.rlog = s.rlog ∧
      (oset_loop byte_sys .wr fl single fd buf fs mx offs rem rq 0 s).os.wlog =
        s.wlog ++ (oset_plan fs mx rem offs).map (fun p => (p.1, bytes_of s.mem buf p.2)) ∧
      (oset_loop byte_sys .wr fl single fd buf fs mx offs rem rq 0 s).os.data =
        apply_plan s.mem buf (oset_plan fs mx rem offs) s.data := by
  unfold oset_loop
  cases single
  · simpa using byte_write_seek fl fd buf fs mx offs rem rq 0 s (le_refl 0) (by omega) hoffs hcap
  · simpa using byte_write_single fl fd buf fs mx offs rem 0 s (le_refl 0) (by omega) hoffs hcap

theorem byte_read_loop (fl single : Bool) (fd : Int) (buf fs mx : Nat)
    (offs : List Int) (rem rq : Nat) (s : ByteFile)
    (hlt : rem < 2 ^ 63) (hoffs : ∀ o ∈ offs, 0 ≤ o ∧ o < 2 ^ 63)
    (hcap : rem ≤ oset_capacity fs mx offs) :
    (oset_loop byte_sys .rd fl single fd buf fs mx offs rem rq 0 s).out = .ret rem ∧
      (oset_loop byte_sys .rd fl single fd buf fs mx offs rem rq 0 s).os.data = s.data ∧
      (oset_loop byte_sys .rd fl single fd buf fs mx offs rem rq 0 s).os.wlog = s.wlog ∧
      (oset_loop byte_sys .rd fl single fd buf fs mx offs rem rq 0 s).os.rlog =
        s.rlog ++
          (oset_plan fs mx rem offs).map (fun p => (p.1, bytes_of s.data p.1.toNat p.2)) := by
  unfold oset_loop
  cases single
  · simpa using byte_read_seek fl fd buf fs mx offs rem rq 0 s (le_refl 0) (by omega) hoffs hcap
  · simpa using byte_read_single fl fd buf fs mx offs rem 0 s (le_refl 0) (by omega) hoffs hcap

/-- C8, as amended: over the file of bytes, for every offset-set workload with
a data volume below `2 ^ 63` and every array of non-negative offsets that are
pairwise at least `my_req_size` apart (no two requests overlap) and suffice for
the volume: `posix_write_oset` from a buffer and then `posix_read_oset` with
the same workload, file and offsets both return `my_data_size`, and the reads
return, offset by offset and in order, the very bytes the writes stored there:
for each request the first bytes of the buffer. -/
theorem write_read_round_trip (file : iore_file_t) (buf rbuf : Nat) (offs : List Int)
    (test : iore_test_t) (rq0 rq1 : Nat) (s0 : ByteFile)
    (hvol : test.oset.my_data_size < 2 ^ 63)
    (hoffs : ∀ o ∈ offs, 0 ≤ o ∧ o < 2 ^ 63)
    (hsep : offs.Pairwise
      (fun a b => a + (test.oset.my_req_size : Int) ≤ b ∨ b + (test.oset.my_req_size : Int) ≤ a))
    (hcap : test.oset.my_data_size ≤
      oset_capacity test.oset._file_size test.oset.my_req_size offs)
    (hlog : s0.wlog = [] ∧ s0.rlog = []) :
    (posix_write_oset byte_sys file buf offs test rq0 s0).out = .ret test.oset.my_data_size ∧
      (posix_read_oset byte_sys file rbuf offs test rq1
        (posix_write_oset byte_sys file buf offs test rq0 s0).os).out =
        .ret test.oset.my_data_size ∧
      (posix_read_oset byte_sys file rbuf offs test rq1
        (posix_write_oset byte_sys file buf offs test rq0 s0).os).os.rlog =
      (posix_read_oset byte_sys file rbuf offs test rq1
        (posix_write_oset byte_sys file buf offs test rq0 s0).os).os.wlog ∧
      (posix_read_oset byte_sys file rbuf offs test rq1
        (posix_write_oset byte_sys file buf offs test rq0 s0).os).os.wlog =
        (oset_plan test.oset._file_size test.oset.my_req_size test.oset.my_data_size offs).map
          (fun p => (p.1, bytes_of s0.mem buf p.2)) := by
  have hw := byte_write_loop test.write_flush_per_req test.seek_rw_single_op file.hdle_fint buf
    test.oset._file_size test.oset.my_req_size offs test.oset.my_data_size rq0 s0 hvol hoffs hcap
  have hr := byte_read_loop false test.seek_rw_single_op file.hdle_fint rbuf
    test.oset._file_size test.oset.my_req_size offs test.oset.my_data_size rq1
    (posix_write_oset byte_sys file buf offs test rq0 s0).os hvol hoffs hcap
  rw [posix_read_oset_eq]
  have hos : (posix_write_oset byte_sys file buf offs test rq0 s0).os =
      (oset_loop byte_sys .wr test.write_flush_per_req test.seek_rw_single_op file.hdle_fint buf
        test.oset._file_size test.oset.my_req_size offs test.oset.my_data_size rq0 0 s0).os := by
    rw [posix_write_oset_eq, final_flush_byte_os]
  refine ⟨?_, hr.1, ?_, ?_⟩
  · rw [posix_write_oset_eq, (final_flush_eq _ _ _ _).1]
    exact hw.1
  · rw [hr.2.2.2, hr.2.2.1, hos, hw.2.2.1, hw.2.2.2.1, hw.2.2.2.2, hlog.1, hlog.2]
    simp only [List.nil_append]
    apply List.map_congr_left
    intro q hq
    have hpw := oset_plan_pairwise test.oset._file_size test.oset.my_req_size offs
      test.oset.my_data_size hoffs hsep
    rw [bytes_of_congr _ s0.mem q.1.toNat buf q.2
      (fun j hj => apply_plan_bytes s0.mem buf _ s0.data hpw q hq j hj)]
  · rw [hr.2.2.1, hos, hw.2.2.2.1, hlog.1]
    simp

theorem write_read_round_trip_witness :
    (posix_write_oset byte_sys file3 0 [0, 256, 512, 768] (test_1024 false true true) 0
        blank_file).out = .ret (test_1024 false true true).oset.my_data_size ∧
      (posix_read_oset byte_sys file3 5000 [0, 256, 512, 768] (test_1024 false true true) 0
        (posix_write_oset byte_sys file3 0 [0, 256, 512, 768] (test_1024 false true true) 0
          blank_file).os).out = .ret (test_1024 false true true).oset.my_data_size ∧
      (posix_read_oset byte_sys file3 5000 [0, 256, 512, 768] (test_1024 false true true) 0
        (posix_write_oset byte_sys file3 0 [0, 256, 512, 768] (test_1024 false true true) 0
          blank_file).os).os.rlog =
      (posix_read_oset byte_sys file3 5000 [0, 256, 512, 768] (test_1024 false true true) 0
        (posix_write_oset byte_sys file3 0 [0, 256, 512, 768] (test_1024 false true true) 0
          blank_file).os).os.wlog ∧
      (posix_read_oset byte_sys file3 5000 [0, 256, 512, 768] (test_1024 false true true) 0
        (posix_write_oset byte_sys file3 0 [0, 256, 512, 768] (test_1024 false true true) 0
          blank_file).os).os.wlog =
        (oset_plan (test_1024 false true true).oset._file_size
          (test_1024 false true true).oset.my_req_size
          (test_1024 false true true).oset.my_data_size [0, 256, 512, 768]).map
          (fun p => (p.1, bytes_of blank_file.mem 0 p.2)) :=
  write_read_round_trip file3 0 5000 [0, 256, 512, 768] (test_1024 false true true) 0 0
    blank_file (by decide) (by decide) (by decide) (by decide) ⟨rfl, rfl⟩

/-- C8, as written, fails in two places.  Offsets whose requests overlap: with
requests of 2 bytes at the offsets 0 and 1, from a buffer holding the bytes
1, 2, both calls return the volume 4, the writes stored 1, 2 at offset 0 and
1, 2 at offset 1, and the reads return 1, 1 at offset 0.  An offset array too
short for the volume: with one offset for 4 bytes in requests of 2, the write
loop reads behind the array. -/
theorem round_trip_as_written_fails :
    ((posix_write_oset byte_sys file3 1 [0, 1] (mk_test 1024 4 2 dset_2_3_4 true false false) 0
        blank_file).out = .ret 4 ∧
      (posix_read_oset byte_sys file3 5000 [0, 1] (mk_test 1024 4 2 dset_2_3_4 true false false) 0
        (posix_write_oset byte_sys file3 1 [0, 1] (mk_test 1024 4 2 dset_2_3_4 true false false) 0
          blank_file).os).out = .ret 4 ∧
      (posix_read_oset byte_sys file3 5000 [0, 1] (mk_test 1024 4 2 dset_2_3_4 true false false) 0
        (posix_write_oset byte_sys file3 1 [0, 1] (mk_test 1024 4 2 dset_2_3_4 true false false) 0
          blank_file).os).os.wlog = [(0, [1, 2]), (1, [1, 2])] ∧
      (posix_read_oset byte_sys file3 5000 [0, 1] (mk_test 1024 4 2 dset_2_3_4 true false false) 0
        (posix_write_oset byte_sys file3 1 [0, 1] (mk_test 1024 4 2 dset_2_3_4 true false false) 0
          blank_file).os).os.rlog = [(0, [1, 1]), (1, [1, 2])]) ∧
    (posix_write_oset byte_sys file3 1 [0] (mk_test 1024 4 2 dset_2_3_4 true false false) 0
        blank_file).out = .fault := by
  decide

/-! ## Release of the offset sequence -/

/-- C9, as amended: in a dataset entry whose generator returned a sequence and
whose loop does not read behind the end of that sequence, the trace is the
call of the generator, then seek, transfer and flush calls only, then one
`free` of the pointer the generator returned, as the last call; this holds
whether the loop ended well or on a failed call.  The loop stays inside the
sequence, whatever the system calls return, whenever the request size is from
1 to `2 ^ 63 - 1` and the sequence has at least `ceil (my_size / req_size)`
entries.  In a dataset entry that ends before the generator returned a
sequence, no `free` is issued. -/
theorem offset_sequence_released_once {σ : Type} (S : Sys σ)
    (gen : iore_dset_t → Nat → Option OffSeq) (op : Op) (file : iore_file_t) (buf : Nat)
    (offs : List Int) (test : iore_test_t) (rq0 : Nat) (s : σ) (hop : op.is_dset = true) :
    (∀ seq, test.dset.type = .IORE_WKLD_DSET_CARTESIAN →
      gen test.dset test.file_mode = some seq →
      (1 ≤ dset_req_size test.dset → dset_req_size test.dset < 2 ^ 63 →
        ceil_div test.dset.my_size (dset_req_size test.dset) ≤ seq.entries.length →
        (transfer S gen op file buf offs test rq0 s).out ≠ .fault) ∧
      ((transfer S gen op file buf offs test rq0 s).out ≠ .fault →
        ∃ io, (transfer S gen op file buf offs test rq0 s).trace =
            Event.dset_to_off (some seq.ptr) :: (io ++ [Event.free seq.ptr]) ∧
          ∀ e ∈ io, e.is_io = true)) ∧
    (fails_before_loop gen op test = true →
      ∀ e ∈ (transfer S gen op file buf offs test rq0 s).trace, ∀ p, e ≠ Event.free p) := by
  have hframe := transfer_frame S gen op file buf offs test rq0 s
  refine ⟨fun seq hk hg => ⟨fun hrq1 hrq hlen => ?_, fun hnf => ?_⟩, fun hearly e he p => ?_⟩
  · obtain ⟨tail, -, hout, -⟩ := transfer_dset_parts S gen op file buf offs test rq0 s seq
      hop hk hg
    have hceil : test.dset.my_size ≤
        ceil_div test.dset.my_size (dset_req_size test.dset) * dset_req_size test.dset := by
      unfold ceil_div
      have h := Nat.div_add_mod (test.dset.my_size + dset_req_size test.dset - 1)
        (dset_req_size test.dset)
      have h' := Nat.mod_lt (test.dset.my_size + dset_req_size test.dset - 1) hrq1
      rw [Nat.mul_comm] at h
      omega
    rw [hout]
    exact (dset_loop_bound S op.dir (op.is_write && test.write_flush_per_req)
      test.seek_rw_single_op file.hdle_fint buf test.dset.my_size (dset_req_size test.dset)
      seq.entries 0 s (ceil_div test.dset.my_size (dset_req_size test.dset)) hrq (by
        have := to_ssize_le test.dset.my_size
        omega)).2 hlen
  · obtain ⟨l, hshape, hout, htr⟩ := hframe.2 (by simp [fails_before_loop, hop, hk, hg])
    rw [hout] at hnf
    refine ⟨l.trace ++ final_flush_calls op test file.hdle_fint l.out, ?_, ?_⟩
    · rw [htr, if_neg hnf]
      simp [prologue, epilogue, hop, hk, hg]
    · intro e he
      rcases List.mem_append.mp he with he | he
      · exact hshape.only_io e he
      · exact (final_flush_calls_io op test _ _ e he).1
  · rw [hframe.1 hearly] at he
    exact (prologue_not_io gen op test e he).2.2.2 p

theorem offset_sequence_released_once_witness :
    ∃ io, (transfer flaky_sys (gen_const 7 [0, 32, 64, 96, 128, 160]) .write_dset file3 0 []
        (test_1024 false true true) 0 0).trace =
          Event.dset_to_off (some 7) :: (io ++ [Event.free 7]) ∧
        ∀ e ∈ io, e.is_io = true :=
  ((offset_sequence_released_once flaky_sys (gen_const 7 [0, 32, 64, 96, 128, 160]) .write_dset
    file3 0 [] (test_1024 false true true) 0 0 rfl).1 ⟨7, [0, 32, 64, 96, 128, 160]⟩ rfl rfl).2
    (((offset_sequence_released_once flaky_sys (gen_const 7 [0, 32, 64, 96, 128, 160]) .write_dset
      file3 0 [] (test_1024 false true true) 0 0 rfl).1 ⟨7, [0, 32, 64, 96, 128, 160]⟩ rfl
      rfl).1 (by decide) (by decide) (by decide))

/-- C9, as written, fails when the generated sequence is shorter than the loop
needs: with `my_size = 64`, requests of 32 bytes and a sequence of one offset,
the generator returned a sequence, the first transfer is full, the second
iteration reads behind the end of the sequence, and no `free` has been issued. -/
theorem release_as_written_fails :
    gen_const 7 [0] (cartesian 8 [4] 64) 0 = some ⟨7, [0]⟩ ∧
      (transfer ideal_sys (gen_const 7 [0]) .read_dset file3 0 []
          (mk_test 0 0 0 (cartesian 8 [4] 64) true false false) 0 ()).out = .fault ∧
      (transfer ideal_sys (gen_const 7 [0]) .read_dset file3 0 []
          (mk_test 0 0 0 (cartesian 8 [4] 64) true false false) 0 ()).trace =
        [Event.dset_to_off (some 7), Event.pread 3 0 32 0 32] := by
  decide

end Iore
